import Mathlib

/-! Sequence alignment (`main.cpp`): memoized `opt` and `traceback`

A shallow embedding of the alignment program.  Strings are lists of
characters, and every bounds-checked access (`std::string::at`, `Matrix::at`)
is an `Option`: an out-of-range access makes the whole call return `none`.

The scores are embedded twice.  `opt`, `optLog`, `traceback` and
`tracebackLog` form their sums in the mathematical integers (`Int`); they carry
the statements that exclude overflow in their own words, that concern one
input on which no sum overflows, or that hold whichever branch the arithmetic
picks.  `opt32` and `traceback32` form every sum in 32-bit `int` arithmetic;
they carry the statements in which the value of a sum matters for every
penalty.
-/

namespace Align

/-- The sentinel `const int INF {INT_MAX}` of `main.cpp`, line 12. -/
def INF : Int := 2147483647

/-- The largest `size_t` value (64-bit target). -/
def SIZE_MAX : Nat := 2 ^ 64 - 1

/-- Modelled from the spec: the class `Matrix<int>` of `matrix.h`, which is not
among the sources.  A dense grid of `rows * cols` integer cells with
bounds-checked access. -/
structure Matrix where
  rows : Nat
  cols : Nat
  cells : Nat → Nat → Int

/-- Modelled from the spec: the constructor `Matrix<int>(rows, cols)` followed by
the fill loop of `main` (lines 79-86), every cell set to `v`. -/
def Matrix.fill (rows cols : Nat) (v : Int) : Matrix :=
  { rows := rows, cols := cols, cells := fun _ _ => v }

/-- Modelled from the spec: the bounds-checked read `memo.at(i, j)` of `matrix.h`
(spec 4.1, `get`); out of range is a failure. -/
def Matrix.get (m : Matrix) (i j : Nat) : Option Int :=
  if i < m.rows ∧ j < m.cols then some (m.cells i j) else none

/-- Modelled from the spec: the bounds-checked write `memo.at(i, j) = v` of
`matrix.h` (spec 4.1, `set`); out of range is a failure. -/
def Matrix.set (m : Matrix) (i j : Nat) (v : Int) : Option Matrix :=
  if i < m.rows ∧ j < m.cols then
    some { m with cells := fun a b => if a = i ∧ b = j then v else m.cells a b }
  else none

/-- The function `max3` of `main.cpp`, lines 147-151. -/
def max3 (a b c : Int) : Int :=
  let result := if a > b then a else b
  if result > c then result else c

/-- The order in which the three argument expressions of the `max3` call in
`opt` (lines 188-191) are evaluated.  C++ leaves it unspecified; each argument
is a call of `opt` that writes to the table.  `d` is the diagonal call
`opt(s, i-1, t, j-1)`, `u` the call `opt(s, i-1, t, j)` and `l` the call
`opt(s, i, t, j-1)`. -/
inductive ArgOrder where
  | dul | dlu | udl | uld | ldu | lud
  deriving DecidableEq, Repr

/-- The function `opt` of `main.cpp`, lines 153-195.  The table is passed in and
returned with the score; the result is `none` when an access is out of range.
`ord` fixes the order in which the three recursive calls of the general case
run; the parameter `match_` is the source's `match`, a reserved word here.
Each assignment `memo.at(i, j) = e` evaluates `e` first and then writes, and
the final `return memo.at(i, j)` reads the cell back.  The sums are those of
the mathematical integers; `opt32` forms them in `int`. -/
def opt (ord : ArgOrder) (s : List Char) (i : Nat) (t : List Char) (j : Nat)
    (memo : Matrix) (match_ mismatch gap : Int) : Option (Int × Matrix) := do
  let cur ← memo.get i j
  if cur = INF then
    let a ← s[i]?
    let b ← t[j]?
    let score_type := if a = b then match_ else mismatch
    if _h00 : i = 0 ∧ j = 0 then
      let memo1 ← memo.set i j 0
      let r ← memo1.get i j
      pure (r, memo1)
    else if _h0j : i = 0 ∧ j ≠ 0 then
      let (x, memo1) ← opt ord s i t (j - 1) memo match_ mismatch gap
      let memo2 ← memo1.set i j (x + gap)
      let r ← memo2.get i j
      pure (r, memo2)
    else if _hi0 : j = 0 ∧ i ≠ 0 then
      let (x, memo1) ← opt ord s (i - 1) t j memo match_ mismatch gap
      let memo2 ← memo1.set i j (x + gap)
      let r ← memo2.get i j
      pure (r, memo2)
    else
      let (x, y, z, memo3) ←
        (match ord with
          | .dul => do
            let (x, m1) ← opt ord s (i - 1) t (j - 1) memo match_ mismatch gap
            let (y, m2) ← opt ord s (i - 1) t j m1 match_ mismatch gap
            let (z, m3) ← opt ord s i t (j - 1) m2 match_ mismatch gap
            pure (x, y, z, m3)
          | .dlu => do
            let (x, m1) ← opt ord s (i - 1) t (j - 1) memo match_ mismatch gap
            let (z, m2) ← opt ord s i t (j - 1) m1 match_ mismatch gap
            let (y, m3) ← opt ord s (i - 1) t j m2 match_ mismatch gap
            pure (x, y, z, m3)
          | .udl => do
            let (y, m1) ← opt ord s (i - 1) t j memo match_ mismatch gap
            let (x, m2) ← opt ord s (i - 1) t (j - 1) m1 match_ mismatch gap
            let (z, m3) ← opt ord s i t (j - 1) m2 match_ mismatch gap
            pure (x, y, z, m3)
          | .uld => do
            let (y, m1) ← opt ord s (i - 1) t j memo match_ mismatch gap
            let (z, m2) ← opt ord s i t (j - 1) m1 match_ mismatch gap
            let (x, m3) ← opt ord s (i - 1) t (j - 1) m2 match_ mismatch gap
            pure (x, y, z, m3)
          | .ldu => do
            let (z, m1) ← opt ord s i t (j - 1) memo match_ mismatch gap
            let (x, m2) ← opt ord s (i - 1) t (j - 1) m1 match_ mismatch gap
            let (y, m3) ← opt ord s (i - 1) t j m2 match_ mismatch gap
            pure (x, y, z, m3)
          | .lud => do
            let (z, m1) ← opt ord s i t (j - 1) memo match_ mismatch gap
            let (y, m2) ← opt ord s (i - 1) t j m1 match_ mismatch gap
            let (x, m3) ← opt ord s (i - 1) t (j - 1) m2 match_ mismatch gap
            pure (x, y, z, m3))
      let memo4 ← memo3.set i j (max3 (x + score_type) (y + gap) (z + gap))
      let r ← memo4.get i j
      pure (r, memo4)
  else
    pure (cur, memo)
termination_by i + j
decreasing_by all_goals omega

/-- The plain recurrence of the spec (4.2), without a table: `R 0 0 = 0`, the
borders add `gap`, the interior is the maximum of the three candidates.
Symbols are compared as `s.at(i) == t.at(j)`; `s[i]?` and `t[j]?` agree with
that for in-range indices. -/
def R (s t : List Char) (match_ mismatch gap : Int) : Nat → Nat → Int
  | 0, 0 => 0
  | 0, j + 1 => R s t match_ mismatch gap 0 j + gap
  | i + 1, 0 => R s t match_ mismatch gap i 0 + gap
  | i + 1, j + 1 =>
    max3 (R s t match_ mismatch gap i j
            + (if s[i + 1]? = t[j + 1]? then match_ else mismatch))
         (R s t match_ mismatch gap i (j + 1) + gap)
         (R s t match_ mismatch gap (i + 1) j + gap)

/-- The value of `n - 1` computed in `size_t`, as `s.size() - 1` in `traceback`
(lines 202-203): for an empty string the subtraction wraps to `SIZE_MAX`. -/
def sizePred (n : Nat) : Nat := if n = 0 then SIZE_MAX else n - 1

/-- The `while` loop of `traceback`, `main.cpp` lines 206-230, from the state
`(row, col, optimal_s, optimal_t)`.  It returns the state at loop exit, or
`none` when an access is out of range.  The two output strings are still in
reverse order; `+=` on a string is an append at the end.  The sums of the two
tests are those of the mathematical integers; `tracebackLoop32` forms them in
`int`. -/
def tracebackLoop (memo : Matrix) (s t : List Char) (gap : Int) (row col : Nat)
    (optimal_s optimal_t : List Char) : Option (Nat × Nat × List Char × List Char) :=
  if _h : row > 0 ∧ col > 0 then do
    let above ← memo.get (row - 1) col
    let here ← memo.get row col
    if above + gap = here then
      let c ← s[row]?
      tracebackLoop memo s t gap (row - 1) col (optimal_s ++ [c]) (optimal_t ++ ['-'])
    else
      let left ← memo.get row (col - 1)
      let here2 ← memo.get row col
      if left + gap = here2 then
        let c ← t[col]?
        tracebackLoop memo s t gap row (col - 1) (optimal_s ++ ['-']) (optimal_t ++ [c])
      else
        let a ← s[row]?
        let b ← t[col]?
        tracebackLoop memo s t gap (row - 1) (col - 1) (optimal_s ++ [a]) (optimal_t ++ [b])
  else
    pure (row, col, optimal_s, optimal_t)
termination_by row + col
decreasing_by all_goals omega

/-- The function `traceback` of `main.cpp`, lines 197-239: the loop started at
`(s.size() - 1, t.size() - 1)` with two empty strings, then both strings
reversed.  The result is the pair of strings the function prints. -/
def traceback (memo : Matrix) (s t : List Char) (gap : Int) :
    Option (List Char × List Char) := do
  let (_, _, optimal_s, optimal_t) ←
    tracebackLoop memo s t gap (sizePred s.length) (sizePred t.length) [] []
  pure (optimal_s.reverse, optimal_t.reverse)

/-- The cell at which the loop of `traceback` stops. -/
def tracebackStop (memo : Matrix) (s t : List Char) (gap : Int) : Option (Nat × Nat) := do
  let (row, col, _, _) ←
    tracebackLoop memo s t gap (sizePred s.length) (sizePred t.length) [] []
  pure (row, col)

/-! ## Specification-side notions -/

/-- A table in which every cell holds the sentinel, as `main` prepares it
(lines 79-86) before the first call of `opt`. -/
def SentinelFilled (memo : Matrix) : Prop :=
  ∀ a, a < memo.rows → ∀ b, b < memo.cols → memo.cells a b = INF

instance (memo : Matrix) : Decidable (SentinelFilled memo) := by
  unfold SentinelFilled
  exact inferInstance

/-- Every cell of the rectangle `[0..i] x [0..j]` holds the value `Rf` gives it. -/
def Filled (Rf : Nat → Nat → Int) (m : Matrix) (i j : Nat) : Prop :=
  ∀ a b, a ≤ i → b ≤ j → m.cells a b = Rf a b

/-- The table invariant of the memoized recursion: a cell that does not hold the
sentinel has its whole lower-left rectangle filled with the values of `Rf`. -/
def Inv (Rf : Nat → Nat → Int) (m : Matrix) : Prop :=
  ∀ a b, a < m.rows → b < m.cols → m.cells a b ≠ INF → Filled Rf m a b

/-- How a call of `opt` at `(i, j)` changes the table from `m` to `m'`: the shape
is kept, a cell is either untouched or now holds its `Rf` value, nothing
outside the rectangle `[0..i] x [0..j]` is touched, and the invariant holds. -/
structure Ext (Rf : Nat → Nat → Int) (m m' : Matrix) (i j : Nat) : Prop where
  rows_eq : m'.rows = m.rows
  cols_eq : m'.cols = m.cols
  step : ∀ a b, m'.cells a b = m.cells a b ∨ m'.cells a b = Rf a b
  frame : ∀ a b, i < a ∨ j < b → m'.cells a b = m.cells a b
  inv : Inv Rf m'

/-- One column of a global alignment: two symbols, a symbol of `s` over a gap,
or a gap over a symbol of `t`. -/
inductive Column where
  | pair (a b : Char)
  | overGap (a : Char)
  | gapOver (b : Char)
  deriving DecidableEq, Repr

/-- The score of one column: `match_` for two equal symbols, `mismatch` for two
unequal symbols, `gap` for a column with a gap. -/
def Column.score (match_ mismatch gap : Int) : Column → Int
  | .pair a b => if a = b then match_ else mismatch
  | .overGap _ => gap
  | .gapOver _ => gap

/-- The symbols of the first sequence that an alignment spells, in order. -/
def spellS : List Column → List Char
  | [] => []
  | .pair a _ :: al => a :: spellS al
  | .overGap a :: al => a :: spellS al
  | .gapOver _ :: al => spellS al

/-- The symbols of the second sequence that an alignment spells, in order. -/
def spellT : List Column → List Char
  | [] => []
  | .pair _ b :: al => b :: spellT al
  | .overGap _ :: al => spellT al
  | .gapOver b :: al => b :: spellT al

/-- The sum of the column scores of an alignment. -/
def alignScore (match_ mismatch gap : Int) (al : List Column) : Int :=
  (al.map (Column.score match_ mismatch gap)).sum

/-- The symbols `s[1..i]`: the first `i` symbols after the placeholder. -/
def symbols (s : List Char) (i : Nat) : List Char := (s.drop 1).take i

/-- The symbols `s[r+1..row]`. -/
def segment (s : List Char) (r row : Nat) : List Char := (s.drop (r + 1)).take (row - r)

/-- Removal of the gap markers from a printed string. -/
def dropGaps (xs : List Char) : List Char := xs.filter (fun c => c ≠ '-')

/-- The score of one printed column: `gap` when it contains the gap marker,
otherwise `match_` for two equal symbols and `mismatch` for two unequal ones. -/
def printedColumnScore (match_ mismatch gap : Int) (a b : Char) : Int :=
  if a = '-' ∨ b = '-' then gap else if a = b then match_ else mismatch

/-- The sum of the column scores of two printed strings, column by column. -/
def printedScore (match_ mismatch gap : Int) (xs ys : List Char) : Int :=
  ((List.zip xs ys).map (fun p => printedColumnScore match_ mismatch gap p.1 p.2)).sum

/-! ## Instrumented embedding of `opt` -/

/-- What an instrumented run of `opt` records.  `call depth i j a b`: the frame
of `opt` at `(i, j)` calls `opt` at `(a, b)`, and the new frame has nesting
depth `depth`.  `write i j v`: the assignment `memo.at(i, j) = v`. -/
inductive Event where
  | call (depth i j a b : Nat)
  | write (i j : Nat) (v : Int)
  deriving DecidableEq, Repr

/-- The function `opt` of `main.cpp`, lines 153-195, instrumented: the same
control flow and table accesses as `opt`, plus a log of every recursive call
and of every assignment to the table, in execution order.  Every index
decrement is checked: where `i - 1` or `j - 1` would be computed from 0 (and
wrap around in `size_t`) the run fails with `none`.  `depth` is the nesting
depth of this frame. -/
def optLog (ord : ArgOrder) (s : List Char) (i : Nat) (t : List Char) (j : Nat)
    (memo : Matrix) (match_ mismatch gap : Int) (depth : Nat) :
    Option (Int × Matrix × List Event) := do
  let cur ← memo.get i j
  if cur = INF then
    let a ← s[i]?
    let b ← t[j]?
    let score_type := if a = b then match_ else mismatch
    if _h00 : i = 0 ∧ j = 0 then
      let memo1 ← memo.set i j 0
      let r ← memo1.get i j
      pure (r, memo1, [Event.write i j 0])
    else if _h0j : i = 0 ∧ j ≠ 0 then
      if _hj : j = 0 then none
      else
        let (x, memo1, l1) ← optLog ord s i t (j - 1) memo match_ mismatch gap (depth + 1)
        let memo2 ← memo1.set i j (x + gap)
        let r ← memo2.get i j
        pure (r, memo2,
          Event.call (depth + 1) i j i (j - 1) :: l1 ++ [Event.write i j (x + gap)])
    else if _hi0 : j = 0 ∧ i ≠ 0 then
      if _hi : i = 0 then none
      else
        let (x, memo1, l1) ← optLog ord s (i - 1) t j memo match_ mismatch gap (depth + 1)
        let memo2 ← memo1.set i j (x + gap)
        let r ← memo2.get i j
        pure (r, memo2,
          Event.call (depth + 1) i j (i - 1) j :: l1 ++ [Event.write i j (x + gap)])
    else
      if _hij : i = 0 ∨ j = 0 then none
      else
        let cd := Event.call (depth + 1) i j (i - 1) (j - 1)
        let cu := Event.call (depth + 1) i j (i - 1) j
        let cl := Event.call (depth + 1) i j i (j - 1)
        let (x, y, z, memo3, l) ←
          (match ord with
            | .dul => do
              let (x, m1, l1) ← optLog ord s (i - 1) t (j - 1) memo match_ mismatch gap (depth + 1)
              let (y, m2, l2) ← optLog ord s (i - 1) t j m1 match_ mismatch gap (depth + 1)
              let (z, m3, l3) ← optLog ord s i t (j - 1) m2 match_ mismatch gap (depth + 1)
              pure (x, y, z, m3, (cd :: l1) ++ (cu :: l2) ++ (cl :: l3))
            | .dlu => do
              let (x, m1, l1) ← optLog ord s (i - 1) t (j - 1) memo match_ mismatch gap (depth + 1)
              let (z, m2, l2) ← optLog ord s i t (j - 1) m1 match_ mismatch gap (depth + 1)
              let (y, m3, l3) ← optLog ord s (i - 1) t j m2 match_ mismatch gap (depth + 1)
              pure (x, y, z, m3, (cd :: l1) ++ (cl :: l2) ++ (cu :: l3))
            | .udl => do
              let (y, m1, l1) ← optLog ord s (i - 1) t j memo match_ mismatch gap (depth + 1)
              let (x, m2, l2) ← optLog ord s (i - 1) t (j - 1) m1 match_ mismatch gap (depth + 1)
              let (z, m3, l3) ← optLog ord s i t (j - 1) m2 match_ mismatch gap (depth + 1)
              pure (x, y, z, m3, (cu :: l1) ++ (cd :: l2) ++ (cl :: l3))
            | .uld => do
              let (y, m1, l1) ← optLog ord s (i - 1) t j memo match_ mismatch gap (depth + 1)
              let (z, m2, l2) ← optLog ord s i t (j - 1) m1 match_ mismatch gap (depth + 1)
              let (x, m3, l3) ← optLog ord s (i - 1) t (j - 1) m2 match_ mismatch gap (depth + 1)
              pure (x, y, z, m3, (cu :: l1) ++ (cl :: l2) ++ (cd :: l3))
            | .ldu => do
              let (z, m1, l1) ← optLog ord s i t (j - 1) memo match_ mismatch gap (depth + 1)
              let (x, m2, l2) ← optLog ord s (i - 1) t (j - 1) m1 match_ mismatch gap (depth + 1)
              let (y, m3, l3) ← optLog ord s (i - 1) t j m2 match_ mismatch gap (depth + 1)
              pure (x, y, z, m3, (cl :: l1) ++ (cd :: l2) ++ (cu :: l3))
            | .lud => do
              let (z, m1, l1) ← optLog ord s i t (j - 1) memo match_ mismatch gap (depth + 1)
              let (y, m2, l2) ← optLog ord s (i - 1) t j m1 match_ mismatch gap (depth + 1)
              let (x, m3, l3) ← optLog ord s (i - 1) t (j - 1) m2 match_ mismatch gap (depth + 1)
              pure (x, y, z, m3, (cl :: l1) ++ (cu :: l2) ++ (cd :: l3)))
        let v := max3 (x + score_type) (y + gap) (z + gap)
        let memo4 ← memo3.set i j v
        let r ← memo4.get i j
        pure (r, memo4, l ++ [Event.write i j v])
  else
    pure (cur, memo, [])
termination_by i + j
decreasing_by all_goals omega

/-- Whether an event is an assignment to cell `(a, b)`. -/
def isWriteAt (a b : Nat) : Event → Bool
  | .write i j _ => i == a && j == b
  | .call _ _ _ _ _ => false

/-- Whether an event is an assignment of a value other than the sentinel to
cell `(a, b)`. -/
def isValueWriteAt (a b : Nat) : Event → Bool
  | .write i j v => i == a && j == b && decide (v ≠ INF)
  | .call _ _ _ _ _ => false

/-- The number of assignments to cell `(a, b)` in a log. -/
def writesAt (a b : Nat) (log : List Event) : Nat := log.countP (isWriteAt a b)

/-- What a stretch of execution inside the frame of `opt` at `(i, j)`, of nesting
depth `depth`, does to the table (from `m` to `m'`) and records in `log`,
whatever the table holds.  With `punct = true` the stretch is the recursive
calls made by the frame, which stay off the cell `(i, j)` itself; with
`punct = false` it is the whole frame. -/
structure Run (punct : Bool) (m m' : Matrix) (log : List Event) (i j depth : Nat) : Prop where
  rows_eq : m'.rows = m.rows
  cols_eq : m'.cols = m.cols
  keep : ∀ a b, m.cells a b ≠ INF → m'.cells a b = m.cells a b
  frame : ∀ a b, (i < a ∨ j < b ∨ (punct = true ∧ a = i ∧ b = j)) → m'.cells a b = m.cells a b
  calls : ∀ d ci cj a b, Event.call d ci cj a b ∈ log →
    depth < d ∧ d + (ci + cj) ≤ depth + 1 + (i + j) ∧ a + b < ci + cj ∧
      a ≤ ci ∧ b ≤ cj ∧ ci ≤ i ∧ cj ≤ j
  writes : ∀ a b w, Event.write a b w ∈ log →
    a ≤ i ∧ b ≤ j ∧ (punct = true → ¬ (a = i ∧ b = j)) ∧ m.cells a b = INF
  stick : ∀ a b w, Event.write a b w ∈ log → w ≠ INF → m'.cells a b ≠ INF
  once : ∀ a b, log.countP (isValueWriteAt a b) ≤ 1

/-! ## Instrumented embedding of `traceback` -/

/-- One iteration of the loop of `traceback`: the cell `(row, col)` at which it
starts, the cell `(toRow, toCol)` it moves to, and the characters it appends
to `optimal_s` and `optimal_t`. -/
structure TraceStep where
  row : Nat
  col : Nat
  toRow : Nat
  toCol : Nat
  outS : Char
  outT : Char
  deriving DecidableEq, Repr

/-- The `while` loop of `traceback`, lines 206-230, instrumented: the same
control flow and accesses as `tracebackLoop`, plus the list of iterations in
execution order.  Every index decrement is checked: where `row - 1` or
`col - 1` would be computed from 0 the run fails with `none`. -/
def tracebackLoopLog (memo : Matrix) (s t : List Char) (gap : Int) (row col : Nat)
    (optimal_s optimal_t : List Char) (steps : List TraceStep) :
    Option (Nat × Nat × List Char × List Char × List TraceStep) :=
  if _h : row > 0 ∧ col > 0 then
    if _hr : row = 0 then none
    else do
      let above ← memo.get (row - 1) col
      let here ← memo.get row col
      if above + gap = here then
        let c ← s[row]?
        tracebackLoopLog memo s t gap (row - 1) col (optimal_s ++ [c]) (optimal_t ++ ['-'])
          (steps ++ [⟨row, col, row - 1, col, c, '-'⟩])
      else
        if _hc : col = 0 then none
        else do
          let left ← memo.get row (col - 1)
          let here2 ← memo.get row col
          if left + gap = here2 then
            let c ← t[col]?
            tracebackLoopLog memo s t gap row (col - 1) (optimal_s ++ ['-']) (optimal_t ++ [c])
              (steps ++ [⟨row, col, row, col - 1, '-', c⟩])
          else
            let a ← s[row]?
            let b ← t[col]?
            tracebackLoopLog memo s t gap (row - 1) (col - 1) (optimal_s ++ [a])
              (optimal_t ++ [b]) (steps ++ [⟨row, col, row - 1, col - 1, a, b⟩])
  else
    pure (row, col, optimal_s, optimal_t, steps)
termination_by row + col
decreasing_by all_goals omega

/-- The function `traceback`, lines 197-239, instrumented: the stop cell, the two
printed strings and the list of loop iterations.  The decrements
`s.size() - 1` and `t.size() - 1` are checked as well. -/
def tracebackLog (memo : Matrix) (s t : List Char) (gap : Int) :
    Option (Nat × Nat × List Char × List Char × List TraceStep) :=
  if s.length = 0 ∨ t.length = 0 then none
  else do
    let (row, col, optimal_s, optimal_t, steps) ←
      tracebackLoopLog memo s t gap (s.length - 1) (t.length - 1) [] [] []
    pure (row, col, optimal_s.reverse, optimal_t.reverse, steps)

/-- The rule one loop iteration follows over the table `memo`: above first, then
left, then the diagonal. -/
def StepRule (memo : Matrix) (s t : List Char) (gap : Int) (st : TraceStep) : Prop :=
  0 < st.row ∧ 0 < st.col ∧
  (memo.cells (st.row - 1) st.col + gap = memo.cells st.row st.col →
    st.toRow = st.row - 1 ∧ st.toCol = st.col ∧ s[st.row]? = some st.outS ∧ st.outT = '-') ∧
  (memo.cells (st.row - 1) st.col + gap ≠ memo.cells st.row st.col →
    memo.cells st.row (st.col - 1) + gap = memo.cells st.row st.col →
    st.toRow = st.row ∧ st.toCol = st.col - 1 ∧ st.outS = '-' ∧ t[st.col]? = some st.outT) ∧
  (memo.cells (st.row - 1) st.col + gap ≠ memo.cells st.row st.col →
    memo.cells st.row (st.col - 1) + gap ≠ memo.cells st.row st.col →
    st.toRow = st.row - 1 ∧ st.toCol = st.col - 1 ∧
      s[st.row]? = some st.outS ∧ t[st.col]? = some st.outT)

/-- The iterations in `steps` lead from the cell `(row, col)` to the cell `(r, c)`,
each starting where the previous one ended. -/
def Linked : Nat → Nat → List TraceStep → Nat → Nat → Prop
  | row, col, [], r, c => row = r ∧ col = c
  | row, col, st :: rest, r, c => st.row = row ∧ st.col = col ∧ Linked st.toRow st.toCol rest r c

/-! ## The same program with machine arithmetic

The definitions below are `optLog` and `tracebackLog` with the arithmetic of
`int`: 32-bit two's complement, a sum that leaves the range wrapping around
(what the usual targets compute; C++ itself leaves signed overflow undefined).
Control flow, accesses and logs are unchanged. -/

/-- The smallest `int`. -/
def INT_MIN : Int := -2147483648

/-- The largest `int`; the sentinel `INF` is this value. -/
def INT_MAX : Int := 2147483647

/-- An integer reduced to the range of `int`, modulo `2 ^ 32`. -/
def wrap32 (x : Int) : Int := (x + 2147483648) % 4294967296 - 2147483648

/-- The sum `a + b` of two `int` values as the machine computes it. -/
def add32 (a b : Int) : Int := wrap32 (a + b)

/-- The integer fits in an `int`. -/
def InInt (x : Int) : Prop := INT_MIN ≤ x ∧ x ≤ INT_MAX

instance (x : Int) : Decidable (InInt x) := by
  unfold InInt
  exact inferInstance

/-- The function `opt` of `main.cpp`, lines 153-195, with `int` arithmetic: the
control flow, table accesses, checked index decrements and log of `optLog`,
every sum `... + gap` and `... + score_type` computed by `add32`.  The result
is the returned score, the table and the log of calls and assignments. -/
def opt32 (ord : ArgOrder) (s : List Char) (i : Nat) (t : List Char) (j : Nat)
    (memo : Matrix) (match_ mismatch gap : Int) (depth : Nat) :
    Option (Int × Matrix × List Event) := do
  let cur ← memo.get i j
  if cur = INF then
    let a ← s[i]?
    let b ← t[j]?
    let score_type := if a = b then match_ else mismatch
    if _h00 : i = 0 ∧ j = 0 then
      let memo1 ← memo.set i j 0
      let r ← memo1.get i j
      pure (r, memo1, [Event.write i j 0])
    else if _h0j : i = 0 ∧ j ≠ 0 then
      if _hj : j = 0 then none
      else
        let (x, memo1, l1) ← opt32 ord s i t (j - 1) memo match_ mismatch gap (depth + 1)
        let memo2 ← memo1.set i j (add32 x gap)
        let r ← memo2.get i j
        pure (r, memo2,
          Event.call (depth + 1) i j i (j - 1) :: l1 ++ [Event.write i j (add32 x gap)])
    else if _hi0 : j = 0 ∧ i ≠ 0 then
      if _hi : i = 0 then none
      else
        let (x, memo1, l1) ← opt32 ord s (i - 1) t j memo match_ mismatch gap (depth + 1)
        let memo2 ← memo1.set i j (add32 x gap)
        let r ← memo2.get i j
        pure (r, memo2,
          Event.call (depth + 1) i j (i - 1) j :: l1 ++ [Event.write i j (add32 x gap)])
    else
      if _hij : i = 0 ∨ j = 0 then none
      else
        let cd := Event.call (depth + 1) i j (i - 1) (j - 1)
        let cu := Event.call (depth + 1) i j (i - 1) j
        let cl := Event.call (depth + 1) i j i (j - 1)
        let (x, y, z, memo3, l) ←
          (match ord with
            | .dul => do
              let (x, m1, l1) ← opt32 ord s (i - 1) t (j - 1) memo match_ mismatch gap (depth + 1)
              let (y, m2, l2) ← opt32 ord s (i - 1) t j m1 match_ mismatch gap (depth + 1)
              let (z, m3, l3) ← opt32 ord s i t (j - 1) m2 match_ mismatch gap (depth + 1)
              pure (x, y, z, m3, (cd :: l1) ++ (cu :: l2) ++ (cl :: l3))
            | .dlu => do
              let (x, m1, l1) ← opt32 ord s (i - 1) t (j - 1) memo match_ mismatch gap (depth + 1)
              let (z, m2, l2) ← opt32 ord s i t (j - 1) m1 match_ mismatch gap (depth + 1)
              let (y, m3, l3) ← opt32 ord s (i - 1) t j m2 match_ mismatch gap (depth + 1)
              pure (x, y, z, m3, (cd :: l1) ++ (cl :: l2) ++ (cu :: l3))
            | .udl => do
              let (y, m1, l1) ← opt32 ord s (i - 1) t j memo match_ mismatch gap (depth + 1)
              let (x, m2, l2) ← opt32 ord s (i - 1) t (j - 1) m1 match_ mismatch gap (depth + 1)
              let (z, m3, l3) ← opt32 ord s i t (j - 1) m2 match_ mismatch gap (depth + 1)
              pure (x, y, z, m3, (cu :: l1) ++ (cd :: l2) ++ (cl :: l3))
            | .uld => do
              let (y, m1, l1) ← opt32 ord s (i - 1) t j memo match_ mismatch gap (depth + 1)
              let (z, m2, l2) ← opt32 ord s i t (j - 1) m1 match_ mismatch gap (depth + 1)
              let (x, m3, l3) ← opt32 ord s (i - 1) t (j - 1) m2 match_ mismatch gap (depth + 1)
              pure (x, y, z, m3, (cu :: l1) ++ (cl :: l2) ++ (cd :: l3))
            | .ldu => do
              let (z, m1, l1) ← opt32 ord s i t (j - 1) memo match_ mismatch gap (depth + 1)
              let (x, m2, l2) ← opt32 ord s (i - 1) t (j - 1) m1 match_ mismatch gap (depth + 1)
              let (y, m3, l3) ← opt32 ord s (i - 1) t j m2 match_ mismatch gap (depth + 1)
              pure (x, y, z, m3, (cl :: l1) ++ (cd :: l2) ++ (cu :: l3))
            | .lud => do
              let (z, m1, l1) ← opt32 ord s i t (j - 1) memo match_ mismatch gap (depth + 1)
              let (y, m2, l2) ← opt32 ord s (i - 1) t j m1 match_ mismatch gap (depth + 1)
              let (x, m3, l3) ← opt32 ord s (i - 1) t (j - 1) m2 match_ mismatch gap (depth + 1)
              pure (x, y, z, m3, (cl :: l1) ++ (cu :: l2) ++ (cd :: l3)))
        let v := max3 (add32 x score_type) (add32 y gap) (add32 z gap)
        let memo4 ← memo3.set i j v
        let r ← memo4.get i j
        pure (r, memo4, l ++ [Event.write i j v])
  else
    pure (cur, memo, [])
termination_by i + j
decreasing_by all_goals omega

/-- The recurrence of the spec (4.2) with the sums computed in `int` arithmetic. -/
def R32 (s t : List Char) (match_ mismatch gap : Int) : Nat → Nat → Int
  | 0, 0 => 0
  | 0, j + 1 => add32 (R32 s t match_ mismatch gap 0 j) gap
  | i + 1, 0 => add32 (R32 s t match_ mismatch gap i 0) gap
  | i + 1, j + 1 =>
    max3 (add32 (R32 s t match_ mismatch gap i j)
            (if s[i + 1]? = t[j + 1]? then match_ else mismatch))
         (add32 (R32 s t match_ mismatch gap i (j + 1)) gap)
         (add32 (R32 s t match_ mismatch gap (i + 1) j) gap)

/-- No sum that the recurrence forms for the cells of the rectangle
`[0..i] x [0..j]` leaves the range of `int`: neither a value plus `gap` (from
the left or from above) nor a diagonal value plus the match or mismatch
score. -/
def NoOverflow (s t : List Char) (match_ mismatch gap : Int) (i j : Nat) : Prop :=
  (∀ a b, a ≤ i → b + 1 ≤ j → InInt (R s t match_ mismatch gap a b + gap)) ∧
  (∀ a b, a + 1 ≤ i → b ≤ j → InInt (R s t match_ mismatch gap a b + gap)) ∧
  (∀ a b, a + 1 ≤ i → b + 1 ≤ j →
    InInt (R s t match_ mismatch gap a b
      + (if s[a + 1]? = t[b + 1]? then match_ else mismatch)))

/-- The `while` loop of `traceback`, lines 206-230, with `int` arithmetic: the
control flow, accesses, checked decrements and list of iterations of
`tracebackLoopLog`, the two tests `memo.at(..) + gap == memo.at(row, col)`
computed by `add32`. -/
def tracebackLoop32 (memo : Matrix) (s t : List Char) (gap : Int) (row col : Nat)
    (optimal_s optimal_t : List Char) (steps : List TraceStep) :
    Option (Nat × Nat × List Char × List Char × List TraceStep) :=
  if _h : row > 0 ∧ col > 0 then
    if _hr : row = 0 then none
    else do
      let above ← memo.get (row - 1) col
      let here ← memo.get row col
      if add32 above gap = here then
        let c ← s[row]?
        tracebackLoop32 memo s t gap (row - 1) col (optimal_s ++ [c]) (optimal_t ++ ['-'])
          (steps ++ [⟨row, col, row - 1, col, c, '-'⟩])
      else
        if _hc : col = 0 then none
        else do
          let left ← memo.get row (col - 1)
          let here2 ← memo.get row col
          if add32 left gap = here2 then
            let c ← t[col]?
            tracebackLoop32 memo s t gap row (col - 1) (optimal_s ++ ['-']) (optimal_t ++ [c])
              (steps ++ [⟨row, col, row, col - 1, '-', c⟩])
          else
            let a ← s[row]?
            let b ← t[col]?
            tracebackLoop32 memo s t gap (row - 1) (col - 1) (optimal_s ++ [a])
              (optimal_t ++ [b]) (steps ++ [⟨row, col, row - 1, col - 1, a, b⟩])
  else
    pure (row, col, optimal_s, optimal_t, steps)
termination_by row + col
decreasing_by all_goals omega

/-- The function `traceback`, lines 197-239, with `int` arithmetic: the stop
cell, the two printed strings and the list of loop iterations. -/
def traceback32 (memo : Matrix) (s t : List Char) (gap : Int) :
    Option (Nat × Nat × List Char × List Char × List TraceStep) :=
  if s.length = 0 ∨ t.length = 0 then none
  else do
    let (row, col, optimal_s, optimal_t, steps) ←
      tracebackLoop32 memo s t gap (s.length - 1) (t.length - 1) [] [] []
    pure (row, col, optimal_s.reverse, optimal_t.reverse, steps)

/-- The rule one loop iteration follows over the table `memo` in `int`
arithmetic: above first, then left, then the diagonal. -/
def StepRule32 (memo : Matrix) (s t : List Char) (gap : Int) (st : TraceStep) : Prop :=
  0 < st.row ∧ 0 < st.col ∧
  (add32 (memo.cells (st.row - 1) st.col) gap = memo.cells st.row st.col →
    st.toRow = st.row - 1 ∧ st.toCol = st.col ∧ s[st.row]? = some st.outS ∧ st.outT = '-') ∧
  (add32 (memo.cells (st.row - 1) st.col) gap ≠ memo.cells st.row st.col →
    add32 (memo.cells st.row (st.col - 1)) gap = memo.cells st.row st.col →
    st.toRow = st.row ∧ st.toCol = st.col - 1 ∧ st.outS = '-' ∧ t[st.col]? = some st.outT) ∧
  (add32 (memo.cells (st.row - 1) st.col) gap ≠ memo.cells st.row st.col →
    add32 (memo.cells st.row (st.col - 1)) gap ≠ memo.cells st.row st.col →
    st.toRow = st.row - 1 ∧ st.toCol = st.col - 1 ∧
      s[st.row]? = some st.outS ∧ t[st.col]? = some st.outT)

end Align

/-! ## `heur_queens.cpp`: `count_collisions`

`unsigned` is a 32-bit machine integer: values are natural numbers below
`2 ^ 32` and arithmetic is taken modulo `2 ^ 32`. -/

namespace Queens

/-- The modulus of `unsigned` arithmetic. -/
def UINT : Nat := 2 ^ 32

/-- Subtraction of `unsigned` values, which wraps around below 0. -/
def usub (a b : Nat) : Nat := (a + UINT - b % UINT) % UINT

/-- The inner loop of `count_collisions`, `heur_queens.cpp` lines 143-162, from the
state `(trycol, collisions, total_comparisons)`; `n` is the local `n` and `col`
the counter of the outer loop.  `perm.at(.)` is bounds-checked.  The counter
`trycol` stays below `n < 2 ^ 32`, so `trycol++` does not wrap. -/
def innerLoop (perm : List Nat) (n col trycol collisions total_comparisons : Nat) :
    Option (Nat × Nat) :=
  if trycol < n then
    if col ≠ trycol then do
      let a ← perm[col]?
      let b ← perm[trycol]?
      -- check for down diag queen
      let (c1, t1) :=
        if (usub n col + a) % UINT = (usub n trycol + b) % UINT then
          ((collisions + 1) % UINT, (total_comparisons + 1) % UINT)
        else (collisions, total_comparisons)
      -- check for up diag queen
      let (c2, t2) :=
        if (a + col + 1) % UINT = (b + trycol + 1) % UINT then
          ((c1 + 1) % UINT, (t1 + 1) % UINT)
        else (c1, t1)
      innerLoop perm n col (trycol + 1) c2 t2
    else
      innerLoop perm n col (trycol + 1) collisions total_comparisons
  else
    some (collisions, total_comparisons)
termination_by n - trycol
decreasing_by all_goals omega

/-- The outer loop of `count_collisions`, lines 141-163, from the state
`(col, collisions, total_comparisons)`. -/
def outerLoop (perm : List Nat) (n col collisions total_comparisons : Nat) :
    Option (Nat × Nat) :=
  if col < n then do
    let (c, t) ← innerLoop perm n col col collisions total_comparisons
    outerLoop perm n (col + 1) c t
  else
    some (collisions, total_comparisons)
termination_by n - col
decreasing_by all_goals omega

/-- The function `count_collisions` of `heur_queens.cpp`, lines 135-165.  It
returns the pair of the returned count and the final value of the reference
parameter `total_comparisons`; `none` when an access is out of range. -/
def count_collisions (perm : List Nat) (total_comparisons : Nat) : Option (Nat × Nat) :=
  outerLoop perm (perm.length % UINT) 0 0 total_comparisons

/-- The queens of columns `a` and `b` stand on a common diagonal:
`|perm[a] - perm[b]| = b - a`. -/
def onDiagonal (perm : List Nat) (a b : Nat) : Prop :=
  Int.natAbs ((perm.getD a 0 : Int) - (perm.getD b 0 : Int)) = b - a

instance (perm : List Nat) (a b : Nat) : Decidable (onDiagonal perm a b) := by
  unfold onDiagonal
  exact inferInstance

/-- The number of index pairs `a < b` below `perm.length` whose queens stand on a
common diagonal; each pair is counted once. -/
def diagonalPairs (perm : List Nat) : Nat :=
  ((List.range perm.length).map (fun a =>
    ((List.range perm.length).filter (fun b => decide (a < b ∧ onDiagonal perm a b))).length)).sum

end Queens

namespace Align

/-! ## The memoized recursion computes the recurrence -/

theorem Ext.refl {Rf : Nat → Nat → Int} {m : Matrix} (h : Inv Rf m) (i j : Nat) :
    Ext Rf m m i j :=
  ⟨rfl, rfl, fun _ _ => Or.inl rfl, fun _ _ _ => rfl, h⟩

theorem Ext.trans {Rf : Nat → Nat → Int} {m0 m1 m2 : Matrix} {i j a b c d : Nat}
    (h1 : Ext Rf m0 m1 a b) (h2 : Ext Rf m1 m2 c d)
    (ha : a ≤ i) (hb : b ≤ j) (hc : c ≤ i) (hd : d ≤ j) : Ext Rf m0 m2 i j := by
  refine ⟨h2.rows_eq.trans h1.rows_eq, h2.cols_eq.trans h1.cols_eq, ?_, ?_, h2.inv⟩
  · intro x y
    rcases h2.step x y with h | h
    · rw [h]; exact h1.step x y
    · exact Or.inr h
  · intro x y hxy
    rw [h2.frame x y (by omega), h1.frame x y (by omega)]

theorem Filled.step {Rf : Nat → Nat → Int} {m m' : Matrix} {i j : Nat}
    (h : Filled Rf m i j) (hs : ∀ a b, m'.cells a b = m.cells a b ∨ m'.cells a b = Rf a b) :
    Filled Rf m' i j := by
  intro a b ha hb
  rcases hs a b with e | e
  · rw [e]; exact h a b ha hb
  · exact e

theorem set_post {Rf : Nat → Nat → Int} {m0 m3 : Matrix} {i j a b : Nat}
    (hi : i < m0.rows) (hj : j < m0.cols) (he : Ext Rf m0 m3 a b) (ha : a ≤ i) (hb : b ≤ j)
    (hfill : ∀ x y, x ≤ i → y ≤ j → ¬ (x = i ∧ y = j) → m3.cells x y = Rf x y) :
    ∃ m4, m3.set i j (Rf i j) = some m4 ∧ m4.get i j = some (Rf i j) ∧
      Ext Rf m0 m4 i j ∧ Filled Rf m4 i j := by
  have hi3 : i < m3.rows := by rw [he.rows_eq]; exact hi
  have hj3 : j < m3.cols := by rw [he.cols_eq]; exact hj
  have hF : Filled Rf
      { m3 with cells := fun x y => if x = i ∧ y = j then Rf i j else m3.cells x y } i j := by
    intro x y hx hy
    by_cases hxy : x = i ∧ y = j
    · simp [hxy]
    · simp only [hxy, if_false]; exact hfill x y hx hy hxy
  refine ⟨{ m3 with cells := fun x y => if x = i ∧ y = j then Rf i j else m3.cells x y },
    by simp [Matrix.set, hi3, hj3], by simp [Matrix.get, hi3, hj3], ⟨he.rows_eq, he.cols_eq, ?_, ?_, ?_⟩, hF⟩
  · intro x y
    by_cases hxy : x = i ∧ y = j
    · right; simp [hxy]
    · simp only [hxy, if_false]; exact he.step x y
  · intro x y hxy
    have : ¬ (x = i ∧ y = j) := by omega
    simp only [this, if_false]; exact he.frame x y (by omega)
  · intro x y hx hy hne
    by_cases hxy : x = i ∧ y = j
    · rw [hxy.1, hxy.2]; exact hF
    · simp only [hxy, if_false] at hne
      have h3 := he.inv x y hx hy hne
      exact h3.step (fun p q => by
        by_cases hpq : p = i ∧ q = j
        · right; simp [hpq]
        · left; simp [hpq])


theorem chain3 {Rf : Nat → Nat → Int} {m0 m1 m2 m3 : Matrix}
    {a1 b1 a2 b2 a3 b3 i j : Nat}
    (e1 : Ext Rf m0 m1 a1 b1) (f1 : Filled Rf m1 a1 b1)
    (e2 : Ext Rf m1 m2 a2 b2) (f2 : Filled Rf m2 a2 b2)
    (e3 : Ext Rf m2 m3 a3 b3) (f3 : Filled Rf m3 a3 b3)
    (h1 : a1 ≤ i ∧ b1 ≤ j) (h2 : a2 ≤ i ∧ b2 ≤ j) (h3 : a3 ≤ i ∧ b3 ≤ j) :
    Ext Rf m0 m3 i j ∧ Filled Rf m3 a1 b1 ∧ Filled Rf m3 a2 b2 ∧ Filled Rf m3 a3 b3 := by
  have e12 : Ext Rf m0 m2 i j := Ext.trans e1 e2 h1.1 h1.2 h2.1 h2.2
  exact ⟨Ext.trans e12 e3 le_rfl le_rfl h3.1 h3.2, (f1.step e2.step).step e3.step,
    f2.step e3.step, f3⟩

theorem opt_spec (ord : ArgOrder) (s t : List Char) (match_ mismatch gap : Int) :
    ∀ (n i j : Nat) (memo : Matrix), i + j = n → i < s.length → j < t.length →
      i < memo.rows → j < memo.cols → Inv (R s t match_ mismatch gap) memo →
      ∃ memo', opt ord s i t j memo match_ mismatch gap
          = some (R s t match_ mismatch gap i j, memo') ∧
        Ext (R s t match_ mismatch gap) memo memo' i j ∧
        Filled (R s t match_ mismatch gap) memo' i j := by
  intro n
  induction n using Nat.strong_induction_on with
  | _ n ih =>
    intro i j memo hn hi hj hr hc hinv
    have hget : memo.get i j = some (memo.cells i j) := by simp [Matrix.get, hr, hc]
    rw [opt.eq_def]
    simp only [hget, Option.bind_eq_bind, Option.some_bind]
    by_cases hcur : memo.cells i j = INF
    · simp only [hcur, if_true]
      have hs : s[i]? = some s[i] := List.getElem?_eq_getElem hi
      have ht : t[j]? = some t[j] := List.getElem?_eq_getElem hj
      simp only [hs, ht, Option.some_bind]
      subst hn
      have IH : ∀ (a b : Nat) (m : Matrix), a + b < i + j → a ≤ i → b ≤ j →
          m.rows = memo.rows → m.cols = memo.cols → Inv (R s t match_ mismatch gap) m →
          ∃ m', opt ord s a t b m match_ mismatch gap
              = some (R s t match_ mismatch gap a b, m') ∧
            Ext (R s t match_ mismatch gap) m m' a b ∧
            Filled (R s t match_ mismatch gap) m' a b :=
        fun a b m hlt ha hb hrw hcl hiv =>
          ih (a + b) hlt a b m rfl (by omega) (by omega) (by omega) (by omega) hiv
      rcases Nat.eq_zero_or_pos i with hi0 | hi0
      · rcases Nat.eq_zero_or_pos j with hj0 | hj0
        · subst hi0; subst hj0
          obtain ⟨m4, q1, q2, q3, q4⟩ := set_post hr hc (Ext.refl hinv 0 0) le_rfl le_rfl
            (fun x y hx hy hne => by omega)
          have hv : R s t match_ mismatch gap 0 0 = 0 := by simp [R]
          rw [hv] at q1 q2
          exact ⟨m4, by simp [q1, q2, hv], q3, q4⟩
        · subst hi0
          obtain ⟨j', rfl⟩ : ∃ j', j = j' + 1 := ⟨j - 1, by omega⟩
          obtain ⟨m1, p1, p2, p3⟩ := IH 0 j' memo (by omega) le_rfl (by omega) rfl rfl hinv
          obtain ⟨m4, q1, q2, q3, q4⟩ := set_post hr hc p2 le_rfl (Nat.le_succ j')
            (fun x y hx hy hne => p3 x y hx (by omega))
          have hv : R s t match_ mismatch gap 0 (j' + 1)
              = R s t match_ mismatch gap 0 j' + gap := by simp [R]
          rw [hv] at q1 q2
          exact ⟨m4, by simp [p1, q1, q2, hv], q3, q4⟩
      · rcases Nat.eq_zero_or_pos j with hj0 | hj0
        · subst hj0
          obtain ⟨i', rfl⟩ : ∃ i', i = i' + 1 := ⟨i - 1, by omega⟩
          obtain ⟨m1, p1, p2, p3⟩ := IH i' 0 memo (by omega) (by omega) le_rfl rfl rfl hinv
          obtain ⟨m4, q1, q2, q3, q4⟩ := set_post hr hc p2 (Nat.le_succ i') le_rfl
            (fun x y hx hy hne => p3 x y (by omega) hy)
          have hv : R s t match_ mismatch gap (i' + 1) 0
              = R s t match_ mismatch gap i' 0 + gap := by simp [R]
          rw [hv] at q1 q2
          exact ⟨m4, by simp [p1, q1, q2, hv], q3, q4⟩
        · obtain ⟨i', rfl⟩ : ∃ i', i = i' + 1 := ⟨i - 1, by omega⟩
          obtain ⟨j', rfl⟩ : ∃ j', j = j' + 1 := ⟨j - 1, by omega⟩
          have hv : R s t match_ mismatch gap (i' + 1) (j' + 1)
              = max3 (R s t match_ mismatch gap i' j'
                        + (if s[i' + 1] = t[j' + 1] then match_ else mismatch))
                  (R s t match_ mismatch gap i' (j' + 1) + gap)
                  (R s t match_ mismatch gap (i' + 1) j' + gap) := by
            rw [R]; simp [hs, ht]
          have fin : ∀ m3 : Matrix, Ext (R s t match_ mismatch gap) memo m3 (i' + 1) (j' + 1) →
              Filled (R s t match_ mismatch gap) m3 i' (j' + 1) →
              Filled (R s t match_ mismatch gap) m3 (i' + 1) j' →
              ∃ m4, m3.set (i' + 1) (j' + 1) (R s t match_ mismatch gap (i' + 1) (j' + 1)) = some m4 ∧
                m4.get (i' + 1) (j' + 1) = some (R s t match_ mismatch gap (i' + 1) (j' + 1)) ∧
                Ext (R s t match_ mismatch gap) memo m4 (i' + 1) (j' + 1) ∧
                Filled (R s t match_ mismatch gap) m4 (i' + 1) (j' + 1) := by
            intro m3 e fu fl
            exact set_post hr hc e le_rfl le_rfl (fun x y hx hy hne => by
              by_cases hxi : x ≤ i'
              · exact fu x y hxi hy
              · exact fl x y hx (by omega))
          have hne1 : ¬ (i' + 1 = 0 ∧ j' + 1 = 0) := by omega
          have hne2 : ¬ (i' + 1 = 0 ∧ j' + 1 ≠ 0) := by omega
          have hne3 : ¬ (j' + 1 = 0 ∧ i' + 1 ≠ 0) := by omega
          simp only [hne1, hne2, hne3, dite_false, Nat.add_sub_cancel]
          cases ord
          · obtain ⟨m1, p1, e1, f1⟩ := IH i' j' memo (by omega) (by omega) (by omega) rfl rfl hinv
            obtain ⟨m2, p2, e2, f2⟩ := IH i' (j' + 1) m1 (by omega) (by omega) le_rfl
              e1.rows_eq e1.cols_eq e1.inv
            obtain ⟨m3, p3, e3, f3⟩ := IH (i' + 1) j' m2 (by omega) le_rfl (by omega)
              (e2.rows_eq.trans e1.rows_eq) (e2.cols_eq.trans e1.cols_eq) e2.inv
            obtain ⟨e, g1, g2, g3⟩ := chain3 (i := i' + 1) (j := j' + 1) e1 f1 e2 f2 e3 f3
              (by omega) (by omega) (by omega)
            obtain ⟨m4, q1, q2, q3, q4⟩ := fin m3 e g2 g3
            rw [hv] at q1 q2
            exact ⟨m4, by simp [p1, p2, p3, q1, q2, hv], q3, q4⟩
          · obtain ⟨m1, p1, e1, f1⟩ := IH i' j' memo (by omega) (by omega) (by omega) rfl rfl hinv
            obtain ⟨m2, p2, e2, f2⟩ := IH (i' + 1) j' m1 (by omega) le_rfl (by omega)
              e1.rows_eq e1.cols_eq e1.inv
            obtain ⟨m3, p3, e3, f3⟩ := IH i' (j' + 1) m2 (by omega) (by omega) le_rfl
              (e2.rows_eq.trans e1.rows_eq) (e2.cols_eq.trans e1.cols_eq) e2.inv
            obtain ⟨e, g1, g2, g3⟩ := chain3 (i := i' + 1) (j := j' + 1) e1 f1 e2 f2 e3 f3
              (by omega) (by omega) (by omega)
            obtain ⟨m4, q1, q2, q3, q4⟩ := fin m3 e g3 g2
            rw [hv] at q1 q2
            exact ⟨m4, by simp [p1, p2, p3, q1, q2, hv], q3, q4⟩
          · obtain ⟨m1, p1, e1, f1⟩ := IH i' (j' + 1) memo (by omega) (by omega) le_rfl rfl rfl hinv
            obtain ⟨m2, p2, e2, f2⟩ := IH i' j' m1 (by omega) (by omega) (by omega)
              e1.rows_eq e1.cols_eq e1.inv
            obtain ⟨m3, p3, e3, f3⟩ := IH (i' + 1) j' m2 (by omega) le_rfl (by omega)
              (e2.rows_eq.trans e1.rows_eq) (e2.cols_eq.trans e1.cols_eq) e2.inv
            obtain ⟨e, g1, g2, g3⟩ := chain3 (i := i' + 1) (j := j' + 1) e1 f1 e2 f2 e3 f3
              (by omega) (by omega) (by omega)
            obtain ⟨m4, q1, q2, q3, q4⟩ := fin m3 e g1 g3
            rw [hv] at q1 q2
            exact ⟨m4, by simp [p1, p2, p3, q1, q2, hv], q3, q4⟩
          · obtain ⟨m1, p1, e1, f1⟩ := IH i' (j' + 1) memo (by omega) (by omega) le_rfl rfl rfl hinv
            obtain ⟨m2, p2, e2, f2⟩ := IH (i' + 1) j' m1 (by omega) le_rfl (by omega)
              e1.rows_eq e1.cols_eq e1.inv
            obtain ⟨m3, p3, e3, f3⟩ := IH i' j' m2 (by omega) (by omega) (by omega)
              (e2.rows_eq.trans e1.rows_eq) (e2.cols_eq.trans e1.cols_eq) e2.inv
            obtain ⟨e, g1, g2, g3⟩ := chain3 (i := i' + 1) (j := j' + 1) e1 f1 e2 f2 e3 f3
              (by omega) (by omega) (by omega)
            obtain ⟨m4, q1, q2, q3, q4⟩ := fin m3 e g1 g2
            rw [hv] at q1 q2
            exact ⟨m4, by simp [p1, p2, p3, q1, q2, hv], q3, q4⟩
          · obtain ⟨m1, p1, e1, f1⟩ := IH (i' + 1) j' memo (by omega) le_rfl (by omega) rfl rfl hinv
            obtain ⟨m2, p2, e2, f2⟩ := IH i' j' m1 (by omega) (by omega) (by omega)
              e1.rows_eq e1.cols_eq e1.inv
            obtain ⟨m3, p3, e3, f3⟩ := IH i' (j' + 1) m2 (by omega) (by omega) le_rfl
              (e2.rows_eq.trans e1.rows_eq) (e2.cols_eq.trans e1.cols_eq) e2.inv
            obtain ⟨e, g1, g2, g3⟩ := chain3 (i := i' + 1) (j := j' + 1) e1 f1 e2 f2 e3 f3
              (by omega) (by omega) (by omega)
            obtain ⟨m4, q1, q2, q3, q4⟩ := fin m3 e g3 g1
            rw [hv] at q1 q2
            exact ⟨m4, by simp [p1, p2, p3, q1, q2, hv], q3, q4⟩
          · obtain ⟨m1, p1, e1, f1⟩ := IH (i' + 1) j' memo (by omega) le_rfl (by omega) rfl rfl hinv
            obtain ⟨m2, p2, e2, f2⟩ := IH i' (j' + 1) m1 (by omega) (by omega) le_rfl
              e1.rows_eq e1.cols_eq e1.inv
            obtain ⟨m3, p3, e3, f3⟩ := IH i' j' m2 (by omega) (by omega) (by omega)
              (e2.rows_eq.trans e1.rows_eq) (e2.cols_eq.trans e1.cols_eq) e2.inv
            obtain ⟨e, g1, g2, g3⟩ := chain3 (i := i' + 1) (j := j' + 1) e1 f1 e2 f2 e3 f3
              (by omega) (by omega) (by omega)
            obtain ⟨m4, q1, q2, q3, q4⟩ := fin m3 e g2 g1
            rw [hv] at q1 q2
            exact ⟨m4, by simp [p1, p2, p3, q1, q2, hv], q3, q4⟩
    · simp only [hcur, if_false]
      refine ⟨memo, ?_, Ext.refl hinv i j, hinv i j hr hc hcur⟩
      have := hinv i j hr hc hcur i j (le_refl _) (le_refl _)
      simp [this]


/-! ## Facts about `max3` and the recurrence -/

theorem max3_eq_max (a b c : Int) : max3 a b c = max (max a b) c := by
  unfold max3
  simp only [max_def]
  split_ifs <;> omega

theorem max3_swap (a b c : Int) : max3 a b c = max3 a c b := by
  rw [max3_eq_max, max3_eq_max, max_assoc, max_comm b c, ← max_assoc]

theorem R_zero_zero (s t : List Char) (match_ mismatch gap : Int) :
    R s t match_ mismatch gap 0 0 = 0 := by
  rw [R]

theorem R_zero_succ (s t : List Char) (match_ mismatch gap : Int) (j : Nat) :
    R s t match_ mismatch gap 0 (j + 1) = R s t match_ mismatch gap 0 j + gap := by
  rw [R]

theorem R_succ_zero (s t : List Char) (match_ mismatch gap : Int) (i : Nat) :
    R s t match_ mismatch gap (i + 1) 0 = R s t match_ mismatch gap i 0 + gap := by
  rw [R]

theorem R_succ_succ (s t : List Char) (match_ mismatch gap : Int) (i j : Nat) :
    R s t match_ mismatch gap (i + 1) (j + 1)
      = max3 (R s t match_ mismatch gap i j
                + (if s[i + 1]? = t[j + 1]? then match_ else mismatch))
          (R s t match_ mismatch gap i (j + 1) + gap)
          (R s t match_ mismatch gap (i + 1) j + gap) := by
  rw [R]

theorem R_symm (s t : List Char) (match_ mismatch gap : Int) :
    ∀ (n i j : Nat), i + j = n →
      R s t match_ mismatch gap i j = R t s match_ mismatch gap j i := by
  intro n
  induction n using Nat.strong_induction_on with
  | _ n ih =>
    intro i j hn
    subst hn
    rcases i with _ | i
    · rcases j with _ | j
      · rw [R_zero_zero, R_zero_zero]
      · rw [R_zero_succ, R_succ_zero, ih (0 + j) (by omega) 0 j rfl]
    · rcases j with _ | j
      · rw [R_zero_succ, R_succ_zero, ih (i + 0) (by omega) i 0 rfl]
      · rw [R_succ_succ, R_succ_succ, max3_swap,
          ih (i + j) (by omega) i j rfl,
          ih (i + (j + 1)) (by omega) i (j + 1) rfl,
          ih (i + 1 + j) (by omega) (i + 1) j rfl]
        have : (s[i + 1]? = t[j + 1]?) ↔ (t[j + 1]? = s[i + 1]?) := eq_comm
        simp only [this]

theorem R_row_zero (s t : List Char) (match_ mismatch gap : Int) (j : Nat) :
    R s t match_ mismatch gap 0 j = j * gap := by
  induction j with
  | zero => simp [R_zero_zero]
  | succ j ih => rw [R_zero_succ, ih]; push_cast; ring

theorem R_col_zero (s t : List Char) (match_ mismatch gap : Int) (i : Nat) :
    R s t match_ mismatch gap i 0 = i * gap := by
  induction i with
  | zero => simp [R_zero_zero]
  | succ i ih => rw [R_succ_zero, ih]; push_cast; ring

theorem max3_cases (a b c : Int) : max3 a b c = a ∨ max3 a b c = b ∨ max3 a b c = c := by
  unfold max3
  simp only
  split_ifs <;> simp

theorem R_diag_le (s t : List Char) (match_ mismatch gap : Int) (i j : Nat) :
    R s t match_ mismatch gap i j + (if s[i + 1]? = t[j + 1]? then match_ else mismatch)
      ≤ R s t match_ mismatch gap (i + 1) (j + 1) := by
  rw [R_succ_succ, max3_eq_max]
  exact le_trans (le_max_left _ _) (le_max_left _ _)

theorem R_up_le (s t : List Char) (match_ mismatch gap : Int) (i j : Nat) :
    R s t match_ mismatch gap i j + gap ≤ R s t match_ mismatch gap (i + 1) j := by
  rcases j with _ | j
  · rw [R_succ_zero]
  · rw [R_succ_succ, max3_eq_max]
    exact le_trans (le_max_right _ _) (le_max_left _ _)

theorem R_left_le (s t : List Char) (match_ mismatch gap : Int) (i j : Nat) :
    R s t match_ mismatch gap i j + gap ≤ R s t match_ mismatch gap i (j + 1) := by
  rcases i with _ | i
  · rw [R_zero_succ]
  · rw [R_succ_succ, max3_eq_max]
    exact le_max_right _ _

theorem spellS_append (al bl : List Column) : spellS (al ++ bl) = spellS al ++ spellS bl := by
  induction al with
  | nil => rfl
  | cons c al ih => cases c <;> simp [spellS, ih]

theorem spellT_append (al bl : List Column) : spellT (al ++ bl) = spellT al ++ spellT bl := by
  induction al with
  | nil => rfl
  | cons c al ih => cases c <;> simp [spellT, ih]

theorem alignScore_append (match_ mismatch gap : Int) (al bl : List Column) :
    alignScore match_ mismatch gap (al ++ bl)
      = alignScore match_ mismatch gap al + alignScore match_ mismatch gap bl := by
  simp [alignScore]

theorem symbols_length (s : List Char) (i : Nat) (hi : i < s.length) :
    (symbols s i).length = i := by
  simp [symbols]; omega

theorem symbols_succ (s : List Char) (i : Nat) (hi : i + 1 < s.length) :
    symbols s (i + 1) = symbols s i ++ [s[i + 1]] := by
  unfold symbols
  rw [List.take_succ, List.getElem?_drop]
  have : s[1 + i]? = some s[i + 1] := by
    rw [Nat.add_comm]; exact List.getElem?_eq_getElem hi
  simp [this]

theorem snoc_symbols (s : List Char) (i : Nat) (hi : i < s.length) (xs : List Char) (a : Char)
    (h : xs ++ [a] = symbols s i) :
    ∃ i', i = i' + 1 ∧ xs = symbols s i' ∧ s[i' + 1]? = some a := by
  rcases i with _ | i'
  · simp [symbols] at h
  · refine ⟨i', rfl, ?_⟩
    rw [symbols_succ s i' hi] at h
    have := List.append_inj' h rfl
    refine ⟨this.1, ?_⟩
    rw [List.getElem?_eq_getElem hi]
    simpa using this.2.symm

theorem alignScore_le_R (s t : List Char) (match_ mismatch gap : Int) (al : List Column) :
    ∀ (i j : Nat), i < s.length → j < t.length →
      spellS al = symbols s i → spellT al = symbols t j →
      alignScore match_ mismatch gap al ≤ R s t match_ mismatch gap i j := by
  induction al using List.reverseRecOn with
  | nil =>
    intro i j hi hj hs ht
    have h1 : i = 0 := by
      have := symbols_length s i hi
      rw [← hs] at this; simpa [spellS] using this.symm
    have h2 : j = 0 := by
      have := symbols_length t j hj
      rw [← ht] at this; simpa [spellT] using this.symm
    subst h1; subst h2
    simp [alignScore, R_zero_zero]
  | append_singleton al c ih =>
    intro i j hi hj hs ht
    rw [spellS_append] at hs
    rw [spellT_append] at ht
    rw [alignScore_append]
    cases c with
    | pair a b =>
      obtain ⟨i', rfl, hs', ha⟩ := snoc_symbols s i hi _ a (by simpa [spellS] using hs)
      obtain ⟨j', rfl, ht', hb⟩ := snoc_symbols t j hj _ b (by simpa [spellT] using ht)
      have := ih i' j' (by omega) (by omega) hs' ht'
      have hd := R_diag_le s t match_ mismatch gap i' j'
      rw [ha, hb] at hd
      simp only [Option.some.injEq] at hd
      simp only [alignScore, List.map_cons, List.map_nil, List.sum_cons, List.sum_nil,
        Column.score, add_zero] at *
      omega
    | overGap a =>
      obtain ⟨i', rfl, hs', ha⟩ := snoc_symbols s i hi _ a (by simpa [spellS] using hs)
      have := ih i' j (by omega) hj hs' (by simpa [spellT] using ht)
      have hd := R_up_le s t match_ mismatch gap i' j
      simp only [alignScore, List.map_cons, List.map_nil, List.sum_cons, List.sum_nil,
        Column.score, add_zero] at *
      omega
    | gapOver b =>
      obtain ⟨j', rfl, ht', hb⟩ := snoc_symbols t j hj _ b (by simpa [spellT] using ht)
      have := ih i j' hi (by omega) (by simpa [spellS] using hs) ht'
      have hd := R_left_le s t match_ mismatch gap i j'
      simp only [alignScore, List.map_cons, List.map_nil, List.sum_cons, List.sum_nil,
        Column.score, add_zero] at *
      omega

theorem exists_alignment_R (s t : List Char) (match_ mismatch gap : Int) :
    ∀ (n i j : Nat), i + j = n → i < s.length → j < t.length →
      ∃ al, spellS al = symbols s i ∧ spellT al = symbols t j ∧
        alignScore match_ mismatch gap al = R s t match_ mismatch gap i j := by
  intro n
  induction n using Nat.strong_induction_on with
  | _ n ih =>
    intro i j hn hi hj
    subst hn
    have up : ∀ i', i = i' + 1 → ∃ al, spellS al = symbols s i ∧ spellT al = symbols t j ∧
        alignScore match_ mismatch gap al = R s t match_ mismatch gap i' j + gap := by
      intro i' e
      subst e
      obtain ⟨al, h1, h2, h3⟩ := ih (i' + j) (by omega) i' j rfl (by omega) hj
      refine ⟨al ++ [.overGap s[i' + 1]], ?_, ?_, ?_⟩
      · rw [spellS_append, h1, symbols_succ s i' hi]; rfl
      · rw [spellT_append, h2]; simp [spellT]
      · rw [alignScore_append, h3]; simp [alignScore, Column.score]
    have left : ∀ j', j = j' + 1 → ∃ al, spellS al = symbols s i ∧ spellT al = symbols t j ∧
        alignScore match_ mismatch gap al = R s t match_ mismatch gap i j' + gap := by
      intro j' e
      subst e
      obtain ⟨al, h1, h2, h3⟩ := ih (i + j') (by omega) i j' rfl hi (by omega)
      refine ⟨al ++ [.gapOver t[j' + 1]], ?_, ?_, ?_⟩
      · rw [spellS_append, h1]; simp [spellS]
      · rw [spellT_append, h2, symbols_succ t j' hj]; rfl
      · rw [alignScore_append, h3]; simp [alignScore, Column.score]
    rcases i with _ | i
    · rcases j with _ | j
      · exact ⟨[], by simp [spellS, symbols], by simp [spellT, symbols],
          by simp [alignScore, R_zero_zero]⟩
      · rw [R_zero_succ]; exact left j rfl
    · rcases j with _ | j
      · rw [R_succ_zero]; exact up i rfl
      · rcases max3_cases
            (R s t match_ mismatch gap i j
              + (if s[i + 1]? = t[j + 1]? then match_ else mismatch))
            (R s t match_ mismatch gap i (j + 1) + gap)
            (R s t match_ mismatch gap (i + 1) j + gap) with h | h | h
        · rw [R_succ_succ, h]
          obtain ⟨al, h1, h2, h3⟩ := ih (i + j) (by omega) i j rfl (by omega) (by omega)
          refine ⟨al ++ [.pair s[i + 1] t[j + 1]], ?_, ?_, ?_⟩
          · rw [spellS_append, h1, symbols_succ s i hi]; rfl
          · rw [spellT_append, h2, symbols_succ t j hj]; rfl
          · rw [alignScore_append, h3, List.getElem?_eq_getElem hi, List.getElem?_eq_getElem hj]
            simp [alignScore, Column.score]
        · rw [R_succ_succ, h]; exact up i rfl
        · rw [R_succ_succ, h]; exact left j rfl

/-! ## The traceback loop -/

theorem tracebackLoop_stop (memo : Matrix) (s t : List Char) (gap : Int) (row col : Nat)
    (os ot : List Char) (h : ¬ (row > 0 ∧ col > 0)) :
    tracebackLoop memo s t gap row col os ot = some (row, col, os, ot) := by
  rw [tracebackLoop.eq_def]
  simp [h]

theorem tracebackLoop_step (memo : Matrix) (s t : List Char) (gap : Int) (row col : Nat)
    (os ot : List Char) (hrow : 0 < row) (hcol : 0 < col)
    (hs : row < s.length) (ht : col < t.length) (hr : row < memo.rows) (hc : col < memo.cols) :
    tracebackLoop memo s t gap row col os ot =
      if memo.cells (row - 1) col + gap = memo.cells row col then
        tracebackLoop memo s t gap (row - 1) col (os ++ [s[row]]) (ot ++ ['-'])
      else if memo.cells row (col - 1) + gap = memo.cells row col then
        tracebackLoop memo s t gap row (col - 1) (os ++ ['-']) (ot ++ [t[col]])
      else
        tracebackLoop memo s t gap (row - 1) (col - 1) (os ++ [s[row]]) (ot ++ [t[col]]) := by
  rw [tracebackLoop.eq_def]
  have h1 : memo.get (row - 1) col = some (memo.cells (row - 1) col) := by
    simp [Matrix.get, hc]; omega
  have h2 : memo.get row col = some (memo.cells row col) := by
    simp [Matrix.get, hc, hr]
  have h3 : memo.get row (col - 1) = some (memo.cells row (col - 1)) := by
    simp [Matrix.get, hr]; omega
  have h4 : s[row]? = some s[row] := List.getElem?_eq_getElem hs
  have h5 : t[col]? = some t[col] := List.getElem?_eq_getElem ht
  have h6 : row > 0 ∧ col > 0 := ⟨hrow, hcol⟩
  simp only [h1, h2, h3, h4, h5, h6, Option.bind_eq_bind, Option.some_bind, dite_true,
    and_self]

theorem segment_self (s : List Char) (r : Nat) : segment s r r = [] := by
  simp [segment]

theorem segment_succ (s : List Char) (r row : Nat) (h : r < row) (hs : row < s.length) :
    segment s r row = segment s r (row - 1) ++ [s[row]] := by
  unfold segment
  have e : row - r = (row - 1 - r) + 1 := by omega
  rw [e, List.take_succ, List.getElem?_drop]
  have : s[r + 1 + (row - 1 - r)]? = some s[row] := by
    have e2 : r + 1 + (row - 1 - r) = row := by omega
    rw [e2]; exact List.getElem?_eq_getElem hs
  simp [this]

theorem segment_zero_last (s : List Char) :
    segment s 0 (s.length - 1) = s.tail := by
  unfold segment
  rw [List.take_of_length_le (by simp)]
  simp

theorem dropGaps_cons_gap (xs : List Char) : dropGaps ('-' :: xs) = dropGaps xs := by
  simp [dropGaps]

theorem dropGaps_cons_symbol (x : Char) (xs : List Char) (h : x ≠ '-') :
    dropGaps (x :: xs) = x :: dropGaps xs := by
  simp [dropGaps, h]

theorem dropGaps_reverse (xs : List Char) : dropGaps xs.reverse = (dropGaps xs).reverse := by
  simp [dropGaps, List.filter_reverse]

theorem tracebackLoop_spec (memo : Matrix) (s t : List Char) (gap : Int) :
    ∀ (n row col : Nat) (os ot : List Char), row + col = n →
      row < s.length → col < t.length → row < memo.rows → col < memo.cols →
      ∃ r c X Y, tracebackLoop memo s t gap row col os ot = some (r, c, os ++ X, ot ++ Y) ∧
        X.length = Y.length ∧ (r = 0 ∨ c = 0) ∧ r ≤ row ∧ c ≤ col ∧
        ((∀ k, 0 < k → s[k]? ≠ some '-') → dropGaps X = (segment s r row).reverse) ∧
        ((∀ k, 0 < k → t[k]? ≠ some '-') → dropGaps Y = (segment t c col).reverse) := by
  intro n
  induction n using Nat.strong_induction_on with
  | _ n ih =>
    intro row col os ot hn hs ht hr hc
    subst hn
    by_cases hpos : row > 0 ∧ col > 0
    · obtain ⟨hrow, hcol⟩ := hpos
      have hsr : ∀ (hk : ∀ k, 0 < k → s[k]? ≠ some '-'), s[row] ≠ '-' := by
        intro hk e
        exact hk row hrow (by rw [List.getElem?_eq_getElem hs, e])
      have htc : ∀ (hk : ∀ k, 0 < k → t[k]? ≠ some '-'), t[col] ≠ '-' := by
        intro hk e
        exact hk col hcol (by rw [List.getElem?_eq_getElem ht, e])
      rw [tracebackLoop_step memo s t gap row col os ot hrow hcol hs ht hr hc]
      split_ifs with h1 h2
      · obtain ⟨r, c, X, Y, e, hl, hb, hrr, hcc, hS, hT⟩ :=
          ih (row - 1 + col) (by omega) (row - 1) col (os ++ [s[row]]) (ot ++ ['-']) rfl
            (by omega) ht (by omega) hc
        refine ⟨r, c, s[row] :: X, '-' :: Y, by simpa using e, by simp [hl], hb,
          by omega, hcc, ?_, ?_⟩
        · intro hk
          rw [dropGaps_cons_symbol _ _ (hsr hk), hS hk, segment_succ s r row (by omega) hs]
          simp
        · intro hk
          rw [dropGaps_cons_gap, hT hk]
      · obtain ⟨r, c, X, Y, e, hl, hb, hrr, hcc, hS, hT⟩ :=
          ih (row + (col - 1)) (by omega) row (col - 1) (os ++ ['-']) (ot ++ [t[col]]) rfl
            hs (by omega) hr (by omega)
        refine ⟨r, c, '-' :: X, t[col] :: Y, by simpa using e, by simp [hl], hb,
          hrr, by omega, ?_, ?_⟩
        · intro hk
          rw [dropGaps_cons_gap, hS hk]
        · intro hk
          rw [dropGaps_cons_symbol _ _ (htc hk), hT hk, segment_succ t c col (by omega) ht]
          simp
      · obtain ⟨r, c, X, Y, e, hl, hb, hrr, hcc, hS, hT⟩ :=
          ih (row - 1 + (col - 1)) (by omega) (row - 1) (col - 1) (os ++ [s[row]])
            (ot ++ [t[col]]) rfl (by omega) (by omega) (by omega) (by omega)
        refine ⟨r, c, s[row] :: X, t[col] :: Y, by simpa using e, by simp [hl], hb,
          by omega, by omega, ?_, ?_⟩
        · intro hk
          rw [dropGaps_cons_symbol _ _ (hsr hk), hS hk, segment_succ s r row (by omega) hs]
          simp
        · intro hk
          rw [dropGaps_cons_symbol _ _ (htc hk), hT hk, segment_succ t c col (by omega) ht]
          simp
    · rw [tracebackLoop_stop memo s t gap row col os ot hpos]
      refine ⟨row, col, [], [], by simp, rfl, by omega, le_rfl, le_rfl, ?_, ?_⟩
      · intro _; simp [segment_self, dropGaps]
      · intro _; simp [segment_self, dropGaps]

theorem sizePred_pos (n : Nat) (h : 0 < n) : sizePred n = n - 1 := by
  unfold sizePred
  simp [Nat.pos_iff_ne_zero.mp h]

/-! ## `opt` started on a sentinel-filled table -/

theorem SentinelFilled.inv {memo : Matrix} (h : SentinelFilled memo) (Rf : Nat → Nat → Int) :
    Inv Rf memo :=
  fun a b ha hb hne => absurd (h a ha b hb) hne

theorem fill_sentinel (rows cols : Nat) : SentinelFilled (Matrix.fill rows cols INF) :=
  fun _ _ _ _ => rfl

theorem opt_from_sentinel (ord : ArgOrder) (s t : List Char) (match_ mismatch gap : Int)
    (i j : Nat) (memo : Matrix) (hi : i < s.length) (hj : j < t.length)
    (hr : i < memo.rows) (hc : j < memo.cols) (hm : SentinelFilled memo) :
    ∃ memo', opt ord s i t j memo match_ mismatch gap
        = some (R s t match_ mismatch gap i j, memo') ∧
      memo'.rows = memo.rows ∧ memo'.cols = memo.cols ∧
      Filled (R s t match_ mismatch gap) memo' i j := by
  obtain ⟨memo', e, hext, hF⟩ :=
    opt_spec ord s t match_ mismatch gap (i + j) i j memo rfl hi hj hr hc (hm.inv _)
  exact ⟨memo', e, hext.rows_eq, hext.cols_eq, hF⟩

theorem tracebackLoop_step_filled {Rf : Nat → Nat → Int} {memo : Matrix} {i j : Nat}
    (hF : Filled Rf memo i j) (s t : List Char) (gap : Int) (row col : Nat)
    (os ot : List Char) (hrow : 0 < row) (hcol : 0 < col)
    (hs : row < s.length) (ht : col < t.length) (hr : row < memo.rows) (hc : col < memo.cols)
    (hri : row ≤ i) (hcj : col ≤ j) :
    tracebackLoop memo s t gap row col os ot =
      if Rf (row - 1) col + gap = Rf row col then
        tracebackLoop memo s t gap (row - 1) col (os ++ [s[row]]) (ot ++ ['-'])
      else if Rf row (col - 1) + gap = Rf row col then
        tracebackLoop memo s t gap row (col - 1) (os ++ ['-']) (ot ++ [t[col]])
      else
        tracebackLoop memo s t gap (row - 1) (col - 1) (os ++ [s[row]]) (ot ++ [t[col]]) := by
  rw [tracebackLoop_step memo s t gap row col os ot hrow hcol hs ht hr hc,
    hF row col hri hcj, hF (row - 1) col (by omega) hcj, hF row (col - 1) hri (by omega)]


/-! ## The instrumented `opt` on an arbitrary table -/

theorem Matrix.set_get (m : Matrix) (i j : Nat) (v : Int) (hi : i < m.rows) (hj : j < m.cols) :
    ∃ m4, m.set i j v = some m4 ∧ m4.get i j = some v ∧ m4.rows = m.rows ∧
      m4.cols = m.cols ∧ ∀ a b, m4.cells a b = if a = i ∧ b = j then v else m.cells a b :=
  ⟨{ m with cells := fun a b => if a = i ∧ b = j then v else m.cells a b },
    by simp [Matrix.set, hi, hj], by simp [Matrix.get, hi, hj], rfl, rfl, fun _ _ => rfl⟩

theorem Run.nil (p : Bool) (m : Matrix) (i j depth : Nat) : Run p m m [] i j depth :=
  ⟨rfl, rfl, fun _ _ _ => rfl, fun _ _ _ => rfl, fun _ _ _ _ _ h => by simp at h,
    fun _ _ _ h => by simp at h, fun _ _ _ h => by simp at h, fun _ _ => by simp⟩

theorem Run.lift {m m' : Matrix} {l : List Event} {a b i j depth : Nat}
    (h : Run false m m' l a b (depth + 1)) (ha : a ≤ i) (hb : b ≤ j) (hab : a + b < i + j) :
    Run true m m' l i j depth := by
  refine ⟨h.rows_eq, h.cols_eq, h.keep, ?_, ?_, ?_, h.stick, h.once⟩
  · intro x y hxy
    exact h.frame x y (by omega)
  · intro d ci cj x y hmem
    have := h.calls d ci cj x y hmem
    omega
  · intro x y w hmem
    have := h.writes x y w hmem
    refine ⟨by omega, by omega, fun _ => by omega, this.2.2.2⟩

theorem Run.call {m m' : Matrix} {l : List Event} {i j depth : Nat}
    (h : Run true m m' l i j depth) (a b : Nat) (ha : a ≤ i) (hb : b ≤ j) (hab : a + b < i + j) :
    Run true m m' (Event.call (depth + 1) i j a b :: l) i j depth := by
  refine ⟨h.rows_eq, h.cols_eq, h.keep, h.frame, ?_, ?_, ?_, ?_⟩
  · intro d ci cj x y hmem
    rcases List.mem_cons.mp hmem with e | hmem
    · injection e with e1 e2 e3 e4 e5
      subst e1 e2 e3 e4 e5
      omega
    · exact h.calls d ci cj x y hmem
  · intro x y w hmem
    rcases List.mem_cons.mp hmem with e | hmem
    · cases e
    · exact h.writes x y w hmem
  · intro x y w hmem
    rcases List.mem_cons.mp hmem with e | hmem
    · cases e
    · exact h.stick x y w hmem
  · intro x y
    simpa [List.countP_cons, isValueWriteAt] using h.once x y

theorem countP_valueWrite_pos {a b : Nat} {l : List Event}
    (h : 0 < l.countP (isValueWriteAt a b)) : ∃ w, Event.write a b w ∈ l ∧ w ≠ INF := by
  obtain ⟨e, he, hp⟩ := List.countP_pos_iff.mp h
  cases e with
  | call d ci cj x y => simp [isValueWriteAt] at hp
  | write x y w =>
    simp only [isValueWriteAt, Bool.and_eq_true, beq_iff_eq, decide_eq_true_eq] at hp
    obtain ⟨⟨rfl, rfl⟩, hw⟩ := hp
    exact ⟨w, he, hw⟩

theorem countP_valueWrite_zero {a b : Nat} {l : List Event}
    (h : ∀ w, Event.write a b w ∉ l) : l.countP (isValueWriteAt a b) = 0 := by
  rw [List.countP_eq_zero]
  intro e he hp
  cases e with
  | call d ci cj x y => simp [isValueWriteAt] at hp
  | write x y w =>
    simp only [isValueWriteAt, Bool.and_eq_true, beq_iff_eq, decide_eq_true_eq] at hp
    obtain ⟨⟨rfl, rfl⟩, _⟩ := hp
    exact h w he

theorem Run.seq {p : Bool} {m0 m1 m2 : Matrix} {l1 l2 : List Event} {i j depth : Nat}
    (h1 : Run p m0 m1 l1 i j depth) (h2 : Run p m1 m2 l2 i j depth) :
    Run p m0 m2 (l1 ++ l2) i j depth := by
  have back : ∀ a b, m1.cells a b = INF → m0.cells a b = INF := by
    intro a b h
    by_contra hne
    exact hne (by rw [← h1.keep a b hne]; exact h)
  refine ⟨h2.rows_eq.trans h1.rows_eq, h2.cols_eq.trans h1.cols_eq, ?_, ?_, ?_, ?_, ?_, ?_⟩
  · intro a b hne
    have e1 := h1.keep a b hne
    rw [h2.keep a b (by rw [e1]; exact hne), e1]
  · intro a b hab
    rw [h2.frame a b hab, h1.frame a b hab]
  · intro d ci cj a b hmem
    rcases List.mem_append.mp hmem with h | h
    · exact h1.calls d ci cj a b h
    · exact h2.calls d ci cj a b h
  · intro a b w hmem
    rcases List.mem_append.mp hmem with h | h
    · exact h1.writes a b w h
    · have := h2.writes a b w h
      exact ⟨this.1, this.2.1, this.2.2.1, back a b this.2.2.2⟩
  · intro a b w hmem hw
    rcases List.mem_append.mp hmem with h | h
    · have e1 := h1.stick a b w h hw
      rw [h2.keep a b e1]; exact e1
    · exact h2.stick a b w h hw
  · intro a b
    rw [List.countP_append]
    by_cases hc : 0 < l1.countP (isValueWriteAt a b)
    · obtain ⟨w, hmem, hw⟩ := countP_valueWrite_pos hc
      have e1 := h1.stick a b w hmem hw
      have : l2.countP (isValueWriteAt a b) = 0 :=
        countP_valueWrite_zero (fun w' hmem' => e1 (h2.writes a b w' hmem').2.2.2)
      have := h1.once a b
      omega
    · have := h2.once a b
      omega

theorem Run.write {m0 m3 m4 : Matrix} {l : List Event} {i j depth : Nat} {v : Int}
    (h : Run true m0 m3 l i j depth) (hcur : m0.cells i j = INF)
    (hrows : m4.rows = m3.rows) (hcols : m4.cols = m3.cols)
    (hcells : ∀ a b, m4.cells a b = if a = i ∧ b = j then v else m3.cells a b) :
    Run false m0 m4 (l ++ [Event.write i j v]) i j depth := by
  refine ⟨hrows.trans h.rows_eq, hcols.trans h.cols_eq, ?_, ?_, ?_, ?_, ?_, ?_⟩
  · intro a b hne
    have hab : ¬ (a = i ∧ b = j) := by
      rintro ⟨rfl, rfl⟩; exact hne hcur
    rw [hcells, if_neg hab]; exact h.keep a b hne
  · intro a b hab
    have hab' : ¬ (a = i ∧ b = j) := by
      rcases hab with h1 | h1 | h1
      · omega
      · omega
      · simp at h1
    rw [hcells, if_neg hab']
    exact h.frame a b (by
      rcases hab with h1 | h1 | h1
      · exact Or.inl h1
      · exact Or.inr (Or.inl h1)
      · simp at h1)
  · intro d ci cj a b hmem
    rcases List.mem_append.mp hmem with h1 | h1
    · exact h.calls d ci cj a b h1
    · simp at h1
  · intro a b w hmem
    rcases List.mem_append.mp hmem with h1 | h1
    · have := h.writes a b w h1
      exact ⟨this.1, this.2.1, fun hf => by simp at hf, this.2.2.2⟩
    · simp only [List.mem_singleton, Event.write.injEq] at h1
      obtain ⟨rfl, rfl, rfl⟩ := h1
      exact ⟨le_rfl, le_rfl, fun hf => by simp at hf, hcur⟩
  · intro a b w hmem hw
    rcases List.mem_append.mp hmem with h1 | h1
    · have hab : ¬ (a = i ∧ b = j) := (h.writes a b w h1).2.2.1 rfl
      rw [hcells, if_neg hab]; exact h.stick a b w h1 hw
    · simp only [List.mem_singleton, Event.write.injEq] at h1
      obtain ⟨rfl, rfl, rfl⟩ := h1
      rw [hcells]; simpa using hw
  · intro a b
    rw [List.countP_append]
    by_cases hab : a = i ∧ b = j
    · obtain ⟨rfl, rfl⟩ := hab
      have : l.countP (isValueWriteAt a b) = 0 :=
        countP_valueWrite_zero (fun w' hmem' => (h.writes a b w' hmem').2.2.1 rfl ⟨rfl, rfl⟩)
      rw [this]
      simp only [List.countP_cons, List.countP_nil]
      split_ifs <;> omega
    · have h0 : [Event.write i j v].countP (isValueWriteAt a b) = 0 := by
        rw [List.countP_eq_zero]
        intro e he hp
        simp only [List.mem_singleton] at he
        subst he
        simp only [isValueWriteAt, Bool.and_eq_true, beq_iff_eq, decide_eq_true_eq] at hp
        exact hab ⟨hp.1.1.symm, hp.1.2.symm⟩
      have := h.once a b
      omega

theorem optLog_run (ord : ArgOrder) (s t : List Char) (match_ mismatch gap : Int) :
    ∀ (n i j : Nat) (memo : Matrix) (depth : Nat), i + j = n → i < s.length → j < t.length →
      i < memo.rows → j < memo.cols →
      ∃ v memo' log, optLog ord s i t j memo match_ mismatch gap depth = some (v, memo', log) ∧
        opt ord s i t j memo match_ mismatch gap = some (v, memo') ∧
        Run false memo memo' log i j depth ∧
        (memo.cells i j = INF → Event.write i j v ∈ log) ∧
        (memo.cells i j ≠ INF → log = [] ∧ memo' = memo ∧ v = memo.cells i j) := by
  intro n
  induction n using Nat.strong_induction_on with
  | _ n ih =>
    intro i j memo depth hn hi hj hr hc
    have hget : memo.get i j = some (memo.cells i j) := by simp [Matrix.get, hr, hc]
    rw [optLog.eq_def, opt.eq_def]
    simp only [hget, Option.bind_eq_bind, Option.some_bind]
    by_cases hcur : memo.cells i j = INF
    · simp only [hcur, if_true]
      have hs : s[i]? = some s[i] := List.getElem?_eq_getElem hi
      have ht : t[j]? = some t[j] := List.getElem?_eq_getElem hj
      simp only [hs, ht, Option.some_bind]
      subst hn
      have IH : ∀ (a b : Nat) (m : Matrix), a + b < i + j → a ≤ i → b ≤ j →
          m.rows = memo.rows → m.cols = memo.cols →
          ∃ v m' log, optLog ord s a t b m match_ mismatch gap (depth + 1) = some (v, m', log) ∧
            opt ord s a t b m match_ mismatch gap = some (v, m') ∧
            Run false m m' log a b (depth + 1) ∧
            (m.cells a b = INF → Event.write a b v ∈ log) ∧
            (m.cells a b ≠ INF → log = [] ∧ m' = m ∧ v = m.cells a b) :=
        fun a b m hlt ha hb hrw hcl =>
          ih (a + b) hlt a b m (depth + 1) rfl (by omega) (by omega) (by omega) (by omega)
      rcases Nat.eq_zero_or_pos i with hi0 | hi0
      · rcases Nat.eq_zero_or_pos j with hj0 | hj0
        · subst hi0; subst hj0
          obtain ⟨m4, s1, s2, s3, s4, s5⟩ := Matrix.set_get memo 0 0 0 hr hc
          refine ⟨0, m4, _, ?_, ?_,
            by simpa using (Run.nil true memo 0 0 depth).write hcur s3 s4 s5, ?_, ?_⟩
          · simp [s1, s2]
          · simp [s1, s2]
          · intro _; simp
          · intro hne; exact absurd rfl hne
        · subst hi0
          obtain ⟨j', rfl⟩ : ∃ j', j = j' + 1 := ⟨j - 1, by omega⟩
          obtain ⟨x1, m1, l1, p1, q1, r1, _, _⟩ := IH 0 j' memo (by omega) le_rfl (by omega) rfl rfl
          have R1 := (r1.lift (i := 0) (j := j' + 1) (by omega) (by omega) (by omega)).call
            0 j' (by omega) (by omega) (by omega)
          obtain ⟨m4, s1, s2, s3, s4, s5⟩ := Matrix.set_get m1 0 (j' + 1) (x1 + gap)
            (by rw [r1.rows_eq]; exact hr) (by rw [r1.cols_eq]; exact hc)
          refine ⟨x1 + gap, m4, _, ?_, ?_, R1.write hcur s3 s4 s5, ?_, ?_⟩
          · simp [p1, s1, s2]
          · simp [q1, s1, s2]
          · intro _; simp
          · intro hne; exact absurd rfl hne
      · rcases Nat.eq_zero_or_pos j with hj0 | hj0
        · subst hj0
          obtain ⟨i', rfl⟩ : ∃ i', i = i' + 1 := ⟨i - 1, by omega⟩
          obtain ⟨x1, m1, l1, p1, q1, r1, _, _⟩ := IH i' 0 memo (by omega) (by omega) le_rfl rfl rfl
          have R1 := (r1.lift (i := i' + 1) (j := 0) (by omega) (by omega) (by omega)).call
            i' 0 (by omega) (by omega) (by omega)
          obtain ⟨m4, s1, s2, s3, s4, s5⟩ := Matrix.set_get m1 (i' + 1) 0 (x1 + gap)
            (by rw [r1.rows_eq]; exact hr) (by rw [r1.cols_eq]; exact hc)
          refine ⟨x1 + gap, m4, _, ?_, ?_, R1.write hcur s3 s4 s5, ?_, ?_⟩
          · simp [p1, s1, s2]
          · simp [q1, s1, s2]
          · intro _; simp
          · intro hne; exact absurd rfl hne
        · obtain ⟨i', rfl⟩ : ∃ i', i = i' + 1 := ⟨i - 1, by omega⟩
          obtain ⟨j', rfl⟩ : ∃ j', j = j' + 1 := ⟨j - 1, by omega⟩
          have hne1 : ¬ (i' + 1 = 0 ∧ j' + 1 = 0) := by omega
          have hne2 : ¬ (i' + 1 = 0 ∧ j' + 1 ≠ 0) := by omega
          have hne3 : ¬ (j' + 1 = 0 ∧ i' + 1 ≠ 0) := by omega
          have hne4 : ¬ (i' + 1 = 0 ∨ j' + 1 = 0) := by omega
          simp only [hne1, hne2, hne3, hne4, dite_false, Nat.add_sub_cancel]
          cases ord
          · obtain ⟨x1, m1, l1, p1, q1, r1, _, _⟩ := IH i' j' memo (by omega) (by omega) (by omega) rfl rfl
            obtain ⟨x2, m2, l2, p2, q2, r2, _, _⟩ := IH i' (j' + 1) m1 (by omega) (by omega) le_rfl
              r1.rows_eq r1.cols_eq
            obtain ⟨x3, m3, l3, p3, q3, r3, _, _⟩ := IH (i' + 1) j' m2 (by omega) le_rfl (by omega)
              (r2.rows_eq.trans r1.rows_eq) (r2.cols_eq.trans r1.cols_eq)
            have R1 := (r1.lift (i := i' + 1) (j := j' + 1) (by omega) (by omega) (by omega)).call
              i' j' (by omega) (by omega) (by omega)
            have R2 := (r2.lift (i := i' + 1) (j := j' + 1) (by omega) (by omega) (by omega)).call
              i' (j' + 1) (by omega) (by omega) (by omega)
            have R3 := (r3.lift (i := i' + 1) (j := j' + 1) (by omega) (by omega) (by omega)).call
              (i' + 1) j' (by omega) (by omega) (by omega)
            obtain ⟨m4, s1, s2, s3, s4, s5⟩ := Matrix.set_get m3 (i' + 1) (j' + 1)
              (max3 (x1 + (if s[i' + 1] = t[j' + 1] then match_ else mismatch))
                (x2 + gap) (x3 + gap))
              (by rw [r3.rows_eq, r2.rows_eq, r1.rows_eq]; exact hr)
              (by rw [r3.cols_eq, r2.cols_eq, r1.cols_eq]; exact hc)
            refine ⟨max3 (x1 + (if s[i' + 1] = t[j' + 1] then match_ else mismatch)) (x2 + gap) (x3 + gap),
              m4, _, ?_, ?_, ((R1.seq R2).seq R3).write hcur s3 s4 s5, ?_, ?_⟩
            · simp [p1, p2, p3, s1, s2]
            · simp [q1, q2, q3, s1, s2]
            · intro _; simp
            · intro hne; exact absurd rfl hne
          · obtain ⟨x1, m1, l1, p1, q1, r1, _, _⟩ := IH i' j' memo (by omega) (by omega) (by omega) rfl rfl
            obtain ⟨x2, m2, l2, p2, q2, r2, _, _⟩ := IH (i' + 1) j' m1 (by omega) le_rfl (by omega)
              r1.rows_eq r1.cols_eq
            obtain ⟨x3, m3, l3, p3, q3, r3, _, _⟩ := IH i' (j' + 1) m2 (by omega) (by omega) le_rfl
              (r2.rows_eq.trans r1.rows_eq) (r2.cols_eq.trans r1.cols_eq)
            have R1 := (r1.lift (i := i' + 1) (j := j' + 1) (by omega) (by omega) (by omega)).call
              i' j' (by omega) (by omega) (by omega)
            have R2 := (r2.lift (i := i' + 1) (j := j' + 1) (by omega) (by omega) (by omega)).call
              (i' + 1) j' (by omega) (by omega) (by omega)
            have R3 := (r3.lift (i := i' + 1) (j := j' + 1) (by omega) (by omega) (by omega)).call
              i' (j' + 1) (by omega) (by omega) (by omega)
            obtain ⟨m4, s1, s2, s3, s4, s5⟩ := Matrix.set_get m3 (i' + 1) (j' + 1)
              (max3 (x1 + (if s[i' + 1] = t[j' + 1] then match_ else mismatch))
                (x3 + gap) (x2 + gap))
              (by rw [r3.rows_eq, r2.rows_eq, r1.rows_eq]; exact hr)
              (by rw [r3.cols_eq, r2.cols_eq, r1.cols_eq]; exact hc)
            refine ⟨max3 (x1 + (if s[i' + 1] = t[j' + 1] then match_ else mismatch)) (x3 + gap) (x2 + gap),
              m4, _, ?_, ?_, ((R1.seq R2).seq R3).write hcur s3 s4 s5, ?_, ?_⟩
            · simp [p1, p2, p3, s1, s2]
            · simp [q1, q2, q3, s1, s2]
            · intro _; simp
            · intro hne; exact absurd rfl hne
          · obtain ⟨x1, m1, l1, p1, q1, r1, _, _⟩ := IH i' (j' + 1) memo (by omega) (by omega) le_rfl rfl rfl
            obtain ⟨x2, m2, l2, p2, q2, r2, _, _⟩ := IH i' j' m1 (by omega) (by omega) (by omega)
              r1.rows_eq r1.cols_eq
            obtain ⟨x3, m3, l3, p3, q3, r3, _, _⟩ := IH (i' + 1) j' m2 (by omega) le_rfl (by omega)
              (r2.rows_eq.trans r1.rows_eq) (r2.cols_eq.trans r1.cols_eq)
            have R1 := (r1.lift (i := i' + 1) (j := j' + 1) (by omega) (by omega) (by omega)).call
              i' (j' + 1) (by omega) (by omega) (by omega)
            have R2 := (r2.lift (i := i' + 1) (j := j' + 1) (by omega) (by omega) (by omega)).call
              i' j' (by omega) (by omega) (by omega)
            have R3 := (r3.lift (i := i' + 1) (j := j' + 1) (by omega) (by omega) (by omega)).call
              (i' + 1) j' (by omega) (by omega) (by omega)
            obtain ⟨m4, s1, s2, s3, s4, s5⟩ := Matrix.set_get m3 (i' + 1) (j' + 1)
              (max3 (x2 + (if s[i' + 1] = t[j' + 1] then match_ else mismatch))
                (x1 + gap) (x3 + gap))
              (by rw [r3.rows_eq, r2.rows_eq, r1.rows_eq]; exact hr)
              (by rw [r3.cols_eq, r2.cols_eq, r1.cols_eq]; exact hc)
            refine ⟨max3 (x2 + (if s[i' + 1] = t[j' + 1] then match_ else mismatch)) (x1 + gap) (x3 + gap),
              m4, _, ?_, ?_, ((R1.seq R2).seq R3).write hcur s3 s4 s5, ?_, ?_⟩
            · simp [p1, p2, p3, s1, s2]
            · simp [q1, q2, q3, s1, s2]
            · intro _; simp
            · intro hne; exact absurd rfl hne
          · obtain ⟨x1, m1, l1, p1, q1, r1, _, _⟩ := IH i' (j' + 1) memo (by omega) (by omega) le_rfl rfl rfl
            obtain ⟨x2, m2, l2, p2, q2, r2, _, _⟩ := IH (i' + 1) j' m1 (by omega) le_rfl (by omega)
              r1.rows_eq r1.cols_eq
            obtain ⟨x3, m3, l3, p3, q3, r3, _, _⟩ := IH i' j' m2 (by omega) (by omega) (by omega)
              (r2.rows_eq.trans r1.rows_eq) (r2.cols_eq.trans r1.cols_eq)
            have R1 := (r1.lift (i := i' + 1) (j := j' + 1) (by omega) (by omega) (by omega)).call
              i' (j' + 1) (by omega) (by omega) (by omega)
            have R2 := (r2.lift (i := i' + 1) (j := j' + 1) (by omega) (by omega) (by omega)).call
              (i' + 1) j' (by omega) (by omega) (by omega)
            have R3 := (r3.lift (i := i' + 1) (j := j' + 1) (by omega) (by omega) (by omega)).call
              i' j' (by omega) (by omega) (by omega)
            obtain ⟨m4, s1, s2, s3, s4, s5⟩ := Matrix.set_get m3 (i' + 1) (j' + 1)
              (max3 (x3 + (if s[i' + 1] = t[j' + 1] then match_ else mismatch))
                (x1 + gap) (x2 + gap))
              (by rw [r3.rows_eq, r2.rows_eq, r1.rows_eq]; exact hr)
              (by rw [r3.cols_eq, r2.cols_eq, r1.cols_eq]; exact hc)
            refine ⟨max3 (x3 + (if s[i' + 1] = t[j' + 1] then match_ else mismatch)) (x1 + gap) (x2 + gap),
              m4, _, ?_, ?_, ((R1.seq R2).seq R3).write hcur s3 s4 s5, ?_, ?_⟩
            · simp [p1, p2, p3, s1, s2]
            · simp [q1, q2, q3, s1, s2]
            · intro _; simp
            · intro hne; exact absurd rfl hne
          · obtain ⟨x1, m1, l1, p1, q1, r1, _, _⟩ := IH (i' + 1) j' memo (by omega) le_rfl (by omega) rfl rfl
            obtain ⟨x2, m2, l2, p2, q2, r2, _, _⟩ := IH i' j' m1 (by omega) (by omega) (by omega)
              r1.rows_eq r1.cols_eq
            obtain ⟨x3, m3, l3, p3, q3, r3, _, _⟩ := IH i' (j' + 1) m2 (by omega) (by omega) le_rfl
              (r2.rows_eq.trans r1.rows_eq) (r2.cols_eq.trans r1.cols_eq)
            have R1 := (r1.lift (i := i' + 1) (j := j' + 1) (by omega) (by omega) (by omega)).call
              (i' + 1) j' (by omega) (by omega) (by omega)
            have R2 := (r2.lift (i := i' + 1) (j := j' + 1) (by omega) (by omega) (by omega)).call
              i' j' (by omega) (by omega) (by omega)
            have R3 := (r3.lift (i := i' + 1) (j := j' + 1) (by omega) (by omega) (by omega)).call
              i' (j' + 1) (by omega) (by omega) (by omega)
            obtain ⟨m4, s1, s2, s3, s4, s5⟩ := Matrix.set_get m3 (i' + 1) (j' + 1)
              (max3 (x2 + (if s[i' + 1] = t[j' + 1] then match_ else mismatch))
                (x3 + gap) (x1 + gap))
              (by rw [r3.rows_eq, r2.rows_eq, r1.rows_eq]; exact hr)
              (by rw [r3.cols_eq, r2.cols_eq, r1.cols_eq]; exact hc)
            refine ⟨max3 (x2 + (if s[i' + 1] = t[j' + 1] then match_ else mismatch)) (x3 + gap) (x1 + gap),
              m4, _, ?_, ?_, ((R1.seq R2).seq R3).write hcur s3 s4 s5, ?_, ?_⟩
            · simp [p1, p2, p3, s1, s2]
            · simp [q1, q2, q3, s1, s2]
            · intro _; simp
            · intro hne; exact absurd rfl hne
          · obtain ⟨x1, m1, l1, p1, q1, r1, _, _⟩ := IH (i' + 1) j' memo (by omega) le_rfl (by omega) rfl rfl
            obtain ⟨x2, m2, l2, p2, q2, r2, _, _⟩ := IH i' (j' + 1) m1 (by omega) (by omega) le_rfl
              r1.rows_eq r1.cols_eq
            obtain ⟨x3, m3, l3, p3, q3, r3, _, _⟩ := IH i' j' m2 (by omega) (by omega) (by omega)
              (r2.rows_eq.trans r1.rows_eq) (r2.cols_eq.trans r1.cols_eq)
            have R1 := (r1.lift (i := i' + 1) (j := j' + 1) (by omega) (by omega) (by omega)).call
              (i' + 1) j' (by omega) (by omega) (by omega)
            have R2 := (r2.lift (i := i' + 1) (j := j' + 1) (by omega) (by omega) (by omega)).call
              i' (j' + 1) (by omega) (by omega) (by omega)
            have R3 := (r3.lift (i := i' + 1) (j := j' + 1) (by omega) (by omega) (by omega)).call
              i' j' (by omega) (by omega) (by omega)
            obtain ⟨m4, s1, s2, s3, s4, s5⟩ := Matrix.set_get m3 (i' + 1) (j' + 1)
              (max3 (x3 + (if s[i' + 1] = t[j' + 1] then match_ else mismatch))
                (x2 + gap) (x1 + gap))
              (by rw [r3.rows_eq, r2.rows_eq, r1.rows_eq]; exact hr)
              (by rw [r3.cols_eq, r2.cols_eq, r1.cols_eq]; exact hc)
            refine ⟨max3 (x3 + (if s[i' + 1] = t[j' + 1] then match_ else mismatch)) (x2 + gap) (x1 + gap),
              m4, _, ?_, ?_, ((R1.seq R2).seq R3).write hcur s3 s4 s5, ?_, ?_⟩
            · simp [p1, p2, p3, s1, s2]
            · simp [q1, q2, q3, s1, s2]
            · intro _; simp
            · intro hne; exact absurd rfl hne
    · simp only [hcur, if_false]
      exact ⟨memo.cells i j, memo, [], rfl, rfl, Run.nil false memo i j depth,
        fun h => h.elim, fun _ => ⟨rfl, rfl, rfl⟩⟩

/-! ## The instrumented traceback loop -/

theorem tracebackLoopLog_stop (memo : Matrix) (s t : List Char) (gap : Int) (row col : Nat)
    (os ot : List Char) (steps : List TraceStep) (h : ¬ (row > 0 ∧ col > 0)) :
    tracebackLoopLog memo s t gap row col os ot steps = some (row, col, os, ot, steps) := by
  rw [tracebackLoopLog.eq_def]
  simp [h]

theorem tracebackLoopLog_step (memo : Matrix) (s t : List Char) (gap : Int) (row col : Nat)
    (os ot : List Char) (steps : List TraceStep) (hrow : 0 < row) (hcol : 0 < col)
    (hs : row < s.length) (ht : col < t.length) (hr : row < memo.rows) (hc : col < memo.cols) :
    tracebackLoopLog memo s t gap row col os ot steps =
      if memo.cells (row - 1) col + gap = memo.cells row col then
        tracebackLoopLog memo s t gap (row - 1) col (os ++ [s[row]]) (ot ++ ['-'])
          (steps ++ [⟨row, col, row - 1, col, s[row], '-'⟩])
      else if memo.cells row (col - 1) + gap = memo.cells row col then
        tracebackLoopLog memo s t gap row (col - 1) (os ++ ['-']) (ot ++ [t[col]])
          (steps ++ [⟨row, col, row, col - 1, '-', t[col]⟩])
      else
        tracebackLoopLog memo s t gap (row - 1) (col - 1) (os ++ [s[row]]) (ot ++ [t[col]])
          (steps ++ [⟨row, col, row - 1, col - 1, s[row], t[col]⟩]) := by
  rw [tracebackLoopLog.eq_def]
  have h1 : memo.get (row - 1) col = some (memo.cells (row - 1) col) := by
    simp [Matrix.get, hc]; omega
  have h2 : memo.get row col = some (memo.cells row col) := by
    simp [Matrix.get, hc, hr]
  have h3 : memo.get row (col - 1) = some (memo.cells row (col - 1)) := by
    simp [Matrix.get, hr]; omega
  have h4 : s[row]? = some s[row] := List.getElem?_eq_getElem hs
  have h5 : t[col]? = some t[col] := List.getElem?_eq_getElem ht
  have h6 : row > 0 ∧ col > 0 := ⟨hrow, hcol⟩
  have h7 : ¬ row = 0 := by omega
  have h8 : ¬ col = 0 := by omega
  simp only [h1, h2, h3, h4, h5, h6, h7, h8, Option.bind_eq_bind, Option.some_bind, dite_true,
    dite_false, and_self]

theorem Linked.append {row col r c r2 c2 : Nat} {l1 l2 : List TraceStep}
    (h1 : Linked row col l1 r c) (h2 : Linked r c l2 r2 c2) :
    Linked row col (l1 ++ l2) r2 c2 := by
  induction l1 generalizing row col with
  | nil =>
    obtain ⟨rfl, rfl⟩ := h1
    exact h2
  | cons st rest ih =>
    obtain ⟨e1, e2, h⟩ := h1
    exact ⟨e1, e2, ih h⟩

theorem tracebackLoopLog_spec (memo : Matrix) (s t : List Char) (gap : Int) :
    ∀ (n row col : Nat) (os ot : List Char) (st0 : List TraceStep), row + col = n →
      row < s.length → col < t.length → row < memo.rows → col < memo.cols →
      ∃ r c steps,
        tracebackLoopLog memo s t gap row col os ot st0
          = some (r, c, os ++ steps.map (fun st => st.outS), ot ++ steps.map (fun st => st.outT),
              st0 ++ steps) ∧
        tracebackLoop memo s t gap row col os ot
          = some (r, c, os ++ steps.map (fun st => st.outS),
              ot ++ steps.map (fun st => st.outT)) ∧
        r ≤ row ∧ c ≤ col ∧ (r = 0 ∨ c = 0) ∧ steps.length ≤ (row - r) + (col - c) ∧
        Linked row col steps r c ∧
        ∀ st ∈ steps, StepRule memo s t gap st ∧ st.row ≤ row ∧ st.col ≤ col ∧
          st.toRow + st.toCol < st.row + st.col := by
  intro n
  induction n using Nat.strong_induction_on with
  | _ n ih =>
    intro row col os ot st0 hn hs ht hr hc
    subst hn
    by_cases hpos : row > 0 ∧ col > 0
    · obtain ⟨hrow, hcol⟩ := hpos
      have h4 : s[row]? = some s[row] := List.getElem?_eq_getElem hs
      have h5 : t[col]? = some t[col] := List.getElem?_eq_getElem ht
      rw [tracebackLoopLog_step memo s t gap row col os ot st0 hrow hcol hs ht hr hc,
        tracebackLoop_step memo s t gap row col os ot hrow hcol hs ht hr hc]
      split_ifs with h1 h2
      · obtain ⟨r, c, steps, e1, e2, hrr, hcc, hb, hlen, hlink, hall⟩ :=
          ih (row - 1 + col) (by omega) (row - 1) col (os ++ [s[row]]) (ot ++ ['-'])
            (st0 ++ [⟨row, col, row - 1, col, s[row], '-'⟩]) rfl (by omega) ht (by omega) hc
        refine ⟨r, c, ⟨row, col, row - 1, col, s[row], '-'⟩ :: steps, by simpa using e1,
          by simpa using e2, by omega, hcc, hb, by simp; omega, ⟨rfl, rfl, hlink⟩, ?_⟩
        intro st hst
        rcases List.mem_cons.mp hst with rfl | hst
        · refine ⟨⟨hrow, hcol, fun _ => ⟨rfl, rfl, h4, rfl⟩, fun hne _ => absurd h1 hne,
            fun hne _ => absurd h1 hne⟩, le_rfl, le_rfl, ?_⟩
          show row - 1 + col < row + col
          omega
        · have := hall st hst
          exact ⟨this.1, by omega, this.2.2.1, this.2.2.2⟩
      · obtain ⟨r, c, steps, e1, e2, hrr, hcc, hb, hlen, hlink, hall⟩ :=
          ih (row + (col - 1)) (by omega) row (col - 1) (os ++ ['-']) (ot ++ [t[col]])
            (st0 ++ [⟨row, col, row, col - 1, '-', t[col]⟩]) rfl hs (by omega) hr (by omega)
        refine ⟨r, c, ⟨row, col, row, col - 1, '-', t[col]⟩ :: steps, by simpa using e1,
          by simpa using e2, hrr, by omega, hb, by simp; omega, ⟨rfl, rfl, hlink⟩, ?_⟩
        intro st hst
        rcases List.mem_cons.mp hst with rfl | hst
        · refine ⟨⟨hrow, hcol, fun he => absurd he h1, fun _ _ => ⟨rfl, rfl, rfl, h5⟩,
            fun _ hne => absurd h2 hne⟩, le_rfl, le_rfl, ?_⟩
          show row + (col - 1) < row + col
          omega
        · have := hall st hst
          exact ⟨this.1, this.2.1, by omega, this.2.2.2⟩
      · obtain ⟨r, c, steps, e1, e2, hrr, hcc, hb, hlen, hlink, hall⟩ :=
          ih (row - 1 + (col - 1)) (by omega) (row - 1) (col - 1) (os ++ [s[row]])
            (ot ++ [t[col]]) (st0 ++ [⟨row, col, row - 1, col - 1, s[row], t[col]⟩]) rfl
            (by omega) (by omega) (by omega) (by omega)
        refine ⟨r, c, ⟨row, col, row - 1, col - 1, s[row], t[col]⟩ :: steps, by simpa using e1,
          by simpa using e2, by omega, by omega, hb, by simp; omega, ⟨rfl, rfl, hlink⟩, ?_⟩
        intro st hst
        rcases List.mem_cons.mp hst with rfl | hst
        · refine ⟨⟨hrow, hcol, fun he => absurd he h1, fun _ he => absurd he h2,
            fun _ _ => ⟨rfl, rfl, h4, h5⟩⟩, le_rfl, le_rfl, ?_⟩
          show row - 1 + (col - 1) < row + col
          omega
        · have := hall st hst
          exact ⟨this.1, by omega, by omega, this.2.2.2⟩
    · rw [tracebackLoopLog_stop memo s t gap row col os ot st0 hpos,
        tracebackLoop_stop memo s t gap row col os ot hpos]
      exact ⟨row, col, [], by simp, by simp, le_rfl, le_rfl, by omega, by simp, ⟨rfl, rfl⟩,
        fun st hst => by simp at hst⟩

/-! ## The instrumented `traceback` as a whole -/

theorem tracebackLog_spec (memo : Matrix) (s t : List Char) (gap : Int)
    (hs : s ≠ []) (ht : t ≠ []) (hr : s.length ≤ memo.rows) (hc : t.length ≤ memo.cols) :
    ∃ r c steps,
      tracebackLog memo s t gap
        = some (r, c, (steps.map (fun st => st.outS)).reverse,
            (steps.map (fun st => st.outT)).reverse, steps) ∧
      traceback memo s t gap
        = some ((steps.map (fun st => st.outS)).reverse,
            (steps.map (fun st => st.outT)).reverse) ∧
      tracebackStop memo s t gap = some (r, c) ∧
      r ≤ s.length - 1 ∧ c ≤ t.length - 1 ∧ (r = 0 ∨ c = 0) ∧
      steps.length ≤ (s.length - 1 - r) + (t.length - 1 - c) ∧
      Linked (s.length - 1) (t.length - 1) steps r c ∧
      ∀ st ∈ steps, StepRule memo s t gap st ∧ st.row ≤ s.length - 1 ∧
        st.col ≤ t.length - 1 ∧ st.toRow + st.toCol < st.row + st.col := by
  have hsl : 0 < s.length := List.length_pos.mpr hs
  have htl : 0 < t.length := List.length_pos.mpr ht
  obtain ⟨r, c, steps, e1, e2, hrr, hcc, hb, hlen, hlink, hall⟩ :=
    tracebackLoopLog_spec memo s t gap _ (s.length - 1) (t.length - 1) [] [] [] rfl
      (by omega) (by omega) (by omega) (by omega)
  have h0 : ¬ (s.length = 0 ∨ t.length = 0) := by omega
  refine ⟨r, c, steps, ?_, ?_, ?_, hrr, hcc, hb, hlen, hlink, hall⟩
  · simp [tracebackLog, hs, ht, e1]
  · simp [traceback, sizePred_pos _ hsl, sizePred_pos _ htl, e2]
  · simp [tracebackStop, sizePred_pos _ hsl, sizePred_pos _ htl, e2]

theorem tracebackLoopLog_step_filled {Rf : Nat → Nat → Int} {memo : Matrix} {i j : Nat}
    (hF : Filled Rf memo i j) (s t : List Char) (gap : Int) (row col : Nat)
    (os ot : List Char) (steps : List TraceStep) (hrow : 0 < row) (hcol : 0 < col)
    (hs : row < s.length) (ht : col < t.length) (hr : row < memo.rows) (hc : col < memo.cols)
    (hri : row ≤ i) (hcj : col ≤ j) :
    tracebackLoopLog memo s t gap row col os ot steps =
      if Rf (row - 1) col + gap = Rf row col then
        tracebackLoopLog memo s t gap (row - 1) col (os ++ [s[row]]) (ot ++ ['-'])
          (steps ++ [⟨row, col, row - 1, col, s[row], '-'⟩])
      else if Rf row (col - 1) + gap = Rf row col then
        tracebackLoopLog memo s t gap row (col - 1) (os ++ ['-']) (ot ++ [t[col]])
          (steps ++ [⟨row, col, row, col - 1, '-', t[col]⟩])
      else
        tracebackLoopLog memo s t gap (row - 1) (col - 1) (os ++ [s[row]]) (ot ++ [t[col]])
          (steps ++ [⟨row, col, row - 1, col - 1, s[row], t[col]⟩]) := by
  rw [tracebackLoopLog_step memo s t gap row col os ot steps hrow hcol hs ht hr hc,
    hF row col hri hcj, hF (row - 1) col (by omega) hcj, hF row (col - 1) hri (by omega)]

theorem segment_last (s : List Char) (r : Nat) :
    segment s r (s.length - 1) = s.drop (r + 1) := by
  unfold segment
  rw [List.take_of_length_le (by simp; omega)]

theorem no_gap_marker (s : List Char) (h : '-' ∉ s) : ∀ k, 0 < k → s[k]? ≠ some '-' :=
  fun _ _ e => h (List.getElem?_mem e)

/-! ## The score of the printed columns -/

theorem printedScore_steps (match_ mismatch gap : Int) (steps : List TraceStep) :
    printedScore match_ mismatch gap (steps.map (fun st => st.outS)).reverse
        (steps.map (fun st => st.outT)).reverse
      = (steps.map (fun st => printedColumnScore match_ mismatch gap st.outS st.outT)).sum := by
  unfold printedScore
  rw [← List.map_reverse, ← List.map_reverse, List.zip_map', List.map_map,
    List.map_reverse, List.sum_reverse]
  rfl

theorem Linked.telescope {row col r c : Nat} {steps : List TraceStep}
    (h : Linked row col steps r c) (f : TraceStep → Int) (g : Nat → Nat → Int)
    (hf : ∀ st ∈ steps, f st = g st.row st.col - g st.toRow st.toCol) :
    (steps.map f).sum = g row col - g r c := by
  induction steps generalizing row col with
  | nil =>
    obtain ⟨rfl, rfl⟩ := h
    simp
  | cons st rest ih =>
    obtain ⟨rfl, rfl, h⟩ := h
    rw [List.map_cons, List.sum_cons, ih h (fun x hx => hf x (List.mem_cons_of_mem _ hx)),
      hf st (List.mem_cons_self _ _)]
    ring

theorem R_border (s t : List Char) (match_ mismatch gap : Int) (r c : Nat)
    (h : r = 0 ∨ c = 0) : R s t match_ mismatch gap r c = ((r + c : Nat) : Int) * gap := by
  rcases h with rfl | rfl
  · rw [R_row_zero]; simp
  · rw [R_col_zero]; simp

theorem step_score_filled (s t : List Char) (match_ mismatch gap : Int) (memo : Matrix)
    (i j : Nat) (hF : Filled (R s t match_ mismatch gap) memo i j)
    (hsg : ∀ k, 0 < k → s[k]? ≠ some '-') (htg : ∀ k, 0 < k → t[k]? ≠ some '-')
    (st : TraceStep) (hrule : StepRule memo s t gap st) (hri : st.row ≤ i) (hcj : st.col ≤ j) :
    printedColumnScore match_ mismatch gap st.outS st.outT
        = memo.cells st.row st.col - memo.cells st.toRow st.toCol ∧
    (memo.cells (st.row - 1) st.col + gap ≠ memo.cells st.row st.col →
      memo.cells st.row (st.col - 1) + gap ≠ memo.cells st.row st.col →
      memo.cells (st.row - 1) (st.col - 1)
          + (if s[st.row]? = t[st.col]? then match_ else mismatch)
        = memo.cells st.row st.col) := by
  obtain ⟨hrow, hcol, hup, hleft, hdiag⟩ := hrule
  have key : memo.cells (st.row - 1) st.col + gap ≠ memo.cells st.row st.col →
      memo.cells st.row (st.col - 1) + gap ≠ memo.cells st.row st.col →
      memo.cells (st.row - 1) (st.col - 1)
          + (if s[st.row]? = t[st.col]? then match_ else mismatch)
        = memo.cells st.row st.col := by
    intro h1 h2
    rw [hF _ _ hri hcj, hF _ _ (by omega) hcj] at h1
    rw [hF _ _ hri hcj, hF _ _ hri (by omega)] at h2
    rw [hF _ _ hri hcj, hF _ _ (by omega) (by omega)]
    obtain ⟨a, ha⟩ : ∃ a, st.row = a + 1 := ⟨st.row - 1, by omega⟩
    obtain ⟨b, hb⟩ : ∃ b, st.col = b + 1 := ⟨st.col - 1, by omega⟩
    rw [ha, hb] at h1 h2 ⊢
    simp only [Nat.add_sub_cancel] at h1 h2 ⊢
    rcases max3_cases
        (R s t match_ mismatch gap a b + (if s[a + 1]? = t[b + 1]? then match_ else mismatch))
        (R s t match_ mismatch gap a (b + 1) + gap)
        (R s t match_ mismatch gap (a + 1) b + gap) with h | h | h
    · rw [R_succ_succ, h]
    · rw [R_succ_succ, h] at h1; exact absurd rfl h1
    · rw [R_succ_succ, h] at h2; exact absurd rfl h2
  refine ⟨?_, key⟩
  by_cases h1 : memo.cells (st.row - 1) st.col + gap = memo.cells st.row st.col
  · obtain ⟨e1, e2, _, e4⟩ := hup h1
    rw [e1, e2, ← h1]
    simp [printedColumnScore, e4]
  · by_cases h2 : memo.cells st.row (st.col - 1) + gap = memo.cells st.row st.col
    · obtain ⟨e1, e2, e3, _⟩ := hleft h1 h2
      rw [e1, e2, ← h2]
      simp [printedColumnScore, e3]
    · obtain ⟨e1, e2, e3, e4⟩ := hdiag h1 h2
      have n1 : st.outS ≠ '-' := fun e => hsg st.row hrow (by rw [e3, e])
      have n2 : st.outT ≠ '-' := fun e => htg st.col hcol (by rw [e4, e])
      rw [e1, e2, ← key h1 h2, e3, e4]
      simp [printedColumnScore, n1, n2]

/-! ## The instrumented `opt` on a table that satisfies the invariant -/

theorem optLog_inv_call (ord : ArgOrder) (s t : List Char) (match_ mismatch gap : Int)
    (i j : Nat) (memo : Matrix) (depth : Nat) (hi : i < s.length) (hj : j < t.length)
    (hr : i < memo.rows) (hc : j < memo.cols) (hinv : Inv (R s t match_ mismatch gap) memo) :
    ∃ memo' log, optLog ord s i t j memo match_ mismatch gap depth
        = some (R s t match_ mismatch gap i j, memo', log) ∧
      Ext (R s t match_ mismatch gap) memo memo' i j ∧
      Filled (R s t match_ mismatch gap) memo' i j ∧
      Run false memo memo' log i j depth ∧
      (memo.cells i j = INF → Event.write i j (R s t match_ mismatch gap i j) ∈ log) ∧
      (memo.cells i j ≠ INF → log = []) := by
  obtain ⟨v, m1, log, e1, e2, hrun, hw, hh⟩ :=
    optLog_run ord s t match_ mismatch gap (i + j) i j memo depth rfl hi hj hr hc
  obtain ⟨m2, e3, hext, hF⟩ :=
    opt_spec ord s t match_ mismatch gap (i + j) i j memo rfl hi hj hr hc hinv
  rw [e2] at e3
  simp only [Option.some.injEq, Prod.mk.injEq] at e3
  obtain ⟨rfl, rfl⟩ := e3
  exact ⟨m1, log, e1, hext, hF, hrun, hw, fun h => (hh h).1⟩

theorem writesAt_append (a b : Nat) (l1 l2 : List Event) :
    writesAt a b (l1 ++ l2) = writesAt a b l1 + writesAt a b l2 := by
  simp [writesAt, List.countP_append]

theorem writesAt_cons_call (a b d ci cj x y : Nat) (l : List Event) :
    writesAt a b (Event.call d ci cj x y :: l) = writesAt a b l := by
  simp [writesAt, List.countP_cons, isWriteAt]

theorem writesAt_single_write (a b i j : Nat) (v : Int) :
    writesAt a b [Event.write i j v] = if a = i ∧ b = j then 1 else 0 := by
  simp only [writesAt, List.countP_cons, List.countP_nil, isWriteAt, Bool.and_eq_true,
    beq_iff_eq]
  by_cases h : a = i ∧ b = j
  · obtain ⟨rfl, rfl⟩ := h; simp
  · have h2 : ¬ (i = a ∧ j = b) := fun hh => h ⟨hh.1.symm, hh.2.symm⟩
    simp [h, h2]

theorem writesAt_pos_of_mem {a b : Nat} {w : Int} {l : List Event}
    (h : Event.write a b w ∈ l) : 0 < writesAt a b l := by
  unfold writesAt
  rw [List.countP_pos_iff]
  exact ⟨_, h, by simp [isWriteAt]⟩

theorem writesAt_assemble (a b d i j x1 y1 x2 y2 x3 y3 : Nat) (v : Int)
    (l1 l2 l3 : List Event) :
    writesAt a b (((Event.call d i j x1 y1 :: l1) ++ (Event.call d i j x2 y2 :: l2)
        ++ (Event.call d i j x3 y3 :: l3)) ++ [Event.write i j v])
      = writesAt a b l1 + writesAt a b l2 + writesAt a b l3
        + (if a = i ∧ b = j then 1 else 0) := by
  rw [writesAt_append, writesAt_append, writesAt_append, writesAt_cons_call,
    writesAt_cons_call, writesAt_cons_call, writesAt_single_write]

theorem mem_assemble {a b d i j x1 y1 x2 y2 x3 y3 : Nat} {w v : Int}
    {l1 l2 l3 : List Event}
    (h : Event.write a b w ∈ ((Event.call d i j x1 y1 :: l1) ++ (Event.call d i j x2 y2 :: l2)
        ++ (Event.call d i j x3 y3 :: l3)) ++ [Event.write i j v]) :
    Event.write a b w ∈ l1 ∨ Event.write a b w ∈ l2 ∨ Event.write a b w ∈ l3 ∨
      (a = i ∧ b = j ∧ w = v) := by
  simp only [List.mem_append, List.mem_cons, List.mem_singleton, Event.write.injEq,
    reduceCtorEq, false_or] at h
  tauto

theorem optLog_miss_inv (ord : ArgOrder) (s t : List Char) (match_ mismatch gap : Int)
    (i' j' : Nat) (memo : Matrix) (depth : Nat)
    (hi : i' + 1 < s.length) (hj : j' + 1 < t.length)
    (hr : i' + 1 < memo.rows) (hc : j' + 1 < memo.cols)
    (hcur : memo.cells (i' + 1) (j' + 1) = INF)
    (hinv : Inv (R s t match_ mismatch gap) memo) :
    ∃ md mu ml md' mu' ml' ld lu ll m4 log,
      optLog ord s (i' + 1) t (j' + 1) memo match_ mismatch gap depth
        = some (R s t match_ mismatch gap (i' + 1) (j' + 1), m4, log) ∧
      optLog ord s i' t j' md match_ mismatch gap (depth + 1)
        = some (R s t match_ mismatch gap i' j', md', ld) ∧
      optLog ord s i' t (j' + 1) mu match_ mismatch gap (depth + 1)
        = some (R s t match_ mismatch gap i' (j' + 1), mu', lu) ∧
      optLog ord s (i' + 1) t j' ml match_ mismatch gap (depth + 1)
        = some (R s t match_ mismatch gap (i' + 1) j', ml', ll) ∧
      Ext (R s t match_ mismatch gap) memo md (i' + 1) (j' + 1) ∧
      Ext (R s t match_ mismatch gap) memo mu (i' + 1) (j' + 1) ∧
      Ext (R s t match_ mismatch gap) memo ml (i' + 1) (j' + 1) ∧
      mu.cells i' (j' + 1) = memo.cells i' (j' + 1) ∧
      ml.cells (i' + 1) j' = memo.cells (i' + 1) j' ∧
      (∀ a b, writesAt a b log = writesAt a b ld + writesAt a b lu + writesAt a b ll
        + (if a = i' + 1 ∧ b = j' + 1 then 1 else 0)) ∧
      (∀ a b w, Event.write a b w ∈ log →
        Event.write a b w ∈ ld ∨ Event.write a b w ∈ lu ∨ Event.write a b w ∈ ll ∨
          (a = i' + 1 ∧ b = j' + 1 ∧ w = R s t match_ mismatch gap (i' + 1) (j' + 1))) := by
  have hget : memo.get (i' + 1) (j' + 1) = some (memo.cells (i' + 1) (j' + 1)) := by
    simp [Matrix.get, hr, hc]
  have hs : s[i' + 1]? = some s[i' + 1] := List.getElem?_eq_getElem hi
  have ht : t[j' + 1]? = some t[j' + 1] := List.getElem?_eq_getElem hj
  have hv : R s t match_ mismatch gap (i' + 1) (j' + 1)
      = max3 (R s t match_ mismatch gap i' j'
                + (if s[i' + 1] = t[j' + 1] then match_ else mismatch))
          (R s t match_ mismatch gap i' (j' + 1) + gap)
          (R s t match_ mismatch gap (i' + 1) j' + gap) := by
    rw [R]; simp [hs, ht]
  cases ord
  · obtain ⟨m1, l1, p1, E1, F1, _⟩ := optLog_inv_call ArgOrder.dul s t match_ mismatch gap i' j'
      memo (depth + 1) (by omega) (by omega) (by omega) (by omega) hinv
    obtain ⟨m2, l2, p2, E2, F2, _⟩ := optLog_inv_call ArgOrder.dul s t match_ mismatch gap i' (j' + 1)
      m1 (depth + 1) (by omega) (by omega) (by rw [E1.rows_eq]; omega) (by rw [E1.cols_eq]; omega) E1.inv
    obtain ⟨m3, l3, p3, E3, F3, _⟩ := optLog_inv_call ArgOrder.dul s t match_ mismatch gap (i' + 1) j'
      m2 (depth + 1) (by omega) (by omega) (by rw [E2.rows_eq, E1.rows_eq]; omega)
      (by rw [E2.cols_eq, E1.cols_eq]; omega) E2.inv
    have X0 : Ext (R s t match_ mismatch gap) memo memo (i' + 1) (j' + 1) := Ext.refl hinv _ _
    have X1 : Ext (R s t match_ mismatch gap) memo m1 (i' + 1) (j' + 1) :=
      Ext.trans X0 E1 le_rfl le_rfl (by omega) (by omega)
    have X2 : Ext (R s t match_ mismatch gap) memo m2 (i' + 1) (j' + 1) :=
      Ext.trans X1 E2 le_rfl le_rfl (by omega) (by omega)
    obtain ⟨m4, s1, s2, _, _, _⟩ := Matrix.set_get m3 (i' + 1) (j' + 1)
      (R s t match_ mismatch gap (i' + 1) (j' + 1))
      (by rw [E3.rows_eq, E2.rows_eq, E1.rows_eq]; exact hr)
      (by rw [E3.cols_eq, E2.cols_eq, E1.cols_eq]; exact hc)
    rw [hv] at s1 s2
    refine ⟨memo, m1, m2, m1, m2, m3, l1, l2, l3, m4,
      ((Event.call (depth + 1) (i' + 1) (j' + 1) i' j' :: l1) ++ (Event.call (depth + 1) (i' + 1) (j' + 1) i' (j' + 1) :: l2) ++ (Event.call (depth + 1) (i' + 1) (j' + 1) (i' + 1) j' :: l3))
        ++ [Event.write (i' + 1) (j' + 1) (R s t match_ mismatch gap (i' + 1) (j' + 1))],
      ?_, p1, p2, p3, X0, X1, X2, ?_, ?_, ?_, ?_⟩
    · rw [optLog.eq_def]
      simp [hget, hcur, hs, ht, p1, p2, p3, s1, s2, hv]
    · exact E1.frame _ _ (by omega)
    · rw [E2.frame _ _ (by omega), E1.frame _ _ (by omega)]
    · intro a b
      rw [writesAt_assemble]
    · intro a b w hmem
      rcases mem_assemble hmem with h | h | h | h
      · exact Or.inl h
      · exact Or.inr (Or.inl h)
      · exact Or.inr (Or.inr (Or.inl h))
      · exact Or.inr (Or.inr (Or.inr h))
  · obtain ⟨m1, l1, p1, E1, F1, _⟩ := optLog_inv_call ArgOrder.dlu s t match_ mismatch gap i' j'
      memo (depth + 1) (by omega) (by omega) (by omega) (by omega) hinv
    obtain ⟨m2, l2, p2, E2, F2, _⟩ := optLog_inv_call ArgOrder.dlu s t match_ mismatch gap (i' + 1) j'
      m1 (depth + 1) (by omega) (by omega) (by rw [E1.rows_eq]; omega) (by rw [E1.cols_eq]; omega) E1.inv
    obtain ⟨m3, l3, p3, E3, F3, _⟩ := optLog_inv_call ArgOrder.dlu s t match_ mismatch gap i' (j' + 1)
      m2 (depth + 1) (by omega) (by omega) (by rw [E2.rows_eq, E1.rows_eq]; omega)
      (by rw [E2.cols_eq, E1.cols_eq]; omega) E2.inv
    have X0 : Ext (R s t match_ mismatch gap) memo memo (i' + 1) (j' + 1) := Ext.refl hinv _ _
    have X1 : Ext (R s t match_ mismatch gap) memo m1 (i' + 1) (j' + 1) :=
      Ext.trans X0 E1 le_rfl le_rfl (by omega) (by omega)
    have X2 : Ext (R s t match_ mismatch gap) memo m2 (i' + 1) (j' + 1) :=
      Ext.trans X1 E2 le_rfl le_rfl (by omega) (by omega)
    obtain ⟨m4, s1, s2, _, _, _⟩ := Matrix.set_get m3 (i' + 1) (j' + 1)
      (R s t match_ mismatch gap (i' + 1) (j' + 1))
      (by rw [E3.rows_eq, E2.rows_eq, E1.rows_eq]; exact hr)
      (by rw [E3.cols_eq, E2.cols_eq, E1.cols_eq]; exact hc)
    rw [hv] at s1 s2
    refine ⟨memo, m2, m1, m1, m3, m2, l1, l3, l2, m4,
      ((Event.call (depth + 1) (i' + 1) (j' + 1) i' j' :: l1) ++ (Event.call (depth + 1) (i' + 1) (j' + 1) (i' + 1) j' :: l2) ++ (Event.call (depth + 1) (i' + 1) (j' + 1) i' (j' + 1) :: l3))
        ++ [Event.write (i' + 1) (j' + 1) (R s t match_ mismatch gap (i' + 1) (j' + 1))],
      ?_, p1, p3, p2, X0, X2, X1, ?_, ?_, ?_, ?_⟩
    · rw [optLog.eq_def]
      simp [hget, hcur, hs, ht, p1, p2, p3, s1, s2, hv]
    · rw [E2.frame _ _ (by omega), E1.frame _ _ (by omega)]
    · exact E1.frame _ _ (by omega)
    · intro a b
      rw [writesAt_assemble]
      omega
    · intro a b w hmem
      rcases mem_assemble hmem with h | h | h | h
      · exact Or.inl h
      · exact Or.inr (Or.inr (Or.inl h))
      · exact Or.inr (Or.inl h)
      · exact Or.inr (Or.inr (Or.inr h))
  · obtain ⟨m1, l1, p1, E1, F1, _⟩ := optLog_inv_call ArgOrder.udl s t match_ mismatch gap i' (j' + 1)
      memo (depth + 1) (by omega) (by omega) (by omega) (by omega) hinv
    obtain ⟨m2, l2, p2, E2, F2, _⟩ := optLog_inv_call ArgOrder.udl s t match_ mismatch gap i' j'
      m1 (depth + 1) (by omega) (by omega) (by rw [E1.rows_eq]; omega) (by rw [E1.cols_eq]; omega) E1.inv
    obtain ⟨m3, l3, p3, E3, F3, _⟩ := optLog_inv_call ArgOrder.udl s t match_ mismatch gap (i' + 1) j'
      m2 (depth + 1) (by omega) (by omega) (by rw [E2.rows_eq, E1.rows_eq]; omega)
      (by rw [E2.cols_eq, E1.cols_eq]; omega) E2.inv
    have X0 : Ext (R s t match_ mismatch gap) memo memo (i' + 1) (j' + 1) := Ext.refl hinv _ _
    have X1 : Ext (R s t match_ mismatch gap) memo m1 (i' + 1) (j' + 1) :=
      Ext.trans X0 E1 le_rfl le_rfl (by omega) (by omega)
    have X2 : Ext (R s t match_ mismatch gap) memo m2 (i' + 1) (j' + 1) :=
      Ext.trans X1 E2 le_rfl le_rfl (by omega) (by omega)
    obtain ⟨m4, s1, s2, _, _, _⟩ := Matrix.set_get m3 (i' + 1) (j' + 1)
      (R s t match_ mismatch gap (i' + 1) (j' + 1))
      (by rw [E3.rows_eq, E2.rows_eq, E1.rows_eq]; exact hr)
      (by rw [E3.cols_eq, E2.cols_eq, E1.cols_eq]; exact hc)
    rw [hv] at s1 s2
    refine ⟨m1, memo, m2, m2, m1, m3, l2, l1, l3, m4,
      ((Event.call (depth + 1) (i' + 1) (j' + 1) i' (j' + 1) :: l1) ++ (Event.call (depth + 1) (i' + 1) (j' + 1) i' j' :: l2) ++ (Event.call (depth + 1) (i' + 1) (j' + 1) (i' + 1) j' :: l3))
        ++ [Event.write (i' + 1) (j' + 1) (R s t match_ mismatch gap (i' + 1) (j' + 1))],
      ?_, p2, p1, p3, X1, X0, X2, ?_, ?_, ?_, ?_⟩
    · rw [optLog.eq_def]
      simp [hget, hcur, hs, ht, p1, p2, p3, s1, s2, hv]
    · rfl
    · rw [E2.frame _ _ (by omega), E1.frame _ _ (by omega)]
    · intro a b
      rw [writesAt_assemble]
      omega
    · intro a b w hmem
      rcases mem_assemble hmem with h | h | h | h
      · exact Or.inr (Or.inl h)
      · exact Or.inl h
      · exact Or.inr (Or.inr (Or.inl h))
      · exact Or.inr (Or.inr (Or.inr h))
  · obtain ⟨m1, l1, p1, E1, F1, _⟩ := optLog_inv_call ArgOrder.uld s t match_ mismatch gap i' (j' + 1)
      memo (depth + 1) (by omega) (by omega) (by omega) (by omega) hinv
    obtain ⟨m2, l2, p2, E2, F2, _⟩ := optLog_inv_call ArgOrder.uld s t match_ mismatch gap (i' + 1) j'
      m1 (depth + 1) (by omega) (by omega) (by rw [E1.rows_eq]; omega) (by rw [E1.cols_eq]; omega) E1.inv
    obtain ⟨m3, l3, p3, E3, F3, _⟩ := optLog_inv_call ArgOrder.uld s t match_ mismatch gap i' j'
      m2 (depth + 1) (by omega) (by omega) (by rw [E2.rows_eq, E1.rows_eq]; omega)
      (by rw [E2.cols_eq, E1.cols_eq]; omega) E2.inv
    have X0 : Ext (R s t match_ mismatch gap) memo memo (i' + 1) (j' + 1) := Ext.refl hinv _ _
    have X1 : Ext (R s t match_ mismatch gap) memo m1 (i' + 1) (j' + 1) :=
      Ext.trans X0 E1 le_rfl le_rfl (by omega) (by omega)
    have X2 : Ext (R s t match_ mismatch gap) memo m2 (i' + 1) (j' + 1) :=
      Ext.trans X1 E2 le_rfl le_rfl (by omega) (by omega)
    obtain ⟨m4, s1, s2, _, _, _⟩ := Matrix.set_get m3 (i' + 1) (j' + 1)
      (R s t match_ mismatch gap (i' + 1) (j' + 1))
      (by rw [E3.rows_eq, E2.rows_eq, E1.rows_eq]; exact hr)
      (by rw [E3.cols_eq, E2.cols_eq, E1.cols_eq]; exact hc)
    rw [hv] at s1 s2
    refine ⟨m2, memo, m1, m3, m1, m2, l3, l1, l2, m4,
      ((Event.call (depth + 1) (i' + 1) (j' + 1) i' (j' + 1) :: l1) ++ (Event.call (depth + 1) (i' + 1) (j' + 1) (i' + 1) j' :: l2) ++ (Event.call (depth + 1) (i' + 1) (j' + 1) i' j' :: l3))
        ++ [Event.write (i' + 1) (j' + 1) (R s t match_ mismatch gap (i' + 1) (j' + 1))],
      ?_, p3, p1, p2, X2, X0, X1, ?_, ?_, ?_, ?_⟩
    · rw [optLog.eq_def]
      simp [hget, hcur, hs, ht, p1, p2, p3, s1, s2, hv]
    · rfl
    · exact E1.frame _ _ (by omega)
    · intro a b
      rw [writesAt_assemble]
      omega
    · intro a b w hmem
      rcases mem_assemble hmem with h | h | h | h
      · exact Or.inr (Or.inl h)
      · exact Or.inr (Or.inr (Or.inl h))
      · exact Or.inl h
      · exact Or.inr (Or.inr (Or.inr h))
  · obtain ⟨m1, l1, p1, E1, F1, _⟩ := optLog_inv_call ArgOrder.ldu s t match_ mismatch gap (i' + 1) j'
      memo (depth + 1) (by omega) (by omega) (by omega) (by omega) hinv
    obtain ⟨m2, l2, p2, E2, F2, _⟩ := optLog_inv_call ArgOrder.ldu s t match_ mismatch gap i' j'
      m1 (depth + 1) (by omega) (by omega) (by rw [E1.rows_eq]; omega) (by rw [E1.cols_eq]; omega) E1.inv
    obtain ⟨m3, l3, p3, E3, F3, _⟩ := optLog_inv_call ArgOrder.ldu s t match_ mismatch gap i' (j' + 1)
      m2 (depth + 1) (by omega) (by omega) (by rw [E2.rows_eq, E1.rows_eq]; omega)
      (by rw [E2.cols_eq, E1.cols_eq]; omega) E2.inv
    have X0 : Ext (R s t match_ mismatch gap) memo memo (i' + 1) (j' + 1) := Ext.refl hinv _ _
    have X1 : Ext (R s t match_ mismatch gap) memo m1 (i' + 1) (j' + 1) :=
      Ext.trans X0 E1 le_rfl le_rfl (by omega) (by omega)
    have X2 : Ext (R s t match_ mismatch gap) memo m2 (i' + 1) (j' + 1) :=
      Ext.trans X1 E2 le_rfl le_rfl (by omega) (by omega)
    obtain ⟨m4, s1, s2, _, _, _⟩ := Matrix.set_get m3 (i' + 1) (j' + 1)
      (R s t match_ mismatch gap (i' + 1) (j' + 1))
      (by rw [E3.rows_eq, E2.rows_eq, E1.rows_eq]; exact hr)
      (by rw [E3.cols_eq, E2.cols_eq, E1.cols_eq]; exact hc)
    rw [hv] at s1 s2
    refine ⟨m1, m2, memo, m2, m3, m1, l2, l3, l1, m4,
      ((Event.call (depth + 1) (i' + 1) (j' + 1) (i' + 1) j' :: l1) ++ (Event.call (depth + 1) (i' + 1) (j' + 1) i' j' :: l2) ++ (Event.call (depth + 1) (i' + 1) (j' + 1) i' (j' + 1) :: l3))
        ++ [Event.write (i' + 1) (j' + 1) (R s t match_ mismatch gap (i' + 1) (j' + 1))],
      ?_, p2, p3, p1, X1, X2, X0, ?_, ?_, ?_, ?_⟩
    · rw [optLog.eq_def]
      simp [hget, hcur, hs, ht, p1, p2, p3, s1, s2, hv]
    · rw [E2.frame _ _ (by omega), E1.frame _ _ (by omega)]
    · rfl
    · intro a b
      rw [writesAt_assemble]
      omega
    · intro a b w hmem
      rcases mem_assemble hmem with h | h | h | h
      · exact Or.inr (Or.inr (Or.inl h))
      · exact Or.inl h
      · exact Or.inr (Or.inl h)
      · exact Or.inr (Or.inr (Or.inr h))
  · obtain ⟨m1, l1, p1, E1, F1, _⟩ := optLog_inv_call ArgOrder.lud s t match_ mismatch gap (i' + 1) j'
      memo (depth + 1) (by omega) (by omega) (by omega) (by omega) hinv
    obtain ⟨m2, l2, p2, E2, F2, _⟩ := optLog_inv_call ArgOrder.lud s t match_ mismatch gap i' (j' + 1)
      m1 (depth + 1) (by omega) (by omega) (by rw [E1.rows_eq]; omega) (by rw [E1.cols_eq]; omega) E1.inv
    obtain ⟨m3, l3, p3, E3, F3, _⟩ := optLog_inv_call ArgOrder.lud s t match_ mismatch gap i' j'
      m2 (depth + 1) (by omega) (by omega) (by rw [E2.rows_eq, E1.rows_eq]; omega)
      (by rw [E2.cols_eq, E1.cols_eq]; omega) E2.inv
    have X0 : Ext (R s t match_ mismatch gap) memo memo (i' + 1) (j' + 1) := Ext.refl hinv _ _
    have X1 : Ext (R s t match_ mismatch gap) memo m1 (i' + 1) (j' + 1) :=
      Ext.trans X0 E1 le_rfl le_rfl (by omega) (by omega)
    have X2 : Ext (R s t match_ mismatch gap) memo m2 (i' + 1) (j' + 1) :=
      Ext.trans X1 E2 le_rfl le_rfl (by omega) (by omega)
    obtain ⟨m4, s1, s2, _, _, _⟩ := Matrix.set_get m3 (i' + 1) (j' + 1)
      (R s t match_ mismatch gap (i' + 1) (j' + 1))
      (by rw [E3.rows_eq, E2.rows_eq, E1.rows_eq]; exact hr)
      (by rw [E3.cols_eq, E2.cols_eq, E1.cols_eq]; exact hc)
    rw [hv] at s1 s2
    refine ⟨m2, m1, memo, m3, m2, m1, l3, l2, l1, m4,
      ((Event.call (depth + 1) (i' + 1) (j' + 1) (i' + 1) j' :: l1) ++ (Event.call (depth + 1) (i' + 1) (j' + 1) i' (j' + 1) :: l2) ++ (Event.call (depth + 1) (i' + 1) (j' + 1) i' j' :: l3))
        ++ [Event.write (i' + 1) (j' + 1) (R s t match_ mismatch gap (i' + 1) (j' + 1))],
      ?_, p3, p2, p1, X2, X1, X0, ?_, ?_, ?_, ?_⟩
    · rw [optLog.eq_def]
      simp [hget, hcur, hs, ht, p1, p2, p3, s1, s2, hv]
    · exact E1.frame _ _ (by omega)
    · rfl
    · intro a b
      rw [writesAt_assemble]
      omega
    · intro a b w hmem
      rcases mem_assemble hmem with h | h | h | h
      · exact Or.inr (Or.inr (Or.inl h))
      · exact Or.inr (Or.inl h)
      · exact Or.inl h
      · exact Or.inr (Or.inr (Or.inr h))

theorem optLog_miss_row0 (ord : ArgOrder) (s t : List Char) (match_ mismatch gap : Int)
    (j' : Nat) (memo : Matrix) (depth : Nat)
    (hi : 0 < s.length) (hj : j' + 1 < t.length)
    (hr : 0 < memo.rows) (hc : j' + 1 < memo.cols)
    (hcur : memo.cells 0 (j' + 1) = INF)
    (hinv : Inv (R s t match_ mismatch gap) memo) :
    ∃ m1 l1 m4 log,
      optLog ord s 0 t (j' + 1) memo match_ mismatch gap depth
        = some (R s t match_ mismatch gap 0 (j' + 1), m4, log) ∧
      optLog ord s 0 t j' memo match_ mismatch gap (depth + 1)
        = some (R s t match_ mismatch gap 0 j', m1, l1) ∧
      (∀ a b w, Event.write a b w ∈ log → Event.write a b w ∈ l1 ∨
        (a = 0 ∧ b = j' + 1 ∧ w = R s t match_ mismatch gap 0 (j' + 1))) := by
  have hget : memo.get 0 (j' + 1) = some (memo.cells 0 (j' + 1)) := by
    simp [Matrix.get, hr, hc]
  have hs : s[0]? = some s[0] := List.getElem?_eq_getElem hi
  have ht : t[j' + 1]? = some t[j' + 1] := List.getElem?_eq_getElem hj
  obtain ⟨m1, l1, p1, E1, _, _⟩ := optLog_inv_call ord s t match_ mismatch gap 0 j'
    memo (depth + 1) hi (by omega) hr (by omega) hinv
  obtain ⟨m4, s1, s2, _, _, _⟩ := Matrix.set_get m1 0 (j' + 1)
    (R s t match_ mismatch gap 0 (j' + 1))
    (by rw [E1.rows_eq]; exact hr) (by rw [E1.cols_eq]; exact hc)
  rw [R_zero_succ] at s1 s2
  refine ⟨m1, l1, m4,
    Event.call (depth + 1) 0 (j' + 1) 0 j' :: l1
      ++ [Event.write 0 (j' + 1) (R s t match_ mismatch gap 0 (j' + 1))], ?_, p1, ?_⟩
  · rw [optLog.eq_def]
    simp [hget, hcur, hs, ht, p1, s1, s2, R_zero_succ]
  · intro a b w hmem
    simp only [List.cons_append, List.mem_cons, List.mem_append, List.mem_singleton,
      Event.write.injEq, reduceCtorEq, false_or, List.not_mem_nil, or_false] at hmem
    exact hmem

theorem optLog_miss_col0 (ord : ArgOrder) (s t : List Char) (match_ mismatch gap : Int)
    (i' : Nat) (memo : Matrix) (depth : Nat)
    (hi : i' + 1 < s.length) (hj : 0 < t.length)
    (hr : i' + 1 < memo.rows) (hc : 0 < memo.cols)
    (hcur : memo.cells (i' + 1) 0 = INF)
    (hinv : Inv (R s t match_ mismatch gap) memo) :
    ∃ m1 l1 m4 log,
      optLog ord s (i' + 1) t 0 memo match_ mismatch gap depth
        = some (R s t match_ mismatch gap (i' + 1) 0, m4, log) ∧
      optLog ord s i' t 0 memo match_ mismatch gap (depth + 1)
        = some (R s t match_ mismatch gap i' 0, m1, l1) ∧
      (∀ a b w, Event.write a b w ∈ log → Event.write a b w ∈ l1 ∨
        (a = i' + 1 ∧ b = 0 ∧ w = R s t match_ mismatch gap (i' + 1) 0)) := by
  have hget : memo.get (i' + 1) 0 = some (memo.cells (i' + 1) 0) := by
    simp [Matrix.get, hr, hc]
  have hs : s[i' + 1]? = some s[i' + 1] := List.getElem?_eq_getElem hi
  have ht : t[0]? = some t[0] := List.getElem?_eq_getElem hj
  obtain ⟨m1, l1, p1, E1, _, _⟩ := optLog_inv_call ord s t match_ mismatch gap i' 0
    memo (depth + 1) (by omega) hj (by omega) hc hinv
  obtain ⟨m4, s1, s2, _, _, _⟩ := Matrix.set_get m1 (i' + 1) 0
    (R s t match_ mismatch gap (i' + 1) 0)
    (by rw [E1.rows_eq]; exact hr) (by rw [E1.cols_eq]; exact hc)
  rw [R_succ_zero] at s1 s2
  refine ⟨m1, l1, m4,
    Event.call (depth + 1) (i' + 1) 0 i' 0 :: l1
      ++ [Event.write (i' + 1) 0 (R s t match_ mismatch gap (i' + 1) 0)], ?_, p1, ?_⟩
  · rw [optLog.eq_def]
    simp [hget, hcur, hs, ht, p1, s1, s2, R_succ_zero]
  · intro a b w hmem
    simp only [List.cons_append, List.mem_cons, List.mem_append, List.mem_singleton,
      Event.write.injEq, reduceCtorEq, false_or, List.not_mem_nil, or_false] at hmem
    exact hmem

theorem optLog_miss_origin (ord : ArgOrder) (s t : List Char) (match_ mismatch gap : Int)
    (memo : Matrix) (depth : Nat) (hi : 0 < s.length) (hj : 0 < t.length)
    (hr : 0 < memo.rows) (hc : 0 < memo.cols) (hcur : memo.cells 0 0 = INF) :
    ∃ m4, optLog ord s 0 t 0 memo match_ mismatch gap depth
      = some (0, m4, [Event.write 0 0 0]) := by
  have hget : memo.get 0 0 = some (memo.cells 0 0) := by simp [Matrix.get, hr, hc]
  have hs : s[0]? = some s[0] := List.getElem?_eq_getElem hi
  have ht : t[0]? = some t[0] := List.getElem?_eq_getElem hj
  obtain ⟨m4, s1, s2, _, _, _⟩ := Matrix.set_get memo 0 0 0 hr hc
  refine ⟨m4, ?_⟩
  rw [optLog.eq_def]
  simp [hget, hcur, hs, ht, s1, s2]

theorem optLog_writes_R (ord : ArgOrder) (s t : List Char) (match_ mismatch gap : Int) :
    ∀ (n i j : Nat) (memo : Matrix) (depth : Nat), i + j = n → i < s.length → j < t.length →
      i < memo.rows → j < memo.cols → Inv (R s t match_ mismatch gap) memo →
      ∀ v memo' log, optLog ord s i t j memo match_ mismatch gap depth = some (v, memo', log) →
      ∀ a b w, Event.write a b w ∈ log → w = R s t match_ mismatch gap a b := by
  intro n
  induction n using Nat.strong_induction_on with
  | _ n ih =>
    intro i j memo depth hn hi hj hr hc hinv v memo' log hlog a b w hmem
    subst hn
    by_cases hcur : memo.cells i j = INF
    · rcases i with _ | i'
      · rcases j with _ | j'
        · obtain ⟨m4, e⟩ := optLog_miss_origin ord s t match_ mismatch gap memo depth
            hi hj hr hc hcur
          rw [e] at hlog
          simp only [Option.some.injEq, Prod.mk.injEq] at hlog
          obtain ⟨_, _, rfl⟩ := hlog
          simp only [List.mem_singleton, Event.write.injEq] at hmem
          obtain ⟨rfl, rfl, rfl⟩ := hmem
          rw [R_zero_zero]
        · obtain ⟨m1, l1, m4, log', e, p1, hw⟩ :=
            optLog_miss_row0 ord s t match_ mismatch gap j' memo depth hi hj hr hc hcur hinv
          rw [e] at hlog
          simp only [Option.some.injEq, Prod.mk.injEq] at hlog
          obtain ⟨_, _, rfl⟩ := hlog
          rcases hw a b w hmem with h | ⟨rfl, rfl, rfl⟩
          · exact ih (0 + j') (by omega) 0 j' memo (depth + 1) rfl hi (by omega) hr (by omega)
              hinv _ _ _ p1 a b w h
          · rfl
      · rcases j with _ | j'
        · obtain ⟨m1, l1, m4, log', e, p1, hw⟩ :=
            optLog_miss_col0 ord s t match_ mismatch gap i' memo depth hi hj hr hc hcur hinv
          rw [e] at hlog
          simp only [Option.some.injEq, Prod.mk.injEq] at hlog
          obtain ⟨_, _, rfl⟩ := hlog
          rcases hw a b w hmem with h | ⟨rfl, rfl, rfl⟩
          · exact ih (i' + 0) (by omega) i' 0 memo (depth + 1) rfl (by omega) hj (by omega) hc
              hinv _ _ _ p1 a b w h
          · rfl
        · obtain ⟨md, mu, ml, md', mu', ml', ld, lu, ll, m4, log', e, pd, pu, pl, Xd, Xu, Xl,
              _, _, _, hw⟩ :=
            optLog_miss_inv ord s t match_ mismatch gap i' j' memo depth hi hj hr hc hcur hinv
          rw [e] at hlog
          simp only [Option.some.injEq, Prod.mk.injEq] at hlog
          obtain ⟨_, _, rfl⟩ := hlog
          rcases hw a b w hmem with h | h | h | ⟨rfl, rfl, rfl⟩
          · exact ih (i' + j') (by omega) i' j' md (depth + 1) rfl (by omega) (by omega)
              (by rw [Xd.rows_eq]; omega) (by rw [Xd.cols_eq]; omega) Xd.inv _ _ _ pd a b w h
          · exact ih (i' + (j' + 1)) (by omega) i' (j' + 1) mu (depth + 1) rfl (by omega)
              (by omega) (by rw [Xu.rows_eq]; omega) (by rw [Xu.cols_eq]; omega) Xu.inv
              _ _ _ pu a b w h
          · exact ih (i' + 1 + j') (by omega) (i' + 1) j' ml (depth + 1) rfl (by omega)
              (by omega) (by rw [Xl.rows_eq]; omega) (by rw [Xl.cols_eq]; omega) Xl.inv
              _ _ _ pl a b w h
          · rfl
    · obtain ⟨m1, l1, e, _, _, _, _, hh⟩ :=
        optLog_inv_call ord s t match_ mismatch gap i j memo depth hi hj hr hc hinv
      rw [e] at hlog
      simp only [Option.some.injEq, Prod.mk.injEq] at hlog
      obtain ⟨_, _, rfl⟩ := hlog
      rw [hh hcur] at hmem
      simp at hmem

theorem optLog_miss_own_write (ord : ArgOrder) (s t : List Char) (match_ mismatch gap : Int)
    (i j : Nat) (memo : Matrix) (depth : Nat) (hi : i < s.length) (hj : j < t.length)
    (hr : i < memo.rows) (hc : j < memo.cols) (hinv : Inv (R s t match_ mismatch gap) memo)
    (hcur : memo.cells i j = INF) (v : Int) (memo' : Matrix) (log : List Event)
    (hlog : optLog ord s i t j memo match_ mismatch gap depth = some (v, memo', log)) :
    0 < writesAt i j log := by
  obtain ⟨m1, l1, e, _, _, _, hw, _⟩ :=
    optLog_inv_call ord s t match_ mismatch gap i j memo depth hi hj hr hc hinv
  rw [e] at hlog
  simp only [Option.some.injEq, Prod.mk.injEq] at hlog
  obtain ⟨_, _, rfl⟩ := hlog
  exact writesAt_pos_of_mem (hw hcur)

theorem collision_rewrites (ord : ArgOrder) :
    ∃ v memo' log,
      optLog ord [' ', 'A', 'B'] 2 [' ', 'A', 'C'] 2 (Matrix.fill 4 4 INF) 2147483647 (-1) (-1) 1
        = some (v, memo', log) ∧
      2 ≤ writesAt 1 1 log := by
  have hinv : Inv (R [' ', 'A', 'B'] [' ', 'A', 'C'] 2147483647 (-1) (-1)) (Matrix.fill 4 4 INF) :=
    (fill_sentinel 4 4).inv _
  have hR : R [' ', 'A', 'B'] [' ', 'A', 'C'] 2147483647 (-1) (-1) 1 1 = INF := by
    simp [R, max3, INF]
  obtain ⟨md, mu, ml, md', mu', ml', ld, lu, ll, m4, log, e, pd, pu, pl, Xd, Xu, Xl, hu, _,
      hcount, _⟩ :=
    optLog_miss_inv ord [' ', 'A', 'B'] [' ', 'A', 'C'] 2147483647 (-1) (-1) 1 1
      (Matrix.fill 4 4 INF) 1 (by decide) (by decide) (by decide) (by decide) rfl hinv
  have hdr : md.rows = 4 := Xd.rows_eq
  have hdc : md.cols = 4 := Xd.cols_eq
  have hur : mu.rows = 4 := Xu.rows_eq
  have huc : mu.cols = 4 := Xu.cols_eq
  have hd11 : md.cells 1 1 = INF := by
    rcases Xd.step 1 1 with h | h
    · rw [h]; rfl
    · rw [h, hR]
  have hu11 : mu.cells 1 1 = INF := by
    rcases Xu.step 1 1 with h | h
    · rw [h]; rfl
    · rw [h, hR]
  have hu12 : mu.cells 1 2 = INF := by rw [hu]; rfl
  have w1 : 0 < writesAt 1 1 ld :=
    optLog_miss_own_write ord _ _ _ _ _ 1 1 md 2 (by decide) (by decide) (by omega) (by omega)
      Xd.inv hd11 _ _ _ pd
  obtain ⟨md2, mu2, ml2, md2', mu2', ml2', ld2, lu2, ll2, m5, log2, e2, _, _, pl2, _, _, Xl2,
      _, _, hcount2, _⟩ :=
    optLog_miss_inv ord [' ', 'A', 'B'] [' ', 'A', 'C'] 2147483647 (-1) (-1) 0 1
      mu 2 (by decide) (by decide) (by omega) (by omega) hu12 Xu.inv
  rw [e2] at pu
  simp only [Option.some.injEq, Prod.mk.injEq, true_and] at pu
  obtain ⟨_, rfl⟩ := pu
  have hl11 : ml2.cells 1 1 = INF := by
    rcases Xl2.step 1 1 with h | h
    · rw [h, hu11]
    · rw [h, hR]
  have w2 : 0 < writesAt 1 1 ll2 :=
    optLog_miss_own_write ord _ _ _ _ _ 1 1 ml2 3 (by decide) (by decide)
      (by rw [Xl2.rows_eq]; omega) (by rw [Xl2.cols_eq]; omega) Xl2.inv hl11 _ _ _ pl2
  refine ⟨_, m4, log, e, ?_⟩
  have h1 := hcount 1 1
  have h2 := hcount2 1 1
  simp only [show ¬ ((1 : Nat) = 1 + 1 ∧ (1 : Nat) = 1 + 1) by omega,
    show ¬ ((1 : Nat) = 0 + 1 ∧ (1 : Nat) = 1 + 1) by omega, if_false] at h1 h2
  omega

/-! ## The program with machine arithmetic -/

theorem wrap32_of_inInt (x : Int) (h : InInt x) : wrap32 x = x := by
  unfold InInt INT_MIN INT_MAX at h
  unfold wrap32
  omega

theorem add32_of_inInt (a b : Int) (h : InInt (a + b)) : add32 a b = a + b :=
  wrap32_of_inInt _ h

theorem inInt_wrap32 (x : Int) : InInt (wrap32 x) := by
  unfold InInt INT_MIN INT_MAX wrap32
  omega

theorem R32_zero_zero (s t : List Char) (match_ mismatch gap : Int) :
    R32 s t match_ mismatch gap 0 0 = 0 := by
  rw [R32]

theorem R32_zero_succ (s t : List Char) (match_ mismatch gap : Int) (j : Nat) :
    R32 s t match_ mismatch gap 0 (j + 1) = add32 (R32 s t match_ mismatch gap 0 j) gap := by
  rw [R32]

theorem R32_succ_zero (s t : List Char) (match_ mismatch gap : Int) (i : Nat) :
    R32 s t match_ mismatch gap (i + 1) 0 = add32 (R32 s t match_ mismatch gap i 0) gap := by
  rw [R32]

theorem R32_succ_succ (s t : List Char) (match_ mismatch gap : Int) (i j : Nat) :
    R32 s t match_ mismatch gap (i + 1) (j + 1)
      = max3 (add32 (R32 s t match_ mismatch gap i j)
                (if s[i + 1]? = t[j + 1]? then match_ else mismatch))
          (add32 (R32 s t match_ mismatch gap i (j + 1)) gap)
          (add32 (R32 s t match_ mismatch gap (i + 1) j) gap) := by
  rw [R32]

theorem Matrix.set_cells {m m4 : Matrix} {i j : Nat} {v : Int} (h : m.set i j v = some m4) :
    m4.rows = m.rows ∧ m4.cols = m.cols ∧
      ∀ a b, m4.cells a b = if a = i ∧ b = j then v else m.cells a b := by
  unfold Matrix.set at h
  split at h
  · simp only [Option.some.injEq] at h
    subst h
    exact ⟨rfl, rfl, fun _ _ => rfl⟩
  · simp at h

theorem mem_assemble1 {a b d i j x1 y1 : Nat} {w v : Int} {l1 : List Event}
    (h : Event.write a b w ∈ (Event.call d i j x1 y1 :: l1) ++ [Event.write i j v]) :
    Event.write a b w ∈ l1 ∨ (a = i ∧ b = j ∧ w = v) := by
  simp only [List.mem_append, List.mem_cons, List.mem_singleton, Event.write.injEq,
    reduceCtorEq, false_or, List.not_mem_nil, or_false] at h
  exact h

theorem opt32_spec (ord : ArgOrder) (s t : List Char) (match_ mismatch gap : Int) :
    ∀ (n i j : Nat) (memo : Matrix) (depth : Nat), i + j = n → i < s.length → j < t.length →
      i < memo.rows → j < memo.cols → Inv (R32 s t match_ mismatch gap) memo →
      ∃ memo' log, opt32 ord s i t j memo match_ mismatch gap depth
          = some (R32 s t match_ mismatch gap i j, memo', log) ∧
        Ext (R32 s t match_ mismatch gap) memo memo' i j ∧
        Filled (R32 s t match_ mismatch gap) memo' i j ∧
        Run false memo memo' log i j depth ∧
        (∀ a b w, Event.write a b w ∈ log → w = R32 s t match_ mismatch gap a b) := by
  intro n
  induction n using Nat.strong_induction_on with
  | _ n ih =>
    intro i j memo depth hn hi hj hr hc hinv
    have hget : memo.get i j = some (memo.cells i j) := by simp [Matrix.get, hr, hc]
    rw [opt32.eq_def]
    simp only [hget, Option.bind_eq_bind, Option.some_bind]
    by_cases hcur : memo.cells i j = INF
    · simp only [hcur, if_true]
      have hs : s[i]? = some s[i] := List.getElem?_eq_getElem hi
      have ht : t[j]? = some t[j] := List.getElem?_eq_getElem hj
      simp only [hs, ht, Option.some_bind]
      subst hn
      have IH : ∀ (a b : Nat) (m : Matrix), a + b < i + j → a ≤ i → b ≤ j →
          m.rows = memo.rows → m.cols = memo.cols → Inv (R32 s t match_ mismatch gap) m →
          ∃ m' log, opt32 ord s a t b m match_ mismatch gap (depth + 1)
              = some (R32 s t match_ mismatch gap a b, m', log) ∧
            Ext (R32 s t match_ mismatch gap) m m' a b ∧
            Filled (R32 s t match_ mismatch gap) m' a b ∧
            Run false m m' log a b (depth + 1) ∧
            (∀ x y w, Event.write x y w ∈ log → w = R32 s t match_ mismatch gap x y) :=
        fun a b m hlt ha hb hrw hcl hiv =>
          ih (a + b) hlt a b m (depth + 1) rfl (by omega) (by omega) (by omega) (by omega) hiv
      rcases Nat.eq_zero_or_pos i with hi0 | hi0
      · rcases Nat.eq_zero_or_pos j with hj0 | hj0
        · subst hi0; subst hj0
          obtain ⟨m4, q1, q2, q3, q4⟩ := set_post hr hc (Ext.refl hinv 0 0) le_rfl le_rfl
            (fun x y hx hy hne => by omega)
          obtain ⟨s3, s4, s5⟩ := Matrix.set_cells q1
          have hv : R32 s t match_ mismatch gap 0 0 = 0 := R32_zero_zero _ _ _ _ _
          rw [hv] at q1 q2
          refine ⟨m4, _, ?_, q3, q4,
            by simpa using (Run.nil true memo 0 0 depth).write hcur s3 s4 s5, ?_⟩
          · simp [q1, q2, hv]
          · intro a b w hmem
            simp only [List.mem_singleton, Event.write.injEq] at hmem
            obtain ⟨rfl, rfl, rfl⟩ := hmem
            rfl
        · subst hi0
          obtain ⟨j', rfl⟩ : ∃ j', j = j' + 1 := ⟨j - 1, by omega⟩
          obtain ⟨m1, l1, p1, e1, f1, r1, w1⟩ :=
            IH 0 j' memo (by omega) le_rfl (by omega) rfl rfl hinv
          obtain ⟨m4, q1, q2, q3, q4⟩ := set_post hr hc e1 le_rfl (Nat.le_succ j')
            (fun x y hx hy hne => f1 x y hx (by omega))
          obtain ⟨s3, s4, s5⟩ := Matrix.set_cells q1
          have R1 := (r1.lift (i := 0) (j := j' + 1) (by omega) (by omega) (by omega)).call
            0 j' (by omega) (by omega) (by omega)
          have hv := R32_zero_succ s t match_ mismatch gap j'
          rw [hv] at q1 q2
          refine ⟨m4, _, ?_, q3, q4, R1.write hcur s3 s4 s5, ?_⟩
          · simp [p1, q1, q2, hv]
          · intro a b w hmem
            rcases mem_assemble1 hmem with h | ⟨rfl, rfl, rfl⟩
            · exact w1 a b w h
            · rfl
      · rcases Nat.eq_zero_or_pos j with hj0 | hj0
        · subst hj0
          obtain ⟨i', rfl⟩ : ∃ i', i = i' + 1 := ⟨i - 1, by omega⟩
          obtain ⟨m1, l1, p1, e1, f1, r1, w1⟩ :=
            IH i' 0 memo (by omega) (by omega) le_rfl rfl rfl hinv
          obtain ⟨m4, q1, q2, q3, q4⟩ := set_post hr hc e1 (Nat.le_succ i') le_rfl
            (fun x y hx hy hne => f1 x y (by omega) hy)
          obtain ⟨s3, s4, s5⟩ := Matrix.set_cells q1
          have R1 := (r1.lift (i := i' + 1) (j := 0) (by omega) (by omega) (by omega)).call
            i' 0 (by omega) (by omega) (by omega)
          have hv := R32_succ_zero s t match_ mismatch gap i'
          rw [hv] at q1 q2
          refine ⟨m4, _, ?_, q3, q4, R1.write hcur s3 s4 s5, ?_⟩
          · simp [p1, q1, q2, hv]
          · intro a b w hmem
            rcases mem_assemble1 hmem with h | ⟨rfl, rfl, rfl⟩
            · exact w1 a b w h
            · rfl
        · obtain ⟨i', rfl⟩ : ∃ i', i = i' + 1 := ⟨i - 1, by omega⟩
          obtain ⟨j', rfl⟩ : ∃ j', j = j' + 1 := ⟨j - 1, by omega⟩
          have hv : R32 s t match_ mismatch gap (i' + 1) (j' + 1)
              = max3 (add32 (R32 s t match_ mismatch gap i' j')
                        (if s[i' + 1] = t[j' + 1] then match_ else mismatch))
                  (add32 (R32 s t match_ mismatch gap i' (j' + 1)) gap)
                  (add32 (R32 s t match_ mismatch gap (i' + 1) j') gap) := by
            rw [R32]; simp [hs, ht]
          have fin : ∀ m3 : Matrix, Ext (R32 s t match_ mismatch gap) memo m3 (i' + 1) (j' + 1) →
              Filled (R32 s t match_ mismatch gap) m3 i' (j' + 1) →
              Filled (R32 s t match_ mismatch gap) m3 (i' + 1) j' →
              ∃ m4, m3.set (i' + 1) (j' + 1) (R32 s t match_ mismatch gap (i' + 1) (j' + 1))
                  = some m4 ∧
                m4.get (i' + 1) (j' + 1) = some (R32 s t match_ mismatch gap (i' + 1) (j' + 1)) ∧
                Ext (R32 s t match_ mismatch gap) memo m4 (i' + 1) (j' + 1) ∧
                Filled (R32 s t match_ mismatch gap) m4 (i' + 1) (j' + 1) := by
            intro m3 e fu fl
            exact set_post hr hc e le_rfl le_rfl (fun x y hx hy hne => by
              by_cases hxi : x ≤ i'
              · exact fu x y hxi hy
              · exact fl x y hx (by omega))
          have hne1 : ¬ (i' + 1 = 0 ∧ j' + 1 = 0) := by omega
          have hne2 : ¬ (i' + 1 = 0 ∧ j' + 1 ≠ 0) := by omega
          have hne3 : ¬ (j' + 1 = 0 ∧ i' + 1 ≠ 0) := by omega
          have hne4 : ¬ (i' + 1 = 0 ∨ j' + 1 = 0) := by omega
          simp only [hne1, hne2, hne3, hne4, dite_false, Nat.add_sub_cancel]
          cases ord
          · obtain ⟨m1, l1, p1, e1, f1, r1, w1⟩ := IH i' j' memo (by omega) (by omega) (by omega) rfl rfl hinv
            obtain ⟨m2, l2, p2, e2, f2, r2, w2⟩ := IH i' (j' + 1) m1 (by omega) (by omega) le_rfl
              e1.rows_eq e1.cols_eq e1.inv
            obtain ⟨m3, l3, p3, e3, f3, r3, w3⟩ := IH (i' + 1) j' m2 (by omega) le_rfl (by omega)
              (e2.rows_eq.trans e1.rows_eq) (e2.cols_eq.trans e1.cols_eq) e2.inv
            obtain ⟨e, g1, g2, g3⟩ := chain3 (i := i' + 1) (j := j' + 1) e1 f1 e2 f2 e3 f3
              (by omega) (by omega) (by omega)
            obtain ⟨m4, q1, q2, q3, q4⟩ := fin m3 e g2 g3
            obtain ⟨s3, s4, s5⟩ := Matrix.set_cells q1
            have R1 := (r1.lift (i := i' + 1) (j := j' + 1) (by omega) (by omega) (by omega)).call
              i' j' (by omega) (by omega) (by omega)
            have R2 := (r2.lift (i := i' + 1) (j := j' + 1) (by omega) (by omega) (by omega)).call
              i' (j' + 1) (by omega) (by omega) (by omega)
            have R3 := (r3.lift (i := i' + 1) (j := j' + 1) (by omega) (by omega) (by omega)).call
              (i' + 1) j' (by omega) (by omega) (by omega)
            rw [hv] at q1 q2
            refine ⟨m4, _, ?_, q3, q4, ((R1.seq R2).seq R3).write hcur s3 s4 s5, ?_⟩
            · simp [p1, p2, p3, q1, q2, hv]
            · intro a b w hmem
              rcases mem_assemble hmem with h | h | h | h
              · exact w1 a b w h
              · exact w2 a b w h
              · exact w3 a b w h
              · obtain ⟨rfl, rfl, rfl⟩ := h; rfl
          · obtain ⟨m1, l1, p1, e1, f1, r1, w1⟩ := IH i' j' memo (by omega) (by omega) (by omega) rfl rfl hinv
            obtain ⟨m2, l2, p2, e2, f2, r2, w2⟩ := IH (i' + 1) j' m1 (by omega) le_rfl (by omega)
              e1.rows_eq e1.cols_eq e1.inv
            obtain ⟨m3, l3, p3, e3, f3, r3, w3⟩ := IH i' (j' + 1) m2 (by omega) (by omega) le_rfl
              (e2.rows_eq.trans e1.rows_eq) (e2.cols_eq.trans e1.cols_eq) e2.inv
            obtain ⟨e, g1, g2, g3⟩ := chain3 (i := i' + 1) (j := j' + 1) e1 f1 e2 f2 e3 f3
              (by omega) (by omega) (by omega)
            obtain ⟨m4, q1, q2, q3, q4⟩ := fin m3 e g3 g2
            obtain ⟨s3, s4, s5⟩ := Matrix.set_cells q1
            have R1 := (r1.lift (i := i' + 1) (j := j' + 1) (by omega) (by omega) (by omega)).call
              i' j' (by omega) (by omega) (by omega)
            have R2 := (r2.lift (i := i' + 1) (j := j' + 1) (by omega) (by omega) (by omega)).call
              (i' + 1) j' (by omega) (by omega) (by omega)
            have R3 := (r3.lift (i := i' + 1) (j := j' + 1) (by omega) (by omega) (by omega)).call
              i' (j' + 1) (by omega) (by omega) (by omega)
            rw [hv] at q1 q2
            refine ⟨m4, _, ?_, q3, q4, ((R1.seq R2).seq R3).write hcur s3 s4 s5, ?_⟩
            · simp [p1, p2, p3, q1, q2, hv]
            · intro a b w hmem
              rcases mem_assemble hmem with h | h | h | h
              · exact w1 a b w h
              · exact w2 a b w h
              · exact w3 a b w h
              · obtain ⟨rfl, rfl, rfl⟩ := h; rfl
          · obtain ⟨m1, l1, p1, e1, f1, r1, w1⟩ := IH i' (j' + 1) memo (by omega) (by omega) le_rfl rfl rfl hinv
            obtain ⟨m2, l2, p2, e2, f2, r2, w2⟩ := IH i' j' m1 (by omega) (by omega) (by omega)
              e1.rows_eq e1.cols_eq e1.inv
            obtain ⟨m3, l3, p3, e3, f3, r3, w3⟩ := IH (i' + 1) j' m2 (by omega) le_rfl (by omega)
              (e2.rows_eq.trans e1.rows_eq) (e2.cols_eq.trans e1.cols_eq) e2.inv
            obtain ⟨e, g1, g2, g3⟩ := chain3 (i := i' + 1) (j := j' + 1) e1 f1 e2 f2 e3 f3
              (by omega) (by omega) (by omega)
            obtain ⟨m4, q1, q2, q3, q4⟩ := fin m3 e g1 g3
            obtain ⟨s3, s4, s5⟩ := Matrix.set_cells q1
            have R1 := (r1.lift (i := i' + 1) (j := j' + 1) (by omega) (by omega) (by omega)).call
              i' (j' + 1) (by omega) (by omega) (by omega)
            have R2 := (r2.lift (i := i' + 1) (j := j' + 1) (by omega) (by omega) (by omega)).call
              i' j' (by omega) (by omega) (by omega)
            have R3 := (r3.lift (i := i' + 1) (j := j' + 1) (by omega) (by omega) (by omega)).call
              (i' + 1) j' (by omega) (by omega) (by omega)
            rw [hv] at q1 q2
            refine ⟨m4, _, ?_, q3, q4, ((R1.seq R2).seq R3).write hcur s3 s4 s5, ?_⟩
            · simp [p1, p2, p3, q1, q2, hv]
            · intro a b w hmem
              rcases mem_assemble hmem with h | h | h | h
              · exact w1 a b w h
              · exact w2 a b w h
              · exact w3 a b w h
              · obtain ⟨rfl, rfl, rfl⟩ := h; rfl
          · obtain ⟨m1, l1, p1, e1, f1, r1, w1⟩ := IH i' (j' + 1) memo (by omega) (by omega) le_rfl rfl rfl hinv
            obtain ⟨m2, l2, p2, e2, f2, r2, w2⟩ := IH (i' + 1) j' m1 (by omega) le_rfl (by omega)
              e1.rows_eq e1.cols_eq e1.inv
            obtain ⟨m3, l3, p3, e3, f3, r3, w3⟩ := IH i' j' m2 (by omega) (by omega) (by omega)
              (e2.rows_eq.trans e1.rows_eq) (e2.cols_eq.trans e1.cols_eq) e2.inv
            obtain ⟨e, g1, g2, g3⟩ := chain3 (i := i' + 1) (j := j' + 1) e1 f1 e2 f2 e3 f3
              (by omega) (by omega) (by omega)
            obtain ⟨m4, q1, q2, q3, q4⟩ := fin m3 e g1 g2
            obtain ⟨s3, s4, s5⟩ := Matrix.set_cells q1
            have R1 := (r1.lift (i := i' + 1) (j := j' + 1) (by omega) (by omega) (by omega)).call
              i' (j' + 1) (by omega) (by omega) (by omega)
            have R2 := (r2.lift (i := i' + 1) (j := j' + 1) (by omega) (by omega) (by omega)).call
              (i' + 1) j' (by omega) (by omega) (by omega)
            have R3 := (r3.lift (i := i' + 1) (j := j' + 1) (by omega) (by omega) (by omega)).call
              i' j' (by omega) (by omega) (by omega)
            rw [hv] at q1 q2
            refine ⟨m4, _, ?_, q3, q4, ((R1.seq R2).seq R3).write hcur s3 s4 s5, ?_⟩
            · simp [p1, p2, p3, q1, q2, hv]
            · intro a b w hmem
              rcases mem_assemble hmem with h | h | h | h
              · exact w1 a b w h
              · exact w2 a b w h
              · exact w3 a b w h
              · obtain ⟨rfl, rfl, rfl⟩ := h; rfl
          · obtain ⟨m1, l1, p1, e1, f1, r1, w1⟩ := IH (i' + 1) j' memo (by omega) le_rfl (by omega) rfl rfl hinv
            obtain ⟨m2, l2, p2, e2, f2, r2, w2⟩ := IH i' j' m1 (by omega) (by omega) (by omega)
              e1.rows_eq e1.cols_eq e1.inv
            obtain ⟨m3, l3, p3, e3, f3, r3, w3⟩ := IH i' (j' + 1) m2 (by omega) (by omega) le_rfl
              (e2.rows_eq.trans e1.rows_eq) (e2.cols_eq.trans e1.cols_eq) e2.inv
            obtain ⟨e, g1, g2, g3⟩ := chain3 (i := i' + 1) (j := j' + 1) e1 f1 e2 f2 e3 f3
              (by omega) (by omega) (by omega)
            obtain ⟨m4, q1, q2, q3, q4⟩ := fin m3 e g3 g1
            obtain ⟨s3, s4, s5⟩ := Matrix.set_cells q1
            have R1 := (r1.lift (i := i' + 1) (j := j' + 1) (by omega) (by omega) (by omega)).call
              (i' + 1) j' (by omega) (by omega) (by omega)
            have R2 := (r2.lift (i := i' + 1) (j := j' + 1) (by omega) (by omega) (by omega)).call
              i' j' (by omega) (by omega) (by omega)
            have R3 := (r3.lift (i := i' + 1) (j := j' + 1) (by omega) (by omega) (by omega)).call
              i' (j' + 1) (by omega) (by omega) (by omega)
            rw [hv] at q1 q2
            refine ⟨m4, _, ?_, q3, q4, ((R1.seq R2).seq R3).write hcur s3 s4 s5, ?_⟩
            · simp [p1, p2, p3, q1, q2, hv]
            · intro a b w hmem
              rcases mem_assemble hmem with h | h | h | h
              · exact w1 a b w h
              · exact w2 a b w h
              · exact w3 a b w h
              · obtain ⟨rfl, rfl, rfl⟩ := h; rfl
          · obtain ⟨m1, l1, p1, e1, f1, r1, w1⟩ := IH (i' + 1) j' memo (by omega) le_rfl (by omega) rfl rfl hinv
            obtain ⟨m2, l2, p2, e2, f2, r2, w2⟩ := IH i' (j' + 1) m1 (by omega) (by omega) le_rfl
              e1.rows_eq e1.cols_eq e1.inv
            obtain ⟨m3, l3, p3, e3, f3, r3, w3⟩ := IH i' j' m2 (by omega) (by omega) (by omega)
              (e2.rows_eq.trans e1.rows_eq) (e2.cols_eq.trans e1.cols_eq) e2.inv
            obtain ⟨e, g1, g2, g3⟩ := chain3 (i := i' + 1) (j := j' + 1) e1 f1 e2 f2 e3 f3
              (by omega) (by omega) (by omega)
            obtain ⟨m4, q1, q2, q3, q4⟩ := fin m3 e g2 g1
            obtain ⟨s3, s4, s5⟩ := Matrix.set_cells q1
            have R1 := (r1.lift (i := i' + 1) (j := j' + 1) (by omega) (by omega) (by omega)).call
              (i' + 1) j' (by omega) (by omega) (by omega)
            have R2 := (r2.lift (i := i' + 1) (j := j' + 1) (by omega) (by omega) (by omega)).call
              i' (j' + 1) (by omega) (by omega) (by omega)
            have R3 := (r3.lift (i := i' + 1) (j := j' + 1) (by omega) (by omega) (by omega)).call
              i' j' (by omega) (by omega) (by omega)
            rw [hv] at q1 q2
            refine ⟨m4, _, ?_, q3, q4, ((R1.seq R2).seq R3).write hcur s3 s4 s5, ?_⟩
            · simp [p1, p2, p3, q1, q2, hv]
            · intro a b w hmem
              rcases mem_assemble hmem with h | h | h | h
              · exact w1 a b w h
              · exact w2 a b w h
              · exact w3 a b w h
              · obtain ⟨rfl, rfl, rfl⟩ := h; rfl
    · simp only [hcur, if_false]
      have hF := hinv i j hr hc hcur
      refine ⟨memo, [], ?_, Ext.refl hinv i j, hF, Run.nil false memo i j depth,
        fun a b w h => by simp at h⟩
      have := hF i j (le_refl _) (le_refl _)
      simp [this]

theorem opt32_from_sentinel (ord : ArgOrder) (s t : List Char) (match_ mismatch gap : Int)
    (i j : Nat) (memo : Matrix) (depth : Nat) (hi : i < s.length) (hj : j < t.length)
    (hr : i < memo.rows) (hc : j < memo.cols) (hm : SentinelFilled memo) :
    ∃ memo' log, opt32 ord s i t j memo match_ mismatch gap depth
        = some (R32 s t match_ mismatch gap i j, memo', log) ∧
      memo'.rows = memo.rows ∧ memo'.cols = memo.cols ∧
      Filled (R32 s t match_ mismatch gap) memo' i j ∧
      (∀ a b, i < a ∨ j < b → memo'.cells a b = memo.cells a b) ∧
      Run false memo memo' log i j depth ∧
      (∀ a b w, Event.write a b w ∈ log → w = R32 s t match_ mismatch gap a b) := by
  obtain ⟨memo', log, e, hext, hF, hrun, hw⟩ :=
    opt32_spec ord s t match_ mismatch gap (i + j) i j memo depth rfl hi hj hr hc (hm.inv _)
  exact ⟨memo', log, e, hext.rows_eq, hext.cols_eq, hF, hext.frame, hrun, hw⟩

theorem R32_eq_R (s t : List Char) (match_ mismatch gap : Int) (i j : Nat)
    (h : NoOverflow s t match_ mismatch gap i j) :
    ∀ (n a b : Nat), a + b = n → a ≤ i → b ≤ j →
      R32 s t match_ mismatch gap a b = R s t match_ mismatch gap a b := by
  intro n
  induction n using Nat.strong_induction_on with
  | _ n ih =>
    intro a b hn ha hb
    subst hn
    cases a with
    | zero =>
      cases b with
      | zero => rw [R32_zero_zero, R_zero_zero]
      | succ b =>
        rw [R32_zero_succ, R_zero_succ, ih (0 + b) (by omega) 0 b rfl ha (by omega),
          add32_of_inInt _ _ (h.1 0 b ha hb)]
    | succ a =>
      cases b with
      | zero =>
        rw [R32_succ_zero, R_succ_zero, ih (a + 0) (by omega) a 0 rfl (by omega) hb,
          add32_of_inInt _ _ (h.2.1 a 0 ha hb)]
      | succ b =>
        rw [R32_succ_succ, R_succ_succ, ih (a + b) (by omega) a b rfl (by omega) (by omega),
          ih (a + (b + 1)) (by omega) a (b + 1) rfl (by omega) hb,
          ih (a + 1 + b) (by omega) (a + 1) b rfl ha (by omega),
          add32_of_inInt _ _ (h.2.2 a b ha hb), add32_of_inInt _ _ (h.2.1 a (b + 1) ha hb),
          add32_of_inInt _ _ (h.1 (a + 1) b ha hb)]

theorem Filled.of_noOverflow {s t : List Char} {match_ mismatch gap : Int} {memo : Matrix}
    {i j : Nat} (hF : Filled (R32 s t match_ mismatch gap) memo i j)
    (h : NoOverflow s t match_ mismatch gap i j) :
    Filled (R s t match_ mismatch gap) memo i j :=
  fun a b ha hb => (hF a b ha hb).trans (R32_eq_R s t match_ mismatch gap i j h _ a b rfl ha hb)

theorem inInt_mul_of_le (n k : Nat) (g : Int) (h : InInt ((n : Int) * g)) (hk : k ≤ n) :
    InInt ((k : Int) * g) := by
  unfold InInt INT_MIN INT_MAX at *
  have hk' : (k : Int) ≤ n := by exact_mod_cast hk
  have hk0 : (0 : Int) ≤ k := by positivity
  rcases le_total 0 g with hg | hg
  · have h1 : (k : Int) * g ≤ n * g := mul_le_mul_of_nonneg_right hk' hg
    have h2 : 0 ≤ (k : Int) * g := mul_nonneg hk0 hg
    omega
  · have h1 : (n : Int) * g ≤ k * g := mul_le_mul_of_nonpos_right hk' hg
    have h2 : (k : Int) * g ≤ 0 := mul_nonpos_of_nonneg_of_nonpos hk0 hg
    omega

theorem R32_col_zero (s t : List Char) (match_ mismatch gap : Int) (n : Nat)
    (h : InInt ((n : Int) * gap)) :
    ∀ k, k ≤ n → R32 s t match_ mismatch gap k 0 = (k : Int) * gap := by
  intro k
  induction k with
  | zero => intro _; simp [R32_zero_zero]
  | succ k ih =>
    intro hk
    have hin := inInt_mul_of_le n (k + 1) gap h hk
    rw [R32_succ_zero, ih (by omega)]
    have e : (k : Int) * gap + gap = ((k + 1 : Nat) : Int) * gap := by push_cast; ring
    rw [add32_of_inInt _ _ (by rw [e]; exact hin), e]

theorem R32_row_zero (s t : List Char) (match_ mismatch gap : Int) (n : Nat)
    (h : InInt ((n : Int) * gap)) :
    ∀ k, k ≤ n → R32 s t match_ mismatch gap 0 k = (k : Int) * gap := by
  intro k
  induction k with
  | zero => intro _; simp [R32_zero_zero]
  | succ k ih =>
    intro hk
    have hin := inInt_mul_of_le n (k + 1) gap h hk
    rw [R32_zero_succ, ih (by omega)]
    have e : (k : Int) * gap + gap = ((k + 1 : Nat) : Int) * gap := by push_cast; ring
    rw [add32_of_inInt _ _ (by rw [e]; exact hin), e]

theorem tracebackLoop32_stop (memo : Matrix) (s t : List Char) (gap : Int) (row col : Nat)
    (os ot : List Char) (steps : List TraceStep) (h : ¬ (row > 0 ∧ col > 0)) :
    tracebackLoop32 memo s t gap row col os ot steps = some (row, col, os, ot, steps) := by
  rw [tracebackLoop32.eq_def]
  simp [h]

theorem tracebackLoop32_step (memo : Matrix) (s t : List Char) (gap : Int) (row col : Nat)
    (os ot : List Char) (steps : List TraceStep) (hrow : 0 < row) (hcol : 0 < col)
    (hs : row < s.length) (ht : col < t.length) (hr : row < memo.rows) (hc : col < memo.cols) :
    tracebackLoop32 memo s t gap row col os ot steps =
      if add32 (memo.cells (row - 1) col) gap = memo.cells row col then
        tracebackLoop32 memo s t gap (row - 1) col (os ++ [s[row]]) (ot ++ ['-'])
          (steps ++ [⟨row, col, row - 1, col, s[row], '-'⟩])
      else if add32 (memo.cells row (col - 1)) gap = memo.cells row col then
        tracebackLoop32 memo s t gap row (col - 1) (os ++ ['-']) (ot ++ [t[col]])
          (steps ++ [⟨row, col, row, col - 1, '-', t[col]⟩])
      else
        tracebackLoop32 memo s t gap (row - 1) (col - 1) (os ++ [s[row]]) (ot ++ [t[col]])
          (steps ++ [⟨row, col, row - 1, col - 1, s[row], t[col]⟩]) := by
  rw [tracebackLoop32.eq_def]
  have h1 : memo.get (row - 1) col = some (memo.cells (row - 1) col) := by
    simp [Matrix.get, hc]; omega
  have h2 : memo.get row col = some (memo.cells row col) := by
    simp [Matrix.get, hc, hr]
  have h3 : memo.get row (col - 1) = some (memo.cells row (col - 1)) := by
    simp [Matrix.get, hr]; omega
  have h4 : s[row]? = some s[row] := List.getElem?_eq_getElem hs
  have h5 : t[col]? = some t[col] := List.getElem?_eq_getElem ht
  have h6 : row > 0 ∧ col > 0 := ⟨hrow, hcol⟩
  have h7 : ¬ row = 0 := by omega
  have h8 : ¬ col = 0 := by omega
  simp only [h1, h2, h3, h4, h5, h6, h7, h8, Option.bind_eq_bind, Option.some_bind, dite_true,
    dite_false, and_self]

theorem tracebackLoop32_spec (memo : Matrix) (s t : List Char) (gap : Int) :
    ∀ (n row col : Nat) (os ot : List Char) (st0 : List TraceStep), row + col = n →
      row < s.length → col < t.length → row < memo.rows → col < memo.cols →
      ∃ r c steps,
        tracebackLoop32 memo s t gap row col os ot st0
          = some (r, c, os ++ steps.map (fun st => st.outS), ot ++ steps.map (fun st => st.outT),
              st0 ++ steps) ∧
        r ≤ row ∧ c ≤ col ∧ (r = 0 ∨ c = 0) ∧ steps.length ≤ (row - r) + (col - c) ∧
        Linked row col steps r c ∧
        ∀ st ∈ steps, StepRule32 memo s t gap st ∧ st.row ≤ row ∧ st.col ≤ col ∧
          st.toRow + st.toCol < st.row + st.col := by
  intro n
  induction n using Nat.strong_induction_on with
  | _ n ih =>
    intro row col os ot st0 hn hs ht hr hc
    subst hn
    by_cases hpos : row > 0 ∧ col > 0
    · obtain ⟨hrow, hcol⟩ := hpos
      have h4 : s[row]? = some s[row] := List.getElem?_eq_getElem hs
      have h5 : t[col]? = some t[col] := List.getElem?_eq_getElem ht
      rw [tracebackLoop32_step memo s t gap row col os ot st0 hrow hcol hs ht hr hc]
      split_ifs with h1 h2
      · obtain ⟨r, c, steps, e1, hrr, hcc, hb, hlen, hlink, hall⟩ :=
          ih (row - 1 + col) (by omega) (row - 1) col (os ++ [s[row]]) (ot ++ ['-'])
            (st0 ++ [⟨row, col, row - 1, col, s[row], '-'⟩]) rfl (by omega) ht (by omega) hc
        refine ⟨r, c, ⟨row, col, row - 1, col, s[row], '-'⟩ :: steps, by simpa using e1,
          by omega, hcc, hb, by simp; omega, ⟨rfl, rfl, hlink⟩, ?_⟩
        intro st hst
        rcases List.mem_cons.mp hst with rfl | hst
        · refine ⟨⟨hrow, hcol, fun _ => ⟨rfl, rfl, h4, rfl⟩, fun hne _ => absurd h1 hne,
            fun hne _ => absurd h1 hne⟩, le_rfl, le_rfl, ?_⟩
          show row - 1 + col < row + col
          omega
        · have := hall st hst
          exact ⟨this.1, by omega, this.2.2.1, this.2.2.2⟩
      · obtain ⟨r, c, steps, e1, hrr, hcc, hb, hlen, hlink, hall⟩ :=
          ih (row + (col - 1)) (by omega) row (col - 1) (os ++ ['-']) (ot ++ [t[col]])
            (st0 ++ [⟨row, col, row, col - 1, '-', t[col]⟩]) rfl hs (by omega) hr (by omega)
        refine ⟨r, c, ⟨row, col, row, col - 1, '-', t[col]⟩ :: steps, by simpa using e1,
          hrr, by omega, hb, by simp; omega, ⟨rfl, rfl, hlink⟩, ?_⟩
        intro st hst
        rcases List.mem_cons.mp hst with rfl | hst
        · refine ⟨⟨hrow, hcol, fun he => absurd he h1, fun _ _ => ⟨rfl, rfl, rfl, h5⟩,
            fun _ hne => absurd h2 hne⟩, le_rfl, le_rfl, ?_⟩
          show row + (col - 1) < row + col
          omega
        · have := hall st hst
          exact ⟨this.1, this.2.1, by omega, this.2.2.2⟩
      · obtain ⟨r, c, steps, e1, hrr, hcc, hb, hlen, hlink, hall⟩ :=
          ih (row - 1 + (col - 1)) (by omega) (row - 1) (col - 1) (os ++ [s[row]])
            (ot ++ [t[col]]) (st0 ++ [⟨row, col, row - 1, col - 1, s[row], t[col]⟩]) rfl
            (by omega) (by omega) (by omega) (by omega)
        refine ⟨r, c, ⟨row, col, row - 1, col - 1, s[row], t[col]⟩ :: steps, by simpa using e1,
          by omega, by omega, hb, by simp; omega, ⟨rfl, rfl, hlink⟩, ?_⟩
        intro st hst
        rcases List.mem_cons.mp hst with rfl | hst
        · refine ⟨⟨hrow, hcol, fun he => absurd he h1, fun _ he => absurd he h2,
            fun _ _ => ⟨rfl, rfl, h4, h5⟩⟩, le_rfl, le_rfl, ?_⟩
          show row - 1 + (col - 1) < row + col
          omega
        · have := hall st hst
          exact ⟨this.1, by omega, by omega, this.2.2.2⟩
    · rw [tracebackLoop32_stop memo s t gap row col os ot st0 hpos]
      exact ⟨row, col, [], by simp, le_rfl, le_rfl, by omega, by simp, ⟨rfl, rfl⟩,
        fun st hst => by simp at hst⟩

theorem traceback32_spec (memo : Matrix) (s t : List Char) (gap : Int)
    (hs : s ≠ []) (ht : t ≠ []) (hr : s.length ≤ memo.rows) (hc : t.length ≤ memo.cols) :
    ∃ r c steps,
      traceback32 memo s t gap
        = some (r, c, (steps.map (fun st => st.outS)).reverse,
            (steps.map (fun st => st.outT)).reverse, steps) ∧
      r ≤ s.length - 1 ∧ c ≤ t.length - 1 ∧ (r = 0 ∨ c = 0) ∧
      steps.length ≤ (s.length - 1 - r) + (t.length - 1 - c) ∧
      Linked (s.length - 1) (t.length - 1) steps r c ∧
      ∀ st ∈ steps, StepRule32 memo s t gap st ∧ st.row ≤ s.length - 1 ∧
        st.col ≤ t.length - 1 ∧ st.toRow + st.toCol < st.row + st.col := by
  have hsl : 0 < s.length := List.length_pos.mpr hs
  have htl : 0 < t.length := List.length_pos.mpr ht
  obtain ⟨r, c, steps, e1, hrr, hcc, hb, hlen, hlink, hall⟩ :=
    tracebackLoop32_spec memo s t gap _ (s.length - 1) (t.length - 1) [] [] [] rfl
      (by omega) (by omega) (by omega) (by omega)
  refine ⟨r, c, steps, ?_, hrr, hcc, hb, hlen, hlink, hall⟩
  simp [traceback32, hs, ht, e1]

theorem tracebackLoop32_step_filled {Rf : Nat → Nat → Int} {memo : Matrix} {i j : Nat}
    (hF : Filled Rf memo i j) (s t : List Char) (gap : Int) (row col : Nat)
    (os ot : List Char) (steps : List TraceStep) (hrow : 0 < row) (hcol : 0 < col)
    (hs : row < s.length) (ht : col < t.length) (hr : row < memo.rows) (hc : col < memo.cols)
    (hri : row ≤ i) (hcj : col ≤ j) :
    tracebackLoop32 memo s t gap row col os ot steps =
      if add32 (Rf (row - 1) col) gap = Rf row col then
        tracebackLoop32 memo s t gap (row - 1) col (os ++ [s[row]]) (ot ++ ['-'])
          (steps ++ [⟨row, col, row - 1, col, s[row], '-'⟩])
      else if add32 (Rf row (col - 1)) gap = Rf row col then
        tracebackLoop32 memo s t gap row (col - 1) (os ++ ['-']) (ot ++ [t[col]])
          (steps ++ [⟨row, col, row, col - 1, '-', t[col]⟩])
      else
        tracebackLoop32 memo s t gap (row - 1) (col - 1) (os ++ [s[row]]) (ot ++ [t[col]])
          (steps ++ [⟨row, col, row - 1, col - 1, s[row], t[col]⟩]) := by
  rw [tracebackLoop32_step memo s t gap row col os ot steps hrow hcol hs ht hr hc,
    hF row col hri hcj, hF (row - 1) col (by omega) hcj, hF row (col - 1) hri (by omega)]

theorem StepRule32.toStepRule {s t : List Char} {match_ mismatch gap : Int} {memo : Matrix}
    {i j : Nat} {st : TraceStep} (h : StepRule32 memo s t gap st)
    (hF : Filled (R s t match_ mismatch gap) memo i j)
    (hno : NoOverflow s t match_ mismatch gap i j) (hri : st.row ≤ i) (hcj : st.col ≤ j) :
    add32 (memo.cells (st.row - 1) st.col) gap = memo.cells (st.row - 1) st.col + gap ∧
    add32 (memo.cells st.row (st.col - 1)) gap = memo.cells st.row (st.col - 1) + gap ∧
    StepRule memo s t gap st := by
  obtain ⟨h1, h2, h3, h4, h5⟩ := h
  have ea : add32 (memo.cells (st.row - 1) st.col) gap
      = memo.cells (st.row - 1) st.col + gap := by
    rw [hF (st.row - 1) st.col (by omega) hcj]
    exact add32_of_inInt _ _ (hno.2.1 (st.row - 1) st.col (by omega) hcj)
  have el : add32 (memo.cells st.row (st.col - 1)) gap
      = memo.cells st.row (st.col - 1) + gap := by
    rw [hF st.row (st.col - 1) hri (by omega)]
    exact add32_of_inInt _ _ (hno.1 st.row (st.col - 1) hri (by omega))
  rw [ea] at h3 h4 h5
  rw [el] at h4 h5
  exact ⟨ea, el, h1, h2, h3, h4, h5⟩

theorem noOverflow_AC_AGC :
    NoOverflow [' ', 'A', 'C'] [' ', 'A', 'G', 'C'] 2 (-1) (-1) 2 3 := by
  refine ⟨?_, ?_, ?_⟩
  · intro a b ha hb
    have hb2 : b ≤ 2 := by omega
    interval_cases a <;> interval_cases b <;> simp [R, max3, InInt, INT_MIN, INT_MAX]
  · intro a b ha hb
    have ha2 : a ≤ 1 := by omega
    interval_cases a <;> interval_cases b <;> simp [R, max3, InInt, INT_MIN, INT_MAX]
  · intro a b ha hb
    have ha2 : a ≤ 1 := by omega
    have hb2 : b ≤ 2 := by omega
    interval_cases a <;> interval_cases b <;> simp [R, max3, InInt, INT_MIN, INT_MAX]

/-! ## The claims -/

/-- C1: optimality of `opt`.  For strings `s`, `t` with a leading placeholder,
any penalties and any `i < |s|`, `j < |t|`, the call `opt(s, i, t, j, memo, ...)`
on a sentinel-filled table returns a value `v` that is the maximum of the sums
of column scores over all global alignments of `s[1..i]` with `t[1..j]`: some
alignment scores `v`, and no alignment scores more. -/
theorem opt_optimal (ord : ArgOrder) (s t : List Char) (match_ mismatch gap : Int)
    (i j : Nat) (memo : Matrix) (hi : i < s.length) (hj : j < t.length)
    (hr : i < memo.rows) (hc : j < memo.cols) (hm : SentinelFilled memo) :
    ∃ v memo', opt ord s i t j memo match_ mismatch gap = some (v, memo') ∧
      (∃ al, spellS al = symbols s i ∧ spellT al = symbols t j ∧
        alignScore match_ mismatch gap al = v) ∧
      (∀ al, spellS al = symbols s i → spellT al = symbols t j →
        alignScore match_ mismatch gap al ≤ v) := by
  obtain ⟨memo', e, _, _, _⟩ :=
    opt_from_sentinel ord s t match_ mismatch gap i j memo hi hj hr hc hm
  exact ⟨R s t match_ mismatch gap i j, memo', e,
    exists_alignment_R s t match_ mismatch gap (i + j) i j rfl hi hj,
    fun al h1 h2 => alignScore_le_R s t match_ mismatch gap al i j hi hj h1 h2⟩

/-- Witness of C1 at `s = " AC"`, `t = " AGC"`, penalties 2, -1, -1. -/
theorem opt_optimal_witness :
    ∃ v memo', opt ArgOrder.dul [' ', 'A', 'C'] 2 [' ', 'A', 'G', 'C'] 3
        (Matrix.fill 4 5 INF) 2 (-1) (-1) = some (v, memo') ∧
      (∃ al, spellS al = symbols [' ', 'A', 'C'] 2 ∧ spellT al = symbols [' ', 'A', 'G', 'C'] 3 ∧
        alignScore 2 (-1) (-1) al = v) ∧
      (∀ al, spellS al = symbols [' ', 'A', 'C'] 2 → spellT al = symbols [' ', 'A', 'G', 'C'] 3 →
        alignScore 2 (-1) (-1) al ≤ v) :=
  opt_optimal ArgOrder.dul [' ', 'A', 'C'] [' ', 'A', 'G', 'C'] 2 (-1) (-1) 2 3
    (Matrix.fill 4 5 INF) (by decide) (by decide) (by decide) (by decide) (fill_sentinel 4 5)

/-- C2: the memoized `opt` equals the plain recurrence.  For any strings, any
signed penalties and any `i < |s|`, `j < |t|`, the call of `opt` on a
sentinel-filled table returns `R i j`, whether or not some value of the
recurrence equals the sentinel. -/
theorem opt_eq_recurrence (ord : ArgOrder) (s t : List Char) (match_ mismatch gap : Int)
    (i j : Nat) (memo : Matrix) (hi : i < s.length) (hj : j < t.length)
    (hr : i < memo.rows) (hc : j < memo.cols) (hm : SentinelFilled memo) :
    ∃ memo', opt ord s i t j memo match_ mismatch gap
      = some (R s t match_ mismatch gap i j, memo') := by
  obtain ⟨memo', e, _, _, _⟩ :=
    opt_from_sentinel ord s t match_ mismatch gap i j memo hi hj hr hc hm
  exact ⟨memo', e⟩

/-- Witness of C2 at the sentinel collision of the claim: `s = " A"`, `t = " AA"`,
match 2147483647, mismatch -1, gap -1.  There `R 1 1` is the sentinel, and the
call at `(1, 2)` still returns `R 1 2`. -/
theorem opt_eq_recurrence_witness :
    R [' ', 'A'] [' ', 'A', 'A'] 2147483647 (-1) (-1) 1 1 = INF ∧
    ∃ memo', opt ArgOrder.dul [' ', 'A'] 1 [' ', 'A', 'A'] 2 (Matrix.fill 3 4 INF)
        2147483647 (-1) (-1)
      = some (R [' ', 'A'] [' ', 'A', 'A'] 2147483647 (-1) (-1) 1 2, memo') :=
  ⟨by simp [R, max3, INF],
   opt_eq_recurrence ArgOrder.dul [' ', 'A'] [' ', 'A', 'A'] 2147483647 (-1) (-1) 1 2
    (Matrix.fill 3 4 INF) (by decide) (by decide) (by decide) (by decide) (fill_sentinel 3 4)⟩



/-- C3: the scenario `s = " AC"`, `t = " AGC"`, match 2, mismatch -1, gap -1, on the
table `main` allocates: `opt` at `(2, 3)` returns 3, and `traceback` over the
table it filled prints `A-C` and `AGC`.  This holds for every evaluation order
of the arguments of `max3`. -/
theorem scenario_AC_AGC (ord : ArgOrder) :
    ∃ memo', opt ord [' ', 'A', 'C'] 2 [' ', 'A', 'G', 'C'] 3 (Matrix.fill 4 5 INF) 2 (-1) (-1)
        = some (3, memo') ∧
      traceback memo' [' ', 'A', 'C'] [' ', 'A', 'G', 'C'] (-1)
        = some (['A', '-', 'C'], ['A', 'G', 'C']) := by
  obtain ⟨memo', e, hrw, hcl, hF⟩ :=
    opt_from_sentinel ord [' ', 'A', 'C'] [' ', 'A', 'G', 'C'] 2 (-1) (-1) 2 3
      (Matrix.fill 4 5 INF) (by decide) (by decide) (by decide) (by decide) (fill_sentinel 4 5)
  have hrw' : memo'.rows = 4 := hrw
  have hcl' : memo'.cols = 5 := hcl
  refine ⟨memo', ?_, ?_⟩
  · rw [e]; simp [R, max3]
  · unfold traceback
    have e1 : sizePred [' ', 'A', 'C'].length = 2 := by decide
    have e2 : sizePred [' ', 'A', 'G', 'C'].length = 3 := by decide
    rw [e1, e2]
    rw [tracebackLoop_step_filled hF _ _ _ 2 3 _ _ (by decide) (by decide) (by decide)
      (by decide) (by omega) (by omega) (by omega) (by omega)]
    simp [R, max3]
    rw [tracebackLoop_step_filled hF _ _ _ 1 2 _ _ (by decide) (by decide) (by decide)
      (by decide) (by omega) (by omega) (by omega) (by omega)]
    simp [R, max3]
    rw [tracebackLoop_step_filled hF _ _ _ 1 1 _ _ (by decide) (by decide) (by decide)
      (by decide) (by omega) (by omega) (by omega) (by omega)]
    simp [R, max3]
    rw [tracebackLoop_stop _ _ _ _ 0 0 _ _ (by decide)]
    simp

/-- C4, as stated, fails on the code at two inputs.  With `s = t = " -"` (match 1,
mismatch -1, gap -1) `traceback` prints `-` and `-`, and removing the gap
markers leaves the empty string, not the symbol `-` of `s`.  With `s = " AB"`,
`t = " B"` the loop stops at `(1, 0)` and prints `B` and `B`, so the first
string does not give back `AB`. -/
theorem traceback_reproduces_inputs_counterexample :
    (∃ v memo', opt ArgOrder.dul [' ', '-'] 1 [' ', '-'] 1 (Matrix.fill 3 3 INF) 1 (-1) (-1)
        = some (v, memo') ∧
      traceback memo' [' ', '-'] [' ', '-'] (-1) = some (['-'], ['-']) ∧
      dropGaps ['-'] ≠ [' ', '-'].tail) ∧
    (∃ v memo', opt ArgOrder.dul [' ', 'A', 'B'] 2 [' ', 'B'] 1 (Matrix.fill 4 3 INF) 1 (-1) (-1)
        = some (v, memo') ∧
      traceback memo' [' ', 'A', 'B'] [' ', 'B'] (-1) = some (['B'], ['B']) ∧
      dropGaps ['B'] ≠ [' ', 'A', 'B'].tail) := by
  constructor
  · obtain ⟨memo', e, hrw, hcl, hF⟩ :=
      opt_from_sentinel ArgOrder.dul [' ', '-'] [' ', '-'] 1 (-1) (-1) 1 1
        (Matrix.fill 3 3 INF) (by decide) (by decide) (by decide) (by decide)
        (fill_sentinel 3 3)
    have hrw' : memo'.rows = 3 := hrw
    have hcl' : memo'.cols = 3 := hcl
    refine ⟨_, memo', e, ?_, by decide⟩
    unfold traceback
    have e1 : sizePred [' ', '-'].length = 1 := by decide
    rw [e1]
    rw [tracebackLoop_step_filled hF _ _ _ 1 1 _ _ (by decide) (by decide) (by decide)
      (by decide) (by omega) (by omega) (by omega) (by omega)]
    simp [R, max3]
    rw [tracebackLoop_stop _ _ _ _ 0 0 _ _ (by decide)]
    simp
  · obtain ⟨memo', e, hrw, hcl, hF⟩ :=
      opt_from_sentinel ArgOrder.dul [' ', 'A', 'B'] [' ', 'B'] 1 (-1) (-1) 2 1
        (Matrix.fill 4 3 INF) (by decide) (by decide) (by decide) (by decide)
        (fill_sentinel 4 3)
    have hrw' : memo'.rows = 4 := hrw
    have hcl' : memo'.cols = 3 := hcl
    refine ⟨_, memo', e, ?_, by decide⟩
    unfold traceback
    have e1 : sizePred [' ', 'A', 'B'].length = 2 := by decide
    have e2 : sizePred [' ', 'B'].length = 1 := by decide
    rw [e1, e2]
    rw [tracebackLoop_step_filled hF _ _ _ 2 1 _ _ (by decide) (by decide) (by decide)
      (by decide) (by omega) (by omega) (by omega) (by omega)]
    simp [R, max3]
    rw [tracebackLoop_stop _ _ _ _ 1 0 _ _ (by decide)]
    simp

/-- C4, amended: for `s` and `t` with a leading placeholder and no gap marker `-`
after it, and any penalties, after `opt(s, |s|-1, t, |t|-1, ...)` has filled a
sentinel-filled table, `traceback` prints two strings and its loop stops at a
cell `(r, c)` of the border (`r = 0` or `c = 0`); when it stops in row 0,
removing the gap markers from the first string gives `s` without its
placeholder, and when it stops in column 0, removing them from the second
string gives `t` without its placeholder. -/
theorem traceback_reproduces_inputs (ord : ArgOrder) (s t : List Char)
    (match_ mismatch gap : Int) (memo : Matrix) (hs : s ≠ []) (ht : t ≠ [])
    (hr : s.length ≤ memo.rows) (hc : t.length ≤ memo.cols) (hm : SentinelFilled memo)
    (hsg : ∀ k, 0 < k → s[k]? ≠ some '-') (htg : ∀ k, 0 < k → t[k]? ≠ some '-') :
    ∃ v memo' os ot r c,
      opt ord s (s.length - 1) t (t.length - 1) memo match_ mismatch gap = some (v, memo') ∧
      traceback memo' s t gap = some (os, ot) ∧
      tracebackStop memo' s t gap = some (r, c) ∧
      (r = 0 ∨ c = 0) ∧
      (r = 0 → dropGaps os = s.tail) ∧ (c = 0 → dropGaps ot = t.tail) := by
  have hsl : 0 < s.length := List.length_pos.mpr hs
  have htl : 0 < t.length := List.length_pos.mpr ht
  obtain ⟨memo', e, hrw, hcl, _⟩ :=
    opt_from_sentinel ord s t match_ mismatch gap (s.length - 1) (t.length - 1) memo
      (by omega) (by omega) (by omega) (by omega) hm
  obtain ⟨r, c, X, Y, eL, _, hb, _, _, hS, hT⟩ :=
    tracebackLoop_spec memo' s t gap _ (s.length - 1) (t.length - 1) [] [] rfl
      (by omega) (by omega) (by omega) (by omega)
  refine ⟨_, memo', X.reverse, Y.reverse, r, c, e, ?_, ?_, hb, ?_, ?_⟩
  · simp [traceback, sizePred_pos _ hsl, sizePred_pos _ htl, eL]
  · simp [tracebackStop, sizePred_pos _ hsl, sizePred_pos _ htl, eL]
  · intro h0
    subst h0
    rw [dropGaps_reverse, hS hsg, List.reverse_reverse, segment_zero_last s]
  · intro h0
    subst h0
    rw [dropGaps_reverse, hT htg, List.reverse_reverse, segment_zero_last t]

/-- Witness of the amended C4 at `s = " AC"`, `t = " AGC"`, penalties 2, -1, -1. -/
theorem traceback_reproduces_inputs_witness :
    ∃ v memo' os ot r c,
      opt ArgOrder.dul [' ', 'A', 'C'] ([' ', 'A', 'C'].length - 1) [' ', 'A', 'G', 'C']
        ([' ', 'A', 'G', 'C'].length - 1) (Matrix.fill 4 5 INF) 2 (-1) (-1) = some (v, memo') ∧
      traceback memo' [' ', 'A', 'C'] [' ', 'A', 'G', 'C'] (-1) = some (os, ot) ∧
      tracebackStop memo' [' ', 'A', 'C'] [' ', 'A', 'G', 'C'] (-1) = some (r, c) ∧
      (r = 0 ∨ c = 0) ∧
      (r = 0 → dropGaps os = [' ', 'A', 'C'].tail) ∧
      (c = 0 → dropGaps ot = [' ', 'A', 'G', 'C'].tail) :=
  traceback_reproduces_inputs ArgOrder.dul [' ', 'A', 'C'] [' ', 'A', 'G', 'C'] 2 (-1) (-1)
    (Matrix.fill 4 5 INF) (by decide) (by decide) (by decide) (by decide) (fill_sentinel 4 5)
    (by
      intro k hk
      rcases k with _ | _ | _ | k
      · omega
      · decide
      · decide
      · simp)
    (by
      intro k hk
      rcases k with _ | _ | _ | _ | k
      · omega
      · decide
      · decide
      · decide
      · simp)

/-- C5 at its failing input `s = " AB"`, `t = " B"`, match 1, mismatch -1, gap -1:
`opt` at `(2, 1)` returns 0, while `traceback` prints `B` and `B`, whose column
scores sum to 1; the symbol `A` of `s` is never printed. -/
theorem traceback_score_AB_B (ord : ArgOrder) :
    ∃ memo', opt ord [' ', 'A', 'B'] 2 [' ', 'B'] 1 (Matrix.fill 4 3 INF) 1 (-1) (-1)
        = some (0, memo') ∧
      traceback memo' [' ', 'A', 'B'] [' ', 'B'] (-1) = some (['B'], ['B']) ∧
      printedScore 1 (-1) (-1) ['B'] ['B'] = 1 := by
  obtain ⟨memo', e, hrw, hcl, hF⟩ :=
    opt_from_sentinel ord [' ', 'A', 'B'] [' ', 'B'] 1 (-1) (-1) 2 1
      (Matrix.fill 4 3 INF) (by decide) (by decide) (by decide) (by decide)
      (fill_sentinel 4 3)
  have hrw' : memo'.rows = 4 := hrw
  have hcl' : memo'.cols = 3 := hcl
  refine ⟨memo', ?_, ?_, by decide⟩
  · rw [e]; simp [R, max3]
  · unfold traceback
    have e1 : sizePred [' ', 'A', 'B'].length = 2 := by decide
    have e2 : sizePred [' ', 'B'].length = 1 := by decide
    rw [e1, e2]
    rw [tracebackLoop_step_filled hF _ _ _ 2 1 _ _ (by decide) (by decide) (by decide)
      (by decide) (by omega) (by omega) (by omega) (by omega)]
    simp [R, max3]
    rw [tracebackLoop_stop _ _ _ _ 1 0 _ _ (by decide)]
    simp

/-- C6: the traceback length invariant.  For every table with at least `|s|` rows
and `|t|` columns, whatever its contents, every non-empty `s` and `t` and every
gap value, `traceback(memo, s, t, gap)` prints two strings of the same length. -/
theorem traceback_lengths (memo : Matrix) (s t : List Char) (gap : Int)
    (hs : s ≠ []) (ht : t ≠ []) (hr : s.length ≤ memo.rows) (hc : t.length ≤ memo.cols) :
    ∃ os ot, traceback memo s t gap = some (os, ot) ∧ os.length = ot.length := by
  have hsl : 0 < s.length := List.length_pos.mpr hs
  have htl : 0 < t.length := List.length_pos.mpr ht
  obtain ⟨r, c, X, Y, eL, hl, _⟩ :=
    tracebackLoop_spec memo s t gap _ (s.length - 1) (t.length - 1) [] [] rfl
      (by omega) (by omega) (by omega) (by omega)
  refine ⟨X.reverse, Y.reverse, ?_, by simp [hl]⟩
  simp [traceback, sizePred_pos _ hsl, sizePred_pos _ htl, eL]

/-- Witness of C6 on a table of zeros for `s = " AB"`, `t = " B"`, gap -1. -/
theorem traceback_lengths_witness :
    ∃ os ot, traceback (Matrix.fill 3 2 0) [' ', 'A', 'B'] [' ', 'B'] (-1) = some (os, ot) ∧
      os.length = ot.length :=
  traceback_lengths (Matrix.fill 3 2 0) [' ', 'A', 'B'] [' ', 'B'] (-1)
    (by decide) (by decide) (by decide) (by decide)

/-- C7: symmetry of the score.  For `s` and `t` with a leading placeholder and any
penalties, `opt(s, |s|-1, t, |t|-1, ...)` and `opt(t, |t|-1, s, |s|-1, ...)`, each
started on its own sentinel-filled table, return the same score. -/
theorem opt_symmetric (ord1 ord2 : ArgOrder) (s t : List Char) (match_ mismatch gap : Int)
    (memo1 memo2 : Matrix) (hs : s ≠ []) (ht : t ≠ [])
    (hr1 : s.length ≤ memo1.rows) (hc1 : t.length ≤ memo1.cols)
    (hr2 : t.length ≤ memo2.rows) (hc2 : s.length ≤ memo2.cols)
    (hm1 : SentinelFilled memo1) (hm2 : SentinelFilled memo2) :
    ∃ v memo1' memo2',
      opt ord1 s (s.length - 1) t (t.length - 1) memo1 match_ mismatch gap
        = some (v, memo1') ∧
      opt ord2 t (t.length - 1) s (s.length - 1) memo2 match_ mismatch gap
        = some (v, memo2') := by
  have hsl : 0 < s.length := List.length_pos.mpr hs
  have htl : 0 < t.length := List.length_pos.mpr ht
  obtain ⟨m1, e1, _, _, _⟩ :=
    opt_from_sentinel ord1 s t match_ mismatch gap (s.length - 1) (t.length - 1) memo1
      (by omega) (by omega) (by omega) (by omega) hm1
  obtain ⟨m2, e2, _, _, _⟩ :=
    opt_from_sentinel ord2 t s match_ mismatch gap (t.length - 1) (s.length - 1) memo2
      (by omega) (by omega) (by omega) (by omega) hm2
  refine ⟨_, m1, m2, e1, ?_⟩
  rw [e2, R_symm t s match_ mismatch gap _ (t.length - 1) (s.length - 1) rfl]

/-- Witness of C7 at `s = " AC"`, `t = " AGC"`, penalties 2, -1, -1. -/
theorem opt_symmetric_witness :
    ∃ v memo1' memo2',
      opt ArgOrder.dul [' ', 'A', 'C'] ([' ', 'A', 'C'].length - 1) [' ', 'A', 'G', 'C']
        ([' ', 'A', 'G', 'C'].length - 1) (Matrix.fill 4 5 INF) 2 (-1) (-1) = some (v, memo1') ∧
      opt ArgOrder.lud [' ', 'A', 'G', 'C'] ([' ', 'A', 'G', 'C'].length - 1) [' ', 'A', 'C']
        ([' ', 'A', 'C'].length - 1) (Matrix.fill 5 4 INF) 2 (-1) (-1) = some (v, memo2') :=
  opt_symmetric ArgOrder.dul ArgOrder.lud [' ', 'A', 'C'] [' ', 'A', 'G', 'C'] 2 (-1) (-1)
    (Matrix.fill 4 5 INF) (Matrix.fill 5 4 INF) (by decide) (by decide)
    (by decide) (by decide) (by decide) (by decide) (fill_sentinel 4 5) (fill_sentinel 5 4)

/-- C8, as stated, fails on the code: the claim puts no bound on `n * gap`, and
`opt` forms the border sums in `int`.  With `s = " AA"` (`n = 2`), `t = " "` and
`gap = -2147483648` on the table `main` allocates, `memo[1][0]` is
`-2147483648` and the next sum wraps around to 0: `opt(s, 2, t, 0, ...)`
returns 0, not `2 * gap = -4294967296`, a value no `int` holds. -/
theorem opt_against_empty_counterexample :
    ∃ memo' log,
      opt32 ArgOrder.dul [' ', 'A', 'A'] 2 [' '] 0 (Matrix.fill 4 2 INF) 1 (-1) (-2147483648) 1
        = some (0, memo', log) ∧
      (0 : Int) ≠ ((2 : Nat) : Int) * (-2147483648) := by
  obtain ⟨memo', log, e, _⟩ :=
    opt32_from_sentinel ArgOrder.dul [' ', 'A', 'A'] [' '] 1 (-1) (-2147483648) 2 0
      (Matrix.fill 4 2 INF) 1 (by decide) (by decide) (by decide) (by decide)
      (fill_sentinel 4 2)
  have hv : R32 [' ', 'A', 'A'] [' '] 1 (-1) (-2147483648) 2 0 = 0 := by
    simp [R32, add32, wrap32]
  rw [hv] at e
  exact ⟨memo', log, e, by decide⟩

/-- C8, amended: the base case against an empty counterpart, where `n * gap` fits
in an `int`.  For `s` a placeholder followed by `n` symbols, `t` the
placeholder only, and penalties with `INT_MIN <= n * gap <= INT_MAX`,
`opt(s, n, t, 0, ...)` on a sentinel-filled table returns `n * gap`, and so does
`opt(t, 0, s, n, ...)`. -/
theorem opt_against_empty (ord1 ord2 : ArgOrder) (s t : List Char) (n : Nat)
    (match_ mismatch gap : Int) (memo1 memo2 : Matrix)
    (hs : s.length = n + 1) (ht : t.length = 1)
    (hr1 : n < memo1.rows) (hc1 : 0 < memo1.cols)
    (hr2 : 0 < memo2.rows) (hc2 : n < memo2.cols)
    (hm1 : SentinelFilled memo1) (hm2 : SentinelFilled memo2)
    (hfit : InInt ((n : Int) * gap)) :
    (∃ memo1' log1, opt32 ord1 s n t 0 memo1 match_ mismatch gap 1
      = some ((n : Int) * gap, memo1', log1)) ∧
    (∃ memo2' log2, opt32 ord2 t 0 s n memo2 match_ mismatch gap 1
      = some ((n : Int) * gap, memo2', log2)) := by
  obtain ⟨m1, l1, e1, _⟩ :=
    opt32_from_sentinel ord1 s t match_ mismatch gap n 0 memo1 1
      (by omega) (by omega) hr1 hc1 hm1
  obtain ⟨m2, l2, e2, _⟩ :=
    opt32_from_sentinel ord2 t s match_ mismatch gap 0 n memo2 1
      (by omega) (by omega) hr2 hc2 hm2
  rw [R32_col_zero s t match_ mismatch gap n hfit n le_rfl] at e1
  rw [R32_row_zero t s match_ mismatch gap n hfit n le_rfl] at e2
  exact ⟨⟨m1, l1, e1⟩, ⟨m2, l2, e2⟩⟩

/-- Witness of the amended C8 at `s = " ACG"` (`n = 3`), `t = " "`, penalties 2,
-1, -2. -/
theorem opt_against_empty_witness :
    InInt (((3 : Nat) : Int) * (-2)) ∧
    (∃ memo1' log1,
      opt32 ArgOrder.dul [' ', 'A', 'C', 'G'] 3 [' '] 0 (Matrix.fill 5 2 INF) 2 (-1) (-2) 1
        = some (((3 : Nat) : Int) * (-2), memo1', log1)) ∧
    (∃ memo2' log2,
      opt32 ArgOrder.dul [' '] 0 [' ', 'A', 'C', 'G'] 3 (Matrix.fill 2 5 INF) 2 (-1) (-2) 1
        = some (((3 : Nat) : Int) * (-2), memo2', log2)) :=
  ⟨by decide,
   opt_against_empty ArgOrder.dul ArgOrder.dul [' ', 'A', 'C', 'G'] [' '] 3 2 (-1) (-2)
    (Matrix.fill 5 2 INF) (Matrix.fill 2 5 INF) (by decide) (by decide)
    (by decide) (by decide) (by decide) (by decide) (fill_sentinel 5 2) (fill_sentinel 2 5)
    (by decide)⟩

/-- C10: the empty-input boundary.  For `s` and `t` of length 1 (placeholder
only, whatever the two placeholder symbols are) and any penalties,
`opt(s, 0, t, 0, ...)` on a sentinel-filled table returns 0, and `traceback`
over the resulting table prints two empty strings. -/
theorem opt_traceback_empty (ord : ArgOrder) (s t : List Char) (match_ mismatch gap : Int)
    (memo : Matrix) (hs : s.length = 1) (ht : t.length = 1)
    (hr : 0 < memo.rows) (hc : 0 < memo.cols) (hm : SentinelFilled memo) :
    ∃ memo', opt ord s 0 t 0 memo match_ mismatch gap = some (0, memo') ∧
      traceback memo' s t gap = some ([], []) := by
  obtain ⟨m1, e1, _, _, _⟩ :=
    opt_from_sentinel ord s t match_ mismatch gap 0 0 memo (by omega) (by omega) hr hc hm
  rw [R_zero_zero] at e1
  refine ⟨m1, e1, ?_⟩
  have e1 : sizePred s.length = 0 := by rw [hs]; decide
  have e2 : sizePred t.length = 0 := by rw [ht]; decide
  unfold traceback
  rw [e1, e2, tracebackLoop_stop _ _ _ _ 0 0 _ _ (by decide)]
  simp

/-- Witness of C10 with two different placeholders, `s = " "` and `t = "#"`, on
the table `main` allocates. -/
theorem opt_traceback_empty_witness :
    ∃ memo', opt ArgOrder.dul [' '] 0 ['#'] 0 (Matrix.fill 2 2 INF) 2 (-1) (-1)
        = some (0, memo') ∧
      traceback memo' [' '] ['#'] (-1) = some ([], []) :=
  opt_traceback_empty ArgOrder.dul [' '] ['#'] 2 (-1) (-1) (Matrix.fill 2 2 INF)
    (by decide) (by decide) (by decide) (by decide) (fill_sentinel 2 2)

/-- C11: memo hit.  For every table, strings, penalties and every `(i, j)` inside
the table whose cell does not hold the sentinel, `opt(s, i, t, j, memo, ...)`
returns exactly `memo[i][j]` and the table it was given, and the instrumented
run records no recursive call and no assignment. -/
theorem opt_memo_hit (ord : ArgOrder) (s t : List Char) (match_ mismatch gap : Int)
    (i j : Nat) (memo : Matrix) (depth : Nat) (hr : i < memo.rows) (hc : j < memo.cols)
    (hcur : memo.cells i j ≠ INF) :
    opt ord s i t j memo match_ mismatch gap = some (memo.cells i j, memo) ∧
    optLog ord s i t j memo match_ mismatch gap depth = some (memo.cells i j, memo, []) := by
  have hget : memo.get i j = some (memo.cells i j) := by simp [Matrix.get, hr, hc]
  constructor
  · rw [opt.eq_def]
    simp [hget, hcur]
  · rw [optLog.eq_def]
    simp [hget, hcur]

/-- Witness of C11 on a 2x2 table of zeros at the cell `(1, 1)`. -/
theorem opt_memo_hit_witness :
    opt ArgOrder.dul [' ', 'A'] 1 [' ', 'A'] 1 (Matrix.fill 2 2 0) 1 (-1) (-1)
      = some ((Matrix.fill 2 2 0).cells 1 1, Matrix.fill 2 2 0) ∧
    optLog ArgOrder.dul [' ', 'A'] 1 [' ', 'A'] 1 (Matrix.fill 2 2 0) 1 (-1) (-1) 1
      = some ((Matrix.fill 2 2 0).cells 1 1, Matrix.fill 2 2 0, []) :=
  opt_memo_hit ArgOrder.dul [' ', 'A'] [' ', 'A'] 1 (-1) (-1) 1 1 (Matrix.fill 2 2 0) 1
    (by decide) (by decide) (by decide)

/-- C12: set cells are never overwritten.  For every table, whatever it holds,
and every in-range `(i, j)`, the call `opt(s, i, t, j, memo, ...)` returns, and
every cell that differed from the sentinel before the call holds the same
value after it. -/
theorem opt_keeps_set_cells (ord : ArgOrder) (s t : List Char) (match_ mismatch gap : Int)
    (i j : Nat) (memo : Matrix) (hi : i < s.length) (hj : j < t.length)
    (hr : i < memo.rows) (hc : j < memo.cols) :
    ∃ v memo', opt ord s i t j memo match_ mismatch gap = some (v, memo') ∧
      ∀ a b, memo.cells a b ≠ INF → memo'.cells a b = memo.cells a b := by
  obtain ⟨v, memo', log, _, e, hrun, _, _⟩ :=
    optLog_run ord s t match_ mismatch gap (i + j) i j memo 1 rfl hi hj hr hc
  exact ⟨v, memo', e, hrun.keep⟩

/-- Witness of C12 on a 3x3 table in which only the cell `(0, 0)` is set, to 7
(not a value of the recurrence); the call at `(1, 1)` leaves it alone. -/
theorem opt_keeps_set_cells_witness :
    ∃ v memo',
      opt ArgOrder.dul [' ', 'A'] 1 [' ', 'A'] 1
        ⟨3, 3, fun a b => if a = 0 ∧ b = 0 then 7 else INF⟩ 1 (-1) (-1) = some (v, memo') ∧
      ∀ a b, (if a = 0 ∧ b = 0 then (7 : Int) else INF) ≠ INF →
        memo'.cells a b = if a = 0 ∧ b = 0 then 7 else INF :=
  opt_keeps_set_cells ArgOrder.dul [' ', 'A'] [' ', 'A'] 1 (-1) (-1) 1 1
    ⟨3, 3, fun a b => if a = 0 ∧ b = 0 then 7 else INF⟩
    (by decide) (by decide) (by decide) (by decide)

/-- C13, as stated, fails on the code: with `s = " AB"`, `t = " AC"`, match
2147483647 (the sentinel), mismatch -1 and gap -1, the value `R 1 1` of the
recurrence is the sentinel itself, so each of the three calls of `opt` at
`(1, 1)` finds the cell "unset" and assigns it again.  The instrumented run of
`opt(s, 2, t, 2, ...)` on the sentinel-filled table of `main` records at least
two assignments to the cell `(1, 1)`, whether the arguments of `max3` are
evaluated left to right or right to left. -/
theorem opt_write_once_counterexample :
    (∃ v memo' log,
      optLog ArgOrder.dul [' ', 'A', 'B'] 2 [' ', 'A', 'C'] 2 (Matrix.fill 4 4 INF)
        2147483647 (-1) (-1) 1 = some (v, memo', log) ∧
      2 ≤ writesAt 1 1 log) ∧
    (∃ v memo' log,
      optLog ArgOrder.lud [' ', 'A', 'B'] 2 [' ', 'A', 'C'] 2 (Matrix.fill 4 4 INF)
        2147483647 (-1) (-1) 1 = some (v, memo', log) ∧
      2 ≤ writesAt 1 1 log) :=
  ⟨collision_rewrites ArgOrder.dul, collision_rewrites ArgOrder.lud⟩

/-- C13, amended: for `s` and `t` with a leading placeholder and any penalties,
during the whole evaluation of `opt(s, |s|-1, t, |t|-1, ...)` started on a
sentinel-filled table, with the sums formed in `int`, every cell `(a, b)` whose
value `R32 a b` (the recurrence evaluated in `int` arithmetic, which is what
`opt` stores) differs from the sentinel is assigned at most once (in the
instrumented embedding, which logs every write `memo.at(i, j) = ...`). -/
theorem opt_write_once (ord : ArgOrder) (s t : List Char) (match_ mismatch gap : Int)
    (memo : Matrix) (hs : s ≠ []) (ht : t ≠ [])
    (hr : s.length ≤ memo.rows) (hc : t.length ≤ memo.cols) (hm : SentinelFilled memo) :
    ∃ v memo' log,
      opt32 ord s (s.length - 1) t (t.length - 1) memo match_ mismatch gap 1
        = some (v, memo', log) ∧
      (∀ a b w, Event.write a b w ∈ log → w = R32 s t match_ mismatch gap a b) ∧
      ∀ a b, R32 s t match_ mismatch gap a b ≠ INF → writesAt a b log ≤ 1 := by
  have hsl : 0 < s.length := List.length_pos.mpr hs
  have htl : 0 < t.length := List.length_pos.mpr ht
  obtain ⟨memo', log, e1, _, _, _, _, hrun, hval⟩ :=
    opt32_from_sentinel ord s t match_ mismatch gap (s.length - 1) (t.length - 1) memo 1
      (by omega) (by omega) (by omega) (by omega) hm
  refine ⟨_, memo', log, e1, hval, ?_⟩
  intro a b hab
  have hcongr : log.countP (isWriteAt a b) = log.countP (isValueWriteAt a b) := by
    apply List.countP_congr
    intro e he
    cases e with
    | call d ci cj x y => simp [isWriteAt, isValueWriteAt]
    | write x y w =>
      simp only [isWriteAt, isValueWriteAt, Bool.and_eq_true, beq_iff_eq,
        decide_eq_true_eq]
      constructor
      · rintro ⟨rfl, rfl⟩
        exact ⟨⟨rfl, rfl⟩, by rw [hval x y w he]; exact hab⟩
      · exact fun h => h.1
  unfold writesAt
  rw [hcongr]
  exact hrun.once a b

/-- Witness of the amended C13 at `s = " AAAA"`, `t = " A"`, match 1, mismatch
-1, gap -715827883: the third border sum `3 * gap` wraps around to the
sentinel, so the cell `(3, 0)` is outside the statement, while the cell
`(4, 1)` of the result is inside it. -/
theorem opt_write_once_witness :
    R32 [' ', 'A', 'A', 'A', 'A'] [' ', 'A'] 1 (-1) (-715827883) 3 0 = INF ∧
    R32 [' ', 'A', 'A', 'A', 'A'] [' ', 'A'] 1 (-1) (-715827883) 4 1 ≠ INF ∧
    ∃ v memo' log,
      opt32 ArgOrder.dul [' ', 'A', 'A', 'A', 'A'] ([' ', 'A', 'A', 'A', 'A'].length - 1)
        [' ', 'A'] ([' ', 'A'].length - 1) (Matrix.fill 6 3 INF) 1 (-1) (-715827883) 1
        = some (v, memo', log) ∧
      (∀ a b w, Event.write a b w ∈ log →
        w = R32 [' ', 'A', 'A', 'A', 'A'] [' ', 'A'] 1 (-1) (-715827883) a b) ∧
      ∀ a b, R32 [' ', 'A', 'A', 'A', 'A'] [' ', 'A'] 1 (-1) (-715827883) a b ≠ INF →
        writesAt a b log ≤ 1 :=
  ⟨by simp [R32, add32, wrap32, INF], by simp [R32, add32, wrap32, max3, INF],
   opt_write_once ArgOrder.dul [' ', 'A', 'A', 'A', 'A'] [' ', 'A'] 1 (-1) (-715827883)
    (Matrix.fill 6 3 INF) (by decide) (by decide) (by decide) (by decide) (fill_sentinel 6 3)⟩

/-- C14: the fixed tie-break of `traceback`.  Over any table with at least `|s|`
rows and `|t|` columns, the iterations of the loop (which yield the printed
strings) each start at a cell with `row > 0` and `col > 0` and follow the
order above, left, diagonal, the sums of the two tests formed in `int`: if
`memo[row-1][col] + gap == memo[row][col]` the iteration emits `(s[row], '-')`
and moves to `(row-1, col)`, whatever the left and diagonal candidates are;
otherwise, if `memo[row][col-1] + gap == memo[row][col]`, it emits
`('-', t[col])` and moves to `(row, col-1)`; otherwise it emits
`(s[row], t[col])` and moves to `(row-1, col-1)`. -/
theorem traceback_tie_break (memo : Matrix) (s t : List Char) (gap : Int)
    (hs : s ≠ []) (ht : t ≠ []) (hr : s.length ≤ memo.rows) (hc : t.length ≤ memo.cols) :
    ∃ r c os ot steps,
      traceback32 memo s t gap = some (r, c, os, ot, steps) ∧
      os = (steps.map (fun st => st.outS)).reverse ∧
      ot = (steps.map (fun st => st.outT)).reverse ∧
      Linked (s.length - 1) (t.length - 1) steps r c ∧
      ∀ st ∈ steps, 0 < st.row ∧ 0 < st.col ∧
        (add32 (memo.cells (st.row - 1) st.col) gap = memo.cells st.row st.col →
          st.toRow = st.row - 1 ∧ st.toCol = st.col ∧
            s[st.row]? = some st.outS ∧ st.outT = '-') ∧
        (add32 (memo.cells (st.row - 1) st.col) gap ≠ memo.cells st.row st.col →
          add32 (memo.cells st.row (st.col - 1)) gap = memo.cells st.row st.col →
          st.toRow = st.row ∧ st.toCol = st.col - 1 ∧
            st.outS = '-' ∧ t[st.col]? = some st.outT) ∧
        (add32 (memo.cells (st.row - 1) st.col) gap ≠ memo.cells st.row st.col →
          add32 (memo.cells st.row (st.col - 1)) gap ≠ memo.cells st.row st.col →
          st.toRow = st.row - 1 ∧ st.toCol = st.col - 1 ∧
            s[st.row]? = some st.outS ∧ t[st.col]? = some st.outT) := by
  obtain ⟨r, c, steps, e1, _, _, _, _, hlink, hall⟩ :=
    traceback32_spec memo s t gap hs ht hr hc
  exact ⟨r, c, _, _, steps, e1, rfl, rfl, hlink, fun st hst => (hall st hst).1⟩

/-- Witness of C14.  First the tie of the claim: `s = " AA"`, `t = " A"`, match 1,
mismatch -1, gap 0.  In the table filled by `opt` the above candidate and the
diagonal candidate both give `memo[2][1] = 1`; the first iteration goes above,
and `traceback` prints `AA` and `A-`.  Then a table on which the first test
holds only in `int` arithmetic: 3 rows and 2 columns with `memo[1][1] = INT_MAX`
and `memo[2][1] = INT_MIN`, `s = " AB"`, `t = " B"`, gap 1; the sum
`INT_MAX + 1` wraps around to `INT_MIN`, the first iteration goes above, and
`traceback` prints `AB` and `B-`. -/
theorem traceback_tie_break_witness :
    (∃ memo' log,
      opt32 ArgOrder.dul [' ', 'A', 'A'] 2 [' ', 'A'] 1 (Matrix.fill 4 3 INF) 1 (-1) 0 1
        = some (1, memo', log) ∧
      add32 (memo'.cells 1 1) 0 = memo'.cells 2 1 ∧ add32 (memo'.cells 1 0) 1 = memo'.cells 2 1 ∧
      traceback32 memo' [' ', 'A', 'A'] [' ', 'A'] 0
        = some (0, 0, ['A', 'A'], ['A', '-'],
            [⟨2, 1, 1, 1, 'A', '-'⟩, ⟨1, 1, 0, 0, 'A', 'A'⟩]) ∧
      Linked ([' ', 'A', 'A'].length - 1) ([' ', 'A'].length - 1)
        [⟨2, 1, 1, 1, 'A', '-'⟩, ⟨1, 1, 0, 0, 'A', 'A'⟩] 0 0) ∧
    (traceback32
        ⟨3, 2, fun a b => if a = 1 ∧ b = 1 then 2147483647
          else if a = 2 ∧ b = 1 then -2147483648 else 0⟩
        [' ', 'A', 'B'] [' ', 'B'] 1
      = some (0, 0, ['A', 'B'], ['B', '-'],
          [⟨2, 1, 1, 1, 'B', '-'⟩, ⟨1, 1, 0, 0, 'A', 'B'⟩])) := by
  constructor
  · obtain ⟨memo', log, e, hrw, hcl, hF, _⟩ :=
      opt32_from_sentinel ArgOrder.dul [' ', 'A', 'A'] [' ', 'A'] 1 (-1) 0 2 1
        (Matrix.fill 4 3 INF) 1 (by decide) (by decide) (by decide) (by decide)
        (fill_sentinel 4 3)
    have hrw' : memo'.rows = 4 := hrw
    have hcl' : memo'.cols = 3 := hcl
    have hlog : traceback32 memo' [' ', 'A', 'A'] [' ', 'A'] 0
        = some (0, 0, ['A', 'A'], ['A', '-'],
            [⟨2, 1, 1, 1, 'A', '-'⟩, ⟨1, 1, 0, 0, 'A', 'A'⟩]) := by
      unfold traceback32
      have e0 : ¬ ([' ', 'A', 'A'].length = 0 ∨ [' ', 'A'].length = 0) := by decide
      have e1 : [' ', 'A', 'A'].length - 1 = 2 := by decide
      have e2 : [' ', 'A'].length - 1 = 1 := by decide
      rw [if_neg e0, e1, e2]
      rw [tracebackLoop32_step_filled hF _ _ _ 2 1 _ _ _ (by decide) (by decide) (by decide)
        (by decide) (by omega) (by omega) (by omega) (by omega)]
      simp [R32, add32, wrap32, max3]
      rw [tracebackLoop32_step_filled hF _ _ _ 1 1 _ _ _ (by decide) (by decide) (by decide)
        (by decide) (by omega) (by omega) (by omega) (by omega)]
      simp [R32, add32, wrap32, max3]
      rw [tracebackLoop32_stop _ _ _ _ 0 0 _ _ _ (by decide)]
      simp
    obtain ⟨r, c, os, ot, steps, q1, _, _, hlink, _⟩ :=
      traceback_tie_break memo' [' ', 'A', 'A'] [' ', 'A'] 0 (by decide) (by decide)
        (by rw [hrw']; decide) (by rw [hcl']; decide)
    rw [hlog] at q1
    simp only [Option.some.injEq, Prod.mk.injEq] at q1
    obtain ⟨rfl, rfl, _, _, rfl⟩ := q1
    refine ⟨memo', log, ?_, ?_, ?_, hlog, hlink⟩
    · rw [e]; simp [R32, add32, wrap32, max3]
    · rw [hF 1 1 (by omega) (by omega), hF 2 1 (by omega) (by omega)]
      simp [R32, add32, wrap32, max3]
    · rw [hF 1 0 (by omega) (by omega), hF 2 1 (by omega) (by omega)]
      simp [R32, add32, wrap32, max3]
  · unfold traceback32
    have e0 : ¬ ([' ', 'A', 'B'].length = 0 ∨ [' ', 'B'].length = 0) := by decide
    have e1 : [' ', 'A', 'B'].length - 1 = 2 := by decide
    have e2 : [' ', 'B'].length - 1 = 1 := by decide
    rw [if_neg e0, e1, e2]
    rw [tracebackLoop32_step _ _ _ _ 2 1 _ _ _ (by decide) (by decide) (by decide)
      (by decide) (by decide) (by decide)]
    simp [add32, wrap32]
    rw [tracebackLoop32_step _ _ _ _ 1 1 _ _ _ (by decide) (by decide) (by decide)
      (by decide) (by decide) (by decide)]
    simp [add32, wrap32]
    rw [tracebackLoop32_stop _ _ _ _ 0 0 _ _ _ (by decide)]
    simp

/-- C15: index safety.  For non-empty `s` and `t`, a table with at least `|s|` rows
and `|t|` columns, whatever it holds, and `i < |s|`, `j < |t|`, the runs of
`opt(s, i, t, j, memo, ...)` and of `traceback(memo, s, t, gap)` return a
result, in the plain embedding and in the instrumented one: no access
`s.at(.)`, `t.at(.)`, `memo.at(., .)` is out of range, and no index is
decremented from 0. -/
theorem index_safety (ord : ArgOrder) (s t : List Char) (match_ mismatch gap : Int)
    (i j : Nat) (memo : Matrix) (depth : Nat) (hi : i < s.length) (hj : j < t.length)
    (hr : s.length ≤ memo.rows) (hc : t.length ≤ memo.cols) :
    (∃ res, opt ord s i t j memo match_ mismatch gap = some res) ∧
    (∃ res, optLog ord s i t j memo match_ mismatch gap depth = some res) ∧
    (∃ res, traceback memo s t gap = some res) ∧
    (∃ res, tracebackLog memo s t gap = some res) := by
  have hs : s ≠ [] := by rintro rfl; simp at hi
  have ht : t ≠ [] := by rintro rfl; simp at hj
  obtain ⟨v, memo', log, e1, e2, _⟩ :=
    optLog_run ord s t match_ mismatch gap (i + j) i j memo depth rfl hi hj
      (by omega) (by omega)
  obtain ⟨r, c, steps, q1, q2, _⟩ := tracebackLog_spec memo s t gap hs ht hr hc
  exact ⟨⟨_, e2⟩, ⟨_, e1⟩, ⟨_, q2⟩, ⟨_, q1⟩⟩

/-- Witness of C15 on a 3x2 table of zeros for `s = " AB"`, `t = " B"`. -/
theorem index_safety_witness :
    (∃ res, opt ArgOrder.dul [' ', 'A', 'B'] 2 [' ', 'B'] 1 (Matrix.fill 3 2 0) 1 (-1) (-1)
      = some res) ∧
    (∃ res, optLog ArgOrder.dul [' ', 'A', 'B'] 2 [' ', 'B'] 1 (Matrix.fill 3 2 0) 1 (-1) (-1) 1
      = some res) ∧
    (∃ res, traceback (Matrix.fill 3 2 0) [' ', 'A', 'B'] [' ', 'B'] (-1) = some res) ∧
    (∃ res, tracebackLog (Matrix.fill 3 2 0) [' ', 'A', 'B'] [' ', 'B'] (-1) = some res) :=
  index_safety ArgOrder.dul [' ', 'A', 'B'] [' ', 'B'] 1 (-1) (-1) 2 1 (Matrix.fill 3 2 0) 1
    (by decide) (by decide) (by decide) (by decide)

/-- C16: termination.  For every table contents, strings, penalties and in-range
`(i, j)`, `opt(s, i, t, j, ...)` returns; every recursive call it makes, at any
depth, is at a pair `(a, b)` whose sum is smaller than that of the calling
frame `(ci, cj)`, and its nesting depth (the outer frame has depth 1) is at most
`i + j + 1 <= |s| + |t|`.  The loop of `traceback` ends after at most
`(|s| - 1) + (|t| - 1)` iterations, each of which strictly decreases
`row + col`. -/
theorem termination (ord : ArgOrder) (s t : List Char) (match_ mismatch gap : Int)
    (i j : Nat) (memo : Matrix) (hi : i < s.length) (hj : j < t.length)
    (hr : s.length ≤ memo.rows) (hc : t.length ≤ memo.cols) :
    (∃ v memo' log, optLog ord s i t j memo match_ mismatch gap 1 = some (v, memo', log) ∧
      opt ord s i t j memo match_ mismatch gap = some (v, memo') ∧
      (∀ d ci cj a b, Event.call d ci cj a b ∈ log → a + b < ci + cj ∧ d ≤ i + j + 1) ∧
      i + j + 1 ≤ s.length + t.length) ∧
    (∃ r c os ot steps, tracebackLog memo s t gap = some (r, c, os, ot, steps) ∧
      traceback memo s t gap = some (os, ot) ∧
      steps.length ≤ (s.length - 1) + (t.length - 1) ∧
      ∀ st ∈ steps, st.toRow + st.toCol < st.row + st.col) := by
  have hs : s ≠ [] := by rintro rfl; simp at hi
  have ht : t ≠ [] := by rintro rfl; simp at hj
  obtain ⟨v, memo', log, e1, e2, hrun, _⟩ :=
    optLog_run ord s t match_ mismatch gap (i + j) i j memo 1 rfl hi hj
      (by omega) (by omega)
  obtain ⟨r, c, steps, q1, q2, _, _, _, _, hlen, _, hall⟩ :=
    tracebackLog_spec memo s t gap hs ht hr hc
  refine ⟨⟨v, memo', log, e1, e2, ?_, by omega⟩, ⟨r, c, _, _, steps, q1, q2, by omega, ?_⟩⟩
  · intro d ci cj a b hmem
    have := hrun.calls d ci cj a b hmem
    omega
  · intro st hst
    exact (hall st hst).2.2.2

/-- Witness of C16 on a sentinel-filled 3x2 table for `s = " AB"`, `t = " B"`. -/
theorem termination_witness :
    (∃ v memo' log,
      optLog ArgOrder.dul [' ', 'A', 'B'] 2 [' ', 'B'] 1 (Matrix.fill 3 2 INF) 1 (-1) (-1) 1
        = some (v, memo', log) ∧
      opt ArgOrder.dul [' ', 'A', 'B'] 2 [' ', 'B'] 1 (Matrix.fill 3 2 INF) 1 (-1) (-1)
        = some (v, memo') ∧
      (∀ d ci cj a b, Event.call d ci cj a b ∈ log → a + b < ci + cj ∧ d ≤ 2 + 1 + 1) ∧
      2 + 1 + 1 ≤ [' ', 'A', 'B'].length + [' ', 'B'].length) ∧
    (∃ r c os ot steps,
      tracebackLog (Matrix.fill 3 2 INF) [' ', 'A', 'B'] [' ', 'B'] (-1)
        = some (r, c, os, ot, steps) ∧
      traceback (Matrix.fill 3 2 INF) [' ', 'A', 'B'] [' ', 'B'] (-1) = some (os, ot) ∧
      steps.length ≤ ([' ', 'A', 'B'].length - 1) + ([' ', 'B'].length - 1) ∧
      ∀ st ∈ steps, st.toRow + st.toCol < st.row + st.col) :=
  termination ArgOrder.dul [' ', 'A', 'B'] [' ', 'B'] 1 (-1) (-1) 2 1 (Matrix.fill 3 2 INF)
    (by decide) (by decide) (by decide) (by decide)

/-- C17, as stated, fails on the code: the claim puts no bound on the recurrence
values, and `opt` stores sums formed in `int`.  With `s = t = " AA"`, match
2000000000, mismatch -1 and gap -1 on the table `main` allocates, the cell
`(2, 2)` holds 1999999998 after `opt(s, 2, t, 2, ...)`, while the recurrence
value `R 2 2` is 4000000000. -/
theorem opt_table_shape_counterexample :
    ∃ v memo' log,
      opt32 ArgOrder.dul [' ', 'A', 'A'] 2 [' ', 'A', 'A'] 2 (Matrix.fill 4 4 INF)
        2000000000 (-1) (-1) 1 = some (v, memo', log) ∧
      memo'.get 2 2 = some 1999999998 ∧
      R [' ', 'A', 'A'] [' ', 'A', 'A'] 2000000000 (-1) (-1) 2 2 = 4000000000 := by
  obtain ⟨memo', log, e, hrw, hcl, hF, _⟩ :=
    opt32_from_sentinel ArgOrder.dul [' ', 'A', 'A'] [' ', 'A', 'A'] 2000000000 (-1) (-1) 2 2
      (Matrix.fill 4 4 INF) 1 (by decide) (by decide) (by decide) (by decide)
      (fill_sentinel 4 4)
  have hrw' : memo'.rows = 4 := hrw
  have hcl' : memo'.cols = 4 := hcl
  refine ⟨_, memo', log, e, ?_, ?_⟩
  · have hv : R32 [' ', 'A', 'A'] [' ', 'A', 'A'] 2000000000 (-1) (-1) 2 2 = 1999999998 := by
      simp [R32, add32, wrap32, max3]
    simp [Matrix.get, hrw', hcl', hF 2 2 le_rfl le_rfl, hv]
  · simp [R, max3]

/-- C17, amended: the shape of the filled table.  After `opt(s, i, t, j, ...)`
returns from a sentinel-filled table, the table has the same shape, every cell
`(a, b)` with `a <= i` and `b <= j` holds `R32 a b`, the recurrence evaluated in
`int` arithmetic (`R32 0 0 = 0`, borders add `gap`, interior is the maximum of
the three candidates, every sum reduced to the range of `int`), and every
other cell of the table still holds the sentinel.  Where no sum the recurrence
forms for the rectangle leaves the range of `int`, every cell of the rectangle
holds the recurrence value `R a b` itself. -/
theorem opt_table_shape (ord : ArgOrder) (s t : List Char) (match_ mismatch gap : Int)
    (i j : Nat) (memo : Matrix) (hi : i < s.length) (hj : j < t.length)
    (hr : i < memo.rows) (hc : j < memo.cols) (hm : SentinelFilled memo) :
    ∃ memo' log, opt32 ord s i t j memo match_ mismatch gap 1
        = some (R32 s t match_ mismatch gap i j, memo', log) ∧
      memo'.rows = memo.rows ∧ memo'.cols = memo.cols ∧
      (∀ a b, a ≤ i → b ≤ j → memo'.get a b = some (R32 s t match_ mismatch gap a b)) ∧
      (∀ a b, a < memo.rows → b < memo.cols → i < a ∨ j < b → memo'.get a b = some INF) ∧
      (NoOverflow s t match_ mismatch gap i j →
        ∀ a b, a ≤ i → b ≤ j → memo'.get a b = some (R s t match_ mismatch gap a b)) := by
  obtain ⟨memo', log, e, hrw, hcl, hF, hfr, _⟩ :=
    opt32_from_sentinel ord s t match_ mismatch gap i j memo 1 hi hj hr hc hm
  refine ⟨memo', log, e, hrw, hcl, ?_, ?_, ?_⟩
  · intro a b ha hb
    have h1 : a < memo'.rows := by rw [hrw]; omega
    have h2 : b < memo'.cols := by rw [hcl]; omega
    simp [Matrix.get, h1, h2, hF a b ha hb]
  · intro a b ha hb hab
    have h1 : a < memo'.rows := by rw [hrw]; omega
    have h2 : b < memo'.cols := by rw [hcl]; omega
    simp [Matrix.get, h1, h2, hfr a b hab, hm a ha b hb]
  · intro hno a b ha hb
    have h1 : a < memo'.rows := by rw [hrw]; omega
    have h2 : b < memo'.cols := by rw [hcl]; omega
    simp [Matrix.get, h1, h2, hF.of_noOverflow hno a b ha hb]

/-- Witness of the amended C17 on the table `main` allocates for `s = " AC"`,
`t = " AGC"` (4 rows, 5 columns), penalties 2, -1, -1: the call at `(2, 3)`
leaves row 3 and column 4 unset, the cell `(2, 3)` holds 3, and no sum leaves the
range of `int`. -/
theorem opt_table_shape_witness :
    R32 [' ', 'A', 'C'] [' ', 'A', 'G', 'C'] 2 (-1) (-1) 2 3 = 3 ∧
    NoOverflow [' ', 'A', 'C'] [' ', 'A', 'G', 'C'] 2 (-1) (-1) 2 3 ∧
    ∃ memo' log, opt32 ArgOrder.dul [' ', 'A', 'C'] 2 [' ', 'A', 'G', 'C'] 3
        (Matrix.fill 4 5 INF) 2 (-1) (-1) 1
        = some (R32 [' ', 'A', 'C'] [' ', 'A', 'G', 'C'] 2 (-1) (-1) 2 3, memo', log) ∧
      memo'.rows = (Matrix.fill 4 5 INF).rows ∧ memo'.cols = (Matrix.fill 4 5 INF).cols ∧
      (∀ a b, a ≤ 2 → b ≤ 3 →
        memo'.get a b = some (R32 [' ', 'A', 'C'] [' ', 'A', 'G', 'C'] 2 (-1) (-1) a b)) ∧
      (∀ a b, a < (Matrix.fill 4 5 INF).rows → b < (Matrix.fill 4 5 INF).cols →
        2 < a ∨ 3 < b → memo'.get a b = some INF) ∧
      (NoOverflow [' ', 'A', 'C'] [' ', 'A', 'G', 'C'] 2 (-1) (-1) 2 3 →
        ∀ a b, a ≤ 2 → b ≤ 3 →
          memo'.get a b = some (R [' ', 'A', 'C'] [' ', 'A', 'G', 'C'] 2 (-1) (-1) a b)) :=
  ⟨by simp [R32, add32, wrap32, max3], noOverflow_AC_AGC,
   opt_table_shape ArgOrder.dul [' ', 'A', 'C'] [' ', 'A', 'G', 'C'] 2 (-1) (-1) 2 3
    (Matrix.fill 4 5 INF) (by decide) (by decide) (by decide) (by decide) (fill_sentinel 4 5)⟩

/-- C18: `traceback` stops at the border without flushing.  For every table with
at least `|s|` rows and `|t|` columns, whatever it holds, non-empty `s` and `t`
containing no `-`, and every gap, the loop ends at a cell `(r, c)` with `r = 0`
or `c = 0`, and removing the gap markers from the two printed strings leaves
exactly the suffixes `s[r+1..]` and `t[c+1..]`: the symbols `s[1..r]` and
`t[1..c]` are not printed. -/
theorem traceback_stops_at_border (memo : Matrix) (s t : List Char) (gap : Int)
    (hs : s ≠ []) (ht : t ≠ []) (hsg : '-' ∉ s) (htg : '-' ∉ t)
    (hr : s.length ≤ memo.rows) (hc : t.length ≤ memo.cols) :
    ∃ r c os ot, tracebackStop memo s t gap = some (r, c) ∧
      traceback memo s t gap = some (os, ot) ∧ (r = 0 ∨ c = 0) ∧
      dropGaps os = s.drop (r + 1) ∧ dropGaps ot = t.drop (c + 1) := by
  have hsl : 0 < s.length := List.length_pos.mpr hs
  have htl : 0 < t.length := List.length_pos.mpr ht
  obtain ⟨r, c, X, Y, eL, _, hb, _, _, hS, hT⟩ :=
    tracebackLoop_spec memo s t gap _ (s.length - 1) (t.length - 1) [] [] rfl
      (by omega) (by omega) (by omega) (by omega)
  refine ⟨r, c, X.reverse, Y.reverse, ?_, ?_, hb, ?_, ?_⟩
  · simp [tracebackStop, sizePred_pos _ hsl, sizePred_pos _ htl, eL]
  · simp [traceback, sizePred_pos _ hsl, sizePred_pos _ htl, eL]
  · rw [dropGaps_reverse, hS (no_gap_marker s hsg), List.reverse_reverse, segment_last]
  · rw [dropGaps_reverse, hT (no_gap_marker t htg), List.reverse_reverse, segment_last]

/-- Witness of C18 at `s = " AB"`, `t = " B"`, match 1, mismatch -1, gap -1, over
the table filled by `opt`: the loop stops at `(1, 0)` and `traceback` prints `B`
and `B`; the symbol `A` of `s` is dropped. -/
theorem traceback_stops_at_border_witness :
    ∃ memo', opt ArgOrder.dul [' ', 'A', 'B'] 2 [' ', 'B'] 1 (Matrix.fill 4 3 INF) 1 (-1) (-1)
        = some (0, memo') ∧
      tracebackStop memo' [' ', 'A', 'B'] [' ', 'B'] (-1) = some (1, 0) ∧
      traceback memo' [' ', 'A', 'B'] [' ', 'B'] (-1) = some (['B'], ['B']) ∧
      dropGaps ['B'] = [' ', 'A', 'B'].drop (1 + 1) ∧
      dropGaps ['B'] = [' ', 'B'].drop (0 + 1) := by
  obtain ⟨memo', e, hrw, hcl, hF⟩ :=
    opt_from_sentinel ArgOrder.dul [' ', 'A', 'B'] [' ', 'B'] 1 (-1) (-1) 2 1
      (Matrix.fill 4 3 INF) (by decide) (by decide) (by decide) (by decide)
      (fill_sentinel 4 3)
  have hrw' : memo'.rows = 4 := hrw
  have hcl' : memo'.cols = 3 := hcl
  have hloop : tracebackLoop memo' [' ', 'A', 'B'] [' ', 'B'] (-1) 2 1 [] []
      = some (1, 0, ['B'], ['B']) := by
    rw [tracebackLoop_step_filled hF _ _ _ 2 1 _ _ (by decide) (by decide) (by decide)
      (by decide) (by omega) (by omega) (by omega) (by omega)]
    simp [R, max3]
    rw [tracebackLoop_stop _ _ _ _ 1 0 _ _ (by decide)]
  have e1 : sizePred [' ', 'A', 'B'].length = 2 := by decide
  have e2 : sizePred [' ', 'B'].length = 1 := by decide
  have hstop : tracebackStop memo' [' ', 'A', 'B'] [' ', 'B'] (-1) = some (1, 0) := by
    unfold tracebackStop
    rw [e1, e2, hloop]
    rfl
  have hout : traceback memo' [' ', 'A', 'B'] [' ', 'B'] (-1) = some (['B'], ['B']) := by
    unfold traceback
    rw [e1, e2, hloop]
    rfl
  obtain ⟨r, c, os, ot, q1, q2, _, d1, d2⟩ :=
    traceback_stops_at_border memo' [' ', 'A', 'B'] [' ', 'B'] (-1) (by decide) (by decide)
      (by decide) (by decide) (by rw [hrw']; decide) (by rw [hcl']; decide)
  rw [hstop] at q1
  rw [hout] at q2
  simp only [Option.some.injEq, Prod.mk.injEq] at q1 q2
  obtain ⟨rfl, rfl⟩ := q1
  obtain ⟨rfl, rfl⟩ := q2
  refine ⟨memo', ?_, hstop, hout, d1, d2⟩
  rw [e]; simp [R, max3]

/-- C19, as stated, fails on the code: the claim puts no bound on the scores, and
`opt` forms the sums in `int`.  With `s = " AA"`, `t = " "`, match 1, mismatch
-1 and `gap = -2147483648` on the table `main` allocates, `opt(s, 2, t, 0, ...)`
returns 0 (the second border sum wraps around), `traceback` stops at once at
the border cell `(2, 0)` and prints two empty strings, whose column scores sum
to 0, while `memo[2][0] - (2 + 0) * gap` is 4294967296. -/
theorem traceback_genuine_predecessors_counterexample :
    ∃ v memo' log,
      opt32 ArgOrder.dul [' ', 'A', 'A'] ([' ', 'A', 'A'].length - 1) [' ']
        ([' '].length - 1) (Matrix.fill 4 2 INF) 1 (-1) (-2147483648) 1 = some (v, memo', log) ∧
      memo'.get 2 0 = some v ∧
      traceback32 memo' [' ', 'A', 'A'] [' '] (-2147483648) = some (2, 0, [], [], []) ∧
      printedScore 1 (-1) (-2147483648) [] []
        ≠ v - ((2 + 0 : Nat) : Int) * (-2147483648) := by
  obtain ⟨memo', log, e, hrw, hcl, hF, _⟩ :=
    opt32_from_sentinel ArgOrder.dul [' ', 'A', 'A'] [' '] 1 (-1) (-2147483648) 2 0
      (Matrix.fill 4 2 INF) 1 (by decide) (by decide) (by decide) (by decide)
      (fill_sentinel 4 2)
  have hrw' : memo'.rows = 4 := hrw
  have hcl' : memo'.cols = 2 := hcl
  have hv : R32 [' ', 'A', 'A'] [' '] 1 (-1) (-2147483648) 2 0 = 0 := by
    simp [R32, add32, wrap32]
  rw [hv] at e
  refine ⟨0, memo', log, e, ?_, ?_, ?_⟩
  · simp [Matrix.get, hrw', hcl', hF 2 0 le_rfl le_rfl, hv]
  · unfold traceback32
    have e0 : ¬ ([' ', 'A', 'A'].length = 0 ∨ [' '].length = 0) := by decide
    have e1 : [' ', 'A', 'A'].length - 1 = 2 := by decide
    have e2 : [' '].length - 1 = 0 := by decide
    rw [if_neg e0, e1, e2, tracebackLoop32_stop _ _ _ _ 2 0 _ _ _ (by decide)]
    simp
  · simp [printedScore]

/-- C19, amended: `traceback` follows only genuine predecessors where no sum
overflows.  For `s` and `t` with a leading placeholder and no `-`, and
penalties such that no sum the recurrence forms for the table leaves the range
of `int`, over the table filled by `opt(s, |s|-1, t, |t|-1, ...)` from a
sentinel-filled table: every column the loop emits when it moves from
`(row, col)` to its predecessor scores exactly
`memo[row][col] - memo[predecessor]`; in the fall-through diagonal branch
`memo[row-1][col-1] + (match or mismatch) == memo[row][col]`; and the column
scores of the two printed strings sum to `memo[|s|-1][|t|-1] - (r + c) * gap`,
where `(r, c)` is the border cell at which the loop stops. -/
theorem traceback_genuine_predecessors (ord : ArgOrder) (s t : List Char)
    (match_ mismatch gap : Int) (memo : Matrix) (hs : s ≠ []) (ht : t ≠ [])
    (hsg : '-' ∉ s) (htg : '-' ∉ t)
    (hr : s.length ≤ memo.rows) (hc : t.length ≤ memo.cols) (hm : SentinelFilled memo)
    (hno : NoOverflow s t match_ mismatch gap (s.length - 1) (t.length - 1)) :
    ∃ v memo' log r c os ot steps,
      opt32 ord s (s.length - 1) t (t.length - 1) memo match_ mismatch gap 1
        = some (v, memo', log) ∧
      memo'.get (s.length - 1) (t.length - 1) = some v ∧
      traceback32 memo' s t gap = some (r, c, os, ot, steps) ∧
      (r = 0 ∨ c = 0) ∧
      (∀ st ∈ steps, printedColumnScore match_ mismatch gap st.outS st.outT
        = memo'.cells st.row st.col - memo'.cells st.toRow st.toCol) ∧
      (∀ st ∈ steps,
        add32 (memo'.cells (st.row - 1) st.col) gap ≠ memo'.cells st.row st.col →
        add32 (memo'.cells st.row (st.col - 1)) gap ≠ memo'.cells st.row st.col →
        memo'.cells (st.row - 1) (st.col - 1)
            + (if s[st.row]? = t[st.col]? then match_ else mismatch)
          = memo'.cells st.row st.col) ∧
      printedScore match_ mismatch gap os ot = v - ((r + c : Nat) : Int) * gap := by
  have hsl : 0 < s.length := List.length_pos.mpr hs
  have htl : 0 < t.length := List.length_pos.mpr ht
  obtain ⟨memo', log, e, hrw, hcl, hF32, _⟩ :=
    opt32_from_sentinel ord s t match_ mismatch gap (s.length - 1) (t.length - 1) memo 1
      (by omega) (by omega) (by omega) (by omega) hm
  have hF : Filled (R s t match_ mismatch gap) memo' (s.length - 1) (t.length - 1) :=
    hF32.of_noOverflow hno
  obtain ⟨r, c, steps, q1, hrr, hcc, hb, _, hlink, hall⟩ :=
    traceback32_spec memo' s t gap hs ht (by omega) (by omega)
  have hex : ∀ st ∈ steps,
      add32 (memo'.cells (st.row - 1) st.col) gap = memo'.cells (st.row - 1) st.col + gap ∧
      add32 (memo'.cells st.row (st.col - 1)) gap = memo'.cells st.row (st.col - 1) + gap ∧
      StepRule memo' s t gap st :=
    fun st hst => (hall st hst).1.toStepRule hF hno (hall st hst).2.1 (hall st hst).2.2.1
  have hstep : ∀ st ∈ steps,
      printedColumnScore match_ mismatch gap st.outS st.outT
          = memo'.cells st.row st.col - memo'.cells st.toRow st.toCol ∧
      (memo'.cells (st.row - 1) st.col + gap ≠ memo'.cells st.row st.col →
        memo'.cells st.row (st.col - 1) + gap ≠ memo'.cells st.row st.col →
        memo'.cells (st.row - 1) (st.col - 1)
            + (if s[st.row]? = t[st.col]? then match_ else mismatch)
          = memo'.cells st.row st.col) :=
    fun st hst => step_score_filled s t match_ mismatch gap memo' _ _ hF
      (no_gap_marker s hsg) (no_gap_marker t htg) st (hex st hst).2.2 (hall st hst).2.1
      (hall st hst).2.2.1
  have hR : R32 s t match_ mismatch gap (s.length - 1) (t.length - 1)
      = R s t match_ mismatch gap (s.length - 1) (t.length - 1) :=
    R32_eq_R s t match_ mismatch gap _ _ hno _ _ _ rfl le_rfl le_rfl
  refine ⟨_, memo', log, r, c, _, _, steps, e, ?_, q1, hb, fun st hst => (hstep st hst).1,
    ?_, ?_⟩
  · have h1 : s.length - 1 < memo'.rows := by omega
    have h2 : t.length - 1 < memo'.cols := by omega
    simp [Matrix.get, h1, h2, hF32 _ _ le_rfl le_rfl]
  · intro st hst h1 h2
    rw [(hex st hst).1] at h1
    rw [(hex st hst).2.1] at h2
    exact (hstep st hst).2 h1 h2
  · rw [printedScore_steps,
      hlink.telescope _ (fun a b => memo'.cells a b) (fun st hst => (hstep st hst).1),
      hF _ _ le_rfl le_rfl, hF r c hrr hcc, R_border s t match_ mismatch gap r c hb, hR]

/-- Witness of the amended C19 at `s = " AC"`, `t = " AGC"`, penalties 2, -1,
-1. -/
theorem traceback_genuine_predecessors_witness :
    ∃ v memo' log r c os ot steps,
      opt32 ArgOrder.dul [' ', 'A', 'C'] ([' ', 'A', 'C'].length - 1) [' ', 'A', 'G', 'C']
        ([' ', 'A', 'G', 'C'].length - 1) (Matrix.fill 4 5 INF) 2 (-1) (-1) 1
        = some (v, memo', log) ∧
      memo'.get ([' ', 'A', 'C'].length - 1) ([' ', 'A', 'G', 'C'].length - 1) = some v ∧
      traceback32 memo' [' ', 'A', 'C'] [' ', 'A', 'G', 'C'] (-1) = some (r, c, os, ot, steps) ∧
      (r = 0 ∨ c = 0) ∧
      (∀ st ∈ steps, printedColumnScore 2 (-1) (-1) st.outS st.outT
        = memo'.cells st.row st.col - memo'.cells st.toRow st.toCol) ∧
      (∀ st ∈ steps,
        add32 (memo'.cells (st.row - 1) st.col) (-1) ≠ memo'.cells st.row st.col →
        add32 (memo'.cells st.row (st.col - 1)) (-1) ≠ memo'.cells st.row st.col →
        memo'.cells (st.row - 1) (st.col - 1)
            + (if [' ', 'A', 'C'][st.row]? = [' ', 'A', 'G', 'C'][st.col]? then 2 else (-1))
          = memo'.cells st.row st.col) ∧
      printedScore 2 (-1) (-1) os ot = v - ((r + c : Nat) : Int) * (-1) :=
  traceback_genuine_predecessors ArgOrder.dul [' ', 'A', 'C'] [' ', 'A', 'G', 'C'] 2 (-1) (-1)
    (Matrix.fill 4 5 INF) (by decide) (by decide) (by decide) (by decide)
    (by decide) (by decide) (fill_sentinel 4 5) noOverflow_AC_AGC


end Align

namespace Queens

/-! ## `count_collisions` counts the pairs on a common diagonal -/

theorem usub_eq (a b : Nat) (hb : b ≤ a) (ha : a < UINT) : usub a b = a - b := by
  unfold usub
  have h1 : b % UINT = b := Nat.mod_eq_of_lt (by omega)
  rw [h1]
  have h2 : a + UINT - b = (a - b) + UINT := by omega
  rw [h2, Nat.add_mod_right]
  exact Nat.mod_eq_of_lt (by omega)

theorem innerLoop_spec (perm : List Nat) (n col : Nat) (hn : n = perm.length)
    (hcol : col < n) (hsmall : 2 * n < UINT) (hent : ∀ x ∈ perm, x ≤ n) :
    ∀ (k trycol c t : Nat), n - trycol = k → col ≤ trycol → trycol ≤ n →
      c + ((List.range' trycol k).filter
            (fun b => decide (col < b ∧ onDiagonal perm col b))).length < UINT →
      ∃ t', innerLoop perm n col trycol c t
        = some (c + ((List.range' trycol k).filter
            (fun b => decide (col < b ∧ onDiagonal perm col b))).length, t') := by
  intro k
  induction k with
  | zero =>
    intro trycol c t hk _ hle _
    have h : ¬ trycol < n := by omega
    rw [innerLoop.eq_def]
    simp [h]
  | succ k ih =>
    intro trycol c t hk hct hle hov
    have hlt : trycol < n := by omega
    rw [List.range'_succ] at hov ⊢
    rw [innerLoop.eq_def]
    simp only [hlt, if_true]
    by_cases heq : col = trycol
    · subst heq
      rw [List.filter_cons_of_neg (by simp)] at hov ⊢
      simp only [ne_eq, not_true_eq_false, if_false]
      exact ih (col + 1) c t (by omega) (by omega) (by omega) hov
    · have hlt2 : col < trycol := by omega
      have hc : col < perm.length := by omega
      have ht : trycol < perm.length := by omega
      have ha : perm[col]? = some perm[col] := List.getElem?_eq_getElem hc
      have hb : perm[trycol]? = some perm[trycol] := List.getElem?_eq_getElem ht
      have hale : perm[col] ≤ n := hent _ (List.getElem_mem hc)
      have hble : perm[trycol] ≤ n := hent _ (List.getElem_mem ht)
      have u1 : usub n col = n - col := usub_eq n col (by omega) (by omega)
      have u2 : usub n trycol = n - trycol := usub_eq n trycol (by omega) (by omega)
      have m1 : (n - col + perm[col]) % UINT = n - col + perm[col] :=
        Nat.mod_eq_of_lt (by omega)
      have m2 : (n - trycol + perm[trycol]) % UINT = n - trycol + perm[trycol] :=
        Nat.mod_eq_of_lt (by omega)
      have m3 : (perm[col] + col + 1) % UINT = perm[col] + col + 1 :=
        Nat.mod_eq_of_lt (by omega)
      have m4 : (perm[trycol] + trycol + 1) % UINT = perm[trycol] + trycol + 1 :=
        Nat.mod_eq_of_lt (by omega)
      have hdiag : onDiagonal perm col trycol ↔
          (n - col + perm[col] = n - trycol + perm[trycol] ∨
            perm[col] + col + 1 = perm[trycol] + trycol + 1) := by
        unfold onDiagonal
        rw [List.getD_eq_getElem _ _ hc, List.getD_eq_getElem _ _ ht]
        omega
      simp only [ne_eq, heq, not_false_eq_true, if_true, ha, hb, Option.bind_eq_bind,
        Option.some_bind, u1, u2, m1, m2, m3, m4]
      by_cases hd : onDiagonal perm col trycol
      · rw [List.filter_cons_of_pos (by simp [hlt2, hd])] at hov ⊢
        simp only [List.length_cons] at hov ⊢
        have mc : (c + 1) % UINT = c + 1 := Nat.mod_eq_of_lt (by omega)
        rcases hdiag.mp hd with h1 | h2
        · have h2 : ¬ (perm[col] + col + 1 = perm[trycol] + trycol + 1) := by omega
          simp only [h1, h2, if_true, if_false, mc]
          obtain ⟨t', e⟩ := ih (trycol + 1) (c + 1) ((t + 1) % UINT) (by omega) (by omega)
            (by omega) (by omega)
          exact ⟨t', by rw [e]; congr 2; omega⟩
        · have h1 : ¬ (n - col + perm[col] = n - trycol + perm[trycol]) := by omega
          simp only [h1, h2, if_true, if_false, mc]
          obtain ⟨t', e⟩ := ih (trycol + 1) (c + 1) ((t + 1) % UINT) (by omega) (by omega)
            (by omega) (by omega)
          exact ⟨t', by rw [e]; congr 2; omega⟩
      · rw [List.filter_cons_of_neg (by simp [hd])] at hov ⊢
        have h1 : ¬ (n - col + perm[col] = n - trycol + perm[trycol]) :=
          fun h => hd (hdiag.mpr (Or.inl h))
        have h2 : ¬ (perm[col] + col + 1 = perm[trycol] + trycol + 1) :=
          fun h => hd (hdiag.mpr (Or.inr h))
        simp only [h1, h2, if_false]
        exact ih (trycol + 1) c t (by omega) (by omega) (by omega) hov

theorem outerLoop_spec (perm : List Nat) (n : Nat) (hn : n = perm.length)
    (hsmall : 2 * n < UINT) (hent : ∀ x ∈ perm, x ≤ n) :
    ∀ (k col c t : Nat), n - col = k → col ≤ n →
      c + ((List.range' col k).map (fun a =>
            ((List.range' a (n - a)).filter
              (fun b => decide (a < b ∧ onDiagonal perm a b))).length)).sum < UINT →
      ∃ t', outerLoop perm n col c t
        = some (c + ((List.range' col k).map (fun a =>
            ((List.range' a (n - a)).filter
              (fun b => decide (a < b ∧ onDiagonal perm a b))).length)).sum, t') := by
  intro k
  induction k with
  | zero =>
    intro col c t hk hle _
    have h : ¬ col < n := by omega
    rw [outerLoop.eq_def]
    simp [h]
  | succ k ih =>
    intro col c t hk hle hov
    have hlt : col < n := by omega
    rw [List.range'_succ, List.map_cons, List.sum_cons] at hov ⊢
    obtain ⟨t1, e1⟩ := innerLoop_spec perm n col hn hlt hsmall hent (n - col) col c t rfl
      le_rfl hle (by omega)
    obtain ⟨t2, e2⟩ := ih (col + 1)
      (c + ((List.range' col (n - col)).filter
        (fun b => decide (col < b ∧ onDiagonal perm col b))).length) t1
      (by omega) (by omega) (by omega)
    rw [outerLoop.eq_def]
    simp only [hlt, if_true, e1, Option.bind_eq_bind, Option.some_bind, e2]
    exact ⟨t2, by congr 2; omega⟩

theorem row_count_eq (perm : List Nat) (n a : Nat) (ha : a ≤ n) :
    ((List.range n).filter (fun b => decide (a < b ∧ onDiagonal perm a b))).length
      = ((List.range' a (n - a)).filter
          (fun b => decide (a < b ∧ onDiagonal perm a b))).length := by
  have hsplit : List.range n = List.range' 0 a ++ List.range' a (n - a) := by
    rw [List.range_eq_range']
    have := List.range'_append_1 0 a (n - a)
    rw [Nat.zero_add, Nat.sub_add_cancel ha] at this
    exact this.symm
  have hnil : (List.range' 0 a).filter (fun b => decide (a < b ∧ onDiagonal perm a b)) = [] := by
    rw [List.filter_eq_nil_iff]
    intro b hb
    rw [List.mem_range'_1] at hb
    simp only [decide_eq_true_eq, not_and]
    intro h
    omega
  rw [hsplit, List.filter_append, hnil, List.nil_append]

theorem diagonalPairs_eq (perm : List Nat) :
    diagonalPairs perm
      = ((List.range' 0 perm.length).map (fun a =>
          ((List.range' a (perm.length - a)).filter
            (fun b => decide (a < b ∧ onDiagonal perm a b))).length)).sum := by
  unfold diagonalPairs
  rw [← List.range_eq_range']
  congr 1
  apply List.map_congr_left
  intro a ha
  exact row_count_eq perm perm.length a (le_of_lt (List.mem_range.mp ha))

theorem diagonalPairs_eq_zero (perm : List Nat) :
    diagonalPairs perm = 0 ↔
      ∀ a b, a < b → b < perm.length → ¬ onDiagonal perm a b := by
  unfold diagonalPairs
  rw [List.sum_eq_zero_iff]
  constructor
  · intro h a b hab hb hd
    have h0 := h _ (List.mem_map.mpr ⟨a, List.mem_range.mpr (by omega), rfl⟩)
    rw [List.length_eq_zero, List.filter_eq_nil_iff] at h0
    exact h0 b (List.mem_range.mpr hb) (by simp [hab, hd])
  · intro h x hx
    obtain ⟨a, _, rfl⟩ := List.mem_map.mp hx
    rw [List.length_eq_zero, List.filter_eq_nil_iff]
    intro b hb
    simp only [decide_eq_true_eq, not_and]
    intro hab
    exact h a b hab (List.mem_range.mp hb)

/-- C20: `count_collisions` counts diagonal attacks.  For every vector `perm` of
length `n` with entries in `1..n`, when no `unsigned` computation overflows
(`2 * n` and the count fit in 32 bits), `count_collisions(perm,
total_comparisons)` returns the number of index pairs `a < b` with
`|perm[a] - perm[b]| = b - a`, each pair counted once; it returns 0 exactly
when no two queens share a diagonal. -/
theorem count_collisions_counts (perm : List Nat) (total_comparisons : Nat)
    (hent : ∀ x ∈ perm, 1 ≤ x ∧ x ≤ perm.length)
    (hsmall : 2 * perm.length < UINT) (hov : diagonalPairs perm < UINT) :
    ∃ total', count_collisions perm total_comparisons = some (diagonalPairs perm, total') ∧
      (diagonalPairs perm = 0 ↔ ∀ a b, a < b → b < perm.length → ¬ onDiagonal perm a b) := by
  have hmod : perm.length % UINT = perm.length := Nat.mod_eq_of_lt (by omega)
  have hov2 := hov
  rw [diagonalPairs_eq] at hov2
  obtain ⟨t', e⟩ := outerLoop_spec perm perm.length rfl hsmall (fun x hx => (hent x hx).2)
    perm.length 0 0 total_comparisons (by omega) (by omega) (by omega)
  refine ⟨t', ?_, diagonalPairs_eq_zero perm⟩
  unfold count_collisions
  rw [hmod, e, diagonalPairs_eq, Nat.zero_add]

/-- Witness of C20 at `perm = [1, 2, 3]`, three queens on one diagonal: the three
pairs are all counted, once each. -/
theorem count_collisions_counts_witness :
    diagonalPairs [1, 2, 3] = 3 ∧
    ∃ total', count_collisions [1, 2, 3] 0 = some (diagonalPairs [1, 2, 3], total') ∧
      (diagonalPairs [1, 2, 3] = 0 ↔
        ∀ a b, a < b → b < [1, 2, 3].length → ¬ onDiagonal [1, 2, 3] a b) :=
  ⟨by decide, count_collisions_counts [1, 2, 3] 0 (by decide) (by decide) (by decide)⟩

end Queens
